import Mathlib

/-! Rule engine of the two-player grid game in `src/App.jsx`.

A shallow embedding of the game logic of the React component `KlopyGame`:
the board and its cells, the neighbourhood function, the legal-move
computation, the flood fill over connected enemy groups, the enclosure
tests and the encirclement pass.

Conventions of the embedding.

* A JavaScript position `[row, col]` and its set key `"row,col"` are both the
  pair `(row, col) : Nat × Nat`; the key encoding is injective on naturals.
* A JavaScript `Set` is the list of its elements in insertion order,
  `add` appending an element that is not yet present.  A `Map` is the list of
  its entries in insertion order.
* The component state `grid`, `gridSize` is passed explicitly.  The player
  list is the constant `players` (ids `1` and `2`, never changed by the code).
* The rule functions of the board return values only; the turn engine below
  works on the record `GameState` of the React state variables.  One run of an
  event handler or of an effect is a function of the state of the render it
  belongs to: every state variable it reads has the value of that render, and
  the `set...` calls of the run take effect together, after the run.
* A log message is the entry `LogEntry` of its `addLog` call site, without the
  time stamp.
-/

namespace KlopyGame

/-! ## Data model -/

/-- The three values of `CELL_TYPES`. -/
inductive CellType where
  | empty
  | active
  | infected
  deriving DecidableEq, Repr

/-- A grid cell `{ type, owner }`; `owner` is `null` (`none`) or a player id. -/
structure Cell where
  type : CellType
  owner : Option Nat
  deriving DecidableEq, Repr

/-- A position `[row, col]`. -/
abbrev Pos := Nat × Nat

/-- The grid: an array of rows, each an array of cells. -/
abbrev Grid := List (List Cell)

/-- The cell `{ type: 'empty', owner: null }` created by `initializeGrid`. -/
def emptyCell : Cell := ⟨CellType.empty, none⟩

/-- Partial lookup `grid[row][col]`: `none` where JavaScript raises a
`TypeError` or yields `undefined`. -/
def Grid.cell? (g : Grid) (row col : Nat) : Option Cell :=
  match g[row]? with
  | some cells => cells[col]?
  | none => none

/-- Lookup `grid[row][col]`.  Every access made by the rule functions below is
in range on an `N × N` grid with `gridSize = N` (positions come from loops over
`0 .. gridSize - 1` or from `getNeighbors`); out of range the value is the
empty cell. -/
def Grid.cell (g : Grid) (row col : Nat) : Cell :=
  (g.cell? row col).getD emptyCell

/-- The assignment `newGrid[row][col] = v` on the copied grid; the engine only
writes positions that are in range, elsewhere the grid is left as it is. -/
def Grid.setCell (g : Grid) (row col : Nat) (v : Cell) : Grid :=
  match g[row]? with
  | some cells => g.set row (cells.set col v)
  | none => g

/-- The ids of the two entries of the `players` state. -/
def players : List Nat := [1, 2]

/-- Source function `initializeGrid(size)`. -/
def initializeGrid (size : Nat) : Grid :=
  List.replicate size (List.replicate size emptyCell)

/-! ## Sets and maps in insertion order -/

/-- The test `set.has(key)`. -/
def setHas (s : List Pos) (k : Pos) : Bool := s.contains k

/-- The update `set.add(key)`. -/
def setAdd (s : List Pos) (k : Pos) : List Pos :=
  if setHas s k then s else s ++ [k]

/-- The update `map.set(key, value)`. -/
def mapSet (m : List (Nat × List Pos)) (k : Nat) (v : List Pos) : List (Nat × List Pos) :=
  if m.any (fun e => e.1 == k) then m.map (fun e => if e.1 == k then (k, v) else e)
  else m ++ [(k, v)]

/-! ## Board queries -/

/-- Source function `getNeighbors(row, col)`.  The test `row < gridSize - 1` is
read over the naturals; for `gridSize = 0` both readings are false. -/
def getNeighbors (gridSize : Nat) (row col : Nat) : List Pos :=
  let neighbors : List Pos := []
  let neighbors := if row > 0 then neighbors ++ [(row - 1, col)] else neighbors
  let neighbors := if row < gridSize - 1 then neighbors ++ [(row + 1, col)] else neighbors
  let neighbors := if col > 0 then neighbors ++ [(row, col - 1)] else neighbors
  let neighbors := if col < gridSize - 1 then neighbors ++ [(row, col + 1)] else neighbors
  neighbors

/-- Source function `isAdjacentToPlayer(row, col, playerId)`. -/
def isAdjacentToPlayer (gridSize : Nat) (g : Grid) (row col : Nat) (playerId : Nat) : Bool :=
  (getNeighbors gridSize row col).any (fun p => (g.cell p.1 p.2).owner == some playerId)

/-- The result `{ birth, attack }` of `calculateAvailableActions`. -/
structure Actions where
  birth : List Pos
  attack : List Pos
  deriving DecidableEq, Repr

/-- The body of the inner loop of `calculateAvailableActions` at `(row, col)`:
the two `if` statements with their `push`. -/
def actionsAtCell (gridSize : Nat) (g : Grid) (playerId : Nat) (row : Nat)
    (acc : Actions) (col : Nat) : Actions :=
  let cell := g.cell row col
  let acc :=
    if cell.type = CellType.empty ∧ isAdjacentToPlayer gridSize g row col playerId = true then
      { acc with birth := acc.birth ++ [(row, col)] }
    else acc
  let acc :=
    if cell.type = CellType.active ∧ cell.owner ≠ some playerId ∧
        isAdjacentToPlayer gridSize g row col playerId = true then
      { acc with attack := acc.attack ++ [(row, col)] }
    else acc
  acc

/-- Source function `calculateAvailableActions(playerId)`: the two nested loops
over the board. -/
def calculateAvailableActions (gridSize : Nat) (g : Grid) (playerId : Nat) : Actions :=
  (List.range gridSize).foldl (fun acc row =>
    (List.range gridSize).foldl (actionsAtCell gridSize g playerId row) acc) ⟨[], []⟩

/-! ## Flood fill over a connected enemy group -/

/-- The variables of the `while` loop of `findConnectedEnemyGroup`; `visited` is
the caller's set, which the loop mutates. -/
structure FloodState where
  queue : List Pos
  localVisited : List Pos
  visited : List Pos
  group : List Pos
  deriving DecidableEq, Repr

/-- The `for` loop over the neighbours inside `findConnectedEnemyGroup`: a
neighbour that is in neither visited set and is an active cell of the enemy is
pushed on the queue. -/
def pushNeighbors (g : Grid) (enemyPlayerId : Nat) (localVisited visited : List Pos)
    (neighbors : List Pos) (queue : List Pos) : List Pos :=
  neighbors.foldl (fun queue n =>
    if !setHas localVisited n && !setHas visited n then
      let neighborCell := g.cell n.1 n.2
      if neighborCell.type = CellType.active ∧ neighborCell.owner = some enemyPlayerId then
        queue ++ [n]
      else queue
    else queue) queue

/-- One iteration of the `while` loop of `findConnectedEnemyGroup`, after
`queue.shift()` returned `p` and left `rest`. -/
def floodIter (gridSize : Nat) (g : Grid) (enemyPlayerId : Nat) (s : FloodState)
    (p : Pos) (rest : List Pos) : FloodState :=
  if setHas s.localVisited p || setHas s.visited p then { s with queue := rest }
  else
    let cell := g.cell p.1 p.2
    if cell.type ≠ CellType.active ∨ cell.owner ≠ some enemyPlayerId then { s with queue := rest }
    else
      let localVisited := setAdd s.localVisited p
      let visited := setAdd s.visited p
      let group := s.group ++ [p]
      let queue := pushNeighbors g enemyPlayerId localVisited visited
        (getNeighbors gridSize p.1 p.2) rest
      { queue := queue, localVisited := localVisited, visited := visited, group := group }

/-- The `while (queue.length > 0)` loop, run for at most `fuel` iterations. -/
def floodLoop (gridSize : Nat) (g : Grid) (enemyPlayerId : Nat) : Nat → FloodState → FloodState
  | 0, s => s
  | fuel + 1, s =>
    match s.queue with
    | [] => s
    | p :: rest => floodLoop gridSize g enemyPlayerId fuel (floodIter gridSize g enemyPlayerId s p rest)

/-- Number of iterations that always empties the queue on an `N × N` grid: every
iteration removes one queue entry and only an iteration that marks a new board
position adds entries, at most four of them. -/
def floodFuel (gridSize : Nat) : Nat := 4 * gridSize * gridSize + 1

/-- The loop state in which `findConnectedEnemyGroup` leaves its `while` loop. -/
def floodFinal (gridSize : Nat) (g : Grid) (startRow startCol enemyPlayerId : Nat)
    (visited : List Pos) : FloodState :=
  floodLoop gridSize g enemyPlayerId (floodFuel gridSize)
    { queue := [(startRow, startCol)], localVisited := [], visited := visited, group := [] }

/-- Source function `findConnectedEnemyGroup(startRow, startCol, enemyPlayerId, visited)`: the
returned group together with the updated `visited` set. -/
def findConnectedEnemyGroup (gridSize : Nat) (g : Grid) (startRow startCol enemyPlayerId : Nat)
    (visited : List Pos) : List Pos × List Pos :=
  let s := floodFinal gridSize g startRow startCol enemyPlayerId visited
  (s.group, s.visited)

/-! ## Enclosure tests -/

/-- Source function `isGroupSurrounded(group, attackerPlayerId)`: the two nested `for` loops
returning `false` at the first outside neighbour not owned by the attacker. -/
def isGroupSurrounded (gridSize : Nat) (g : Grid) (group : List Pos) (attackerPlayerId : Nat) :
    Bool :=
  group.all (fun p =>
    (getNeighbors gridSize p.1 p.2).all (fun n =>
      let neighborCell := g.cell n.1 n.2
      let isInGroup := group.any (fun q => q.1 == n.1 && q.2 == n.2)
      if isInGroup then true
      else if neighborCell.owner ≠ some attackerPlayerId then false
      else true))

/-- The set `regionCells` built by the first loop of `hasEmptyCellsInRegion`. -/
def regionCells (gridSize : Nat) (group : List Pos) : List Pos :=
  group.foldl (fun region p =>
    (getNeighbors gridSize p.1 p.2).foldl setAdd (setAdd region p)) []

/-- Source function `hasEmptyCellsInRegion(group)`. -/
def hasEmptyCellsInRegion (gridSize : Nat) (g : Grid) (group : List Pos) : Bool :=
  (regionCells gridSize group).any (fun p => (g.cell p.1 p.2).type == CellType.empty)

/-! ## The encirclement pass -/

/-- The two sets threaded through the scan of `checkAndInfectSurroundedByPlayer`. -/
structure ScanState where
  toInfect : List Pos
  visited : List Pos
  deriving DecidableEq, Repr

/-- The body of the inner loop of `checkAndInfectSurroundedByPlayer` at
`(row, col)`.  With `useRegionCheck = true` this is the source; with `false` it
is the variant in which the `hasEmptyCellsInRegion` test is removed. -/
def scanCellWith (useRegionCheck : Bool) (gridSize : Nat) (g : Grid)
    (attackerPlayerId enemyPlayerId : Nat) (row : Nat) (s : ScanState) (col : Nat) : ScanState :=
  if setHas s.visited (row, col) then s
  else
    let cell := g.cell row col
    if cell.type = CellType.active ∧ cell.owner = some enemyPlayerId then
      let found := findConnectedEnemyGroup gridSize g row col enemyPlayerId s.visited
      let group := found.1
      let s := { s with visited := found.2 }
      if group.length > 0 then
        if isGroupSurrounded gridSize g group attackerPlayerId then
          if group.length = 1 then
            { s with toInfect := group.foldl setAdd s.toInfect }
          else if useRegionCheck then
            if !hasEmptyCellsInRegion gridSize g group then
              { s with toInfect := group.foldl setAdd s.toInfect }
            else s
          else { s with toInfect := group.foldl setAdd s.toInfect }
        else s
      else s
    else s

/-- The scan of the whole board for one enemy player. -/
def scanBoardWith (useRegionCheck : Bool) (gridSize : Nat) (g : Grid)
    (attackerPlayerId enemyPlayerId : Nat) (s : ScanState) : ScanState :=
  (List.range gridSize).foldl (fun s row =>
    (List.range gridSize).foldl
      (scanCellWith useRegionCheck gridSize g attackerPlayerId enemyPlayerId row) s) s

/-- The loop over `players` of `checkAndInfectSurroundedByPlayer`, skipping the
attacker. -/
def scanPlayersWith (useRegionCheck : Bool) (gridSize : Nat) (g : Grid)
    (attackerPlayerId : Nat) : ScanState :=
  players.foldl (fun s player =>
    if player = attackerPlayerId then s
    else scanBoardWith useRegionCheck gridSize g attackerPlayerId player s) ⟨[], []⟩

/-- The result `{ toInfect, attackerId }` of `checkAndInfectSurroundedByPlayer`. -/
structure InfectResult where
  toInfect : List Pos
  attackerId : Nat
  deriving DecidableEq, Repr

/-- Source function `checkAndInfectSurroundedByPlayer(attackerPlayerId)`. -/
def checkAndInfectSurroundedByPlayer (gridSize : Nat) (g : Grid) (attackerPlayerId : Nat) :
    InfectResult :=
  { toInfect := (scanPlayersWith true gridSize g attackerPlayerId).toInfect,
    attackerId := attackerPlayerId }

/-- The variant of `checkAndInfectSurroundedByPlayer` without the
`hasEmptyCellsInRegion` test. -/
def checkAndInfectSurroundedByPlayerNoRegionCheck (gridSize : Nat) (g : Grid)
    (attackerPlayerId : Nat) : InfectResult :=
  { toInfect := (scanPlayersWith false gridSize g attackerPlayerId).toInfect,
    attackerId := attackerPlayerId }

/-- The `cells.forEach` of `checkAndInfectSurrounded`: every listed cell of the
new grid becomes `{ type: 'infected', owner: attackerId }`. -/
def applyInfection (g : Grid) (attackerId : Nat) (cells : List Pos) : Grid :=
  cells.foldl (fun newGrid p =>
    newGrid.setCell p.1 p.2 ⟨CellType.infected, some attackerId⟩) g

/-- The map `totalInfected` built by the first loop of `checkAndInfectSurrounded`. -/
def totalInfected (gridSize : Nat) (g : Grid) : List (Nat × List Pos) :=
  players.foldl (fun total player =>
    let res := checkAndInfectSurroundedByPlayer gridSize g player
    if res.toInfect.length > 0 then mapSet total res.attackerId res.toInfect else total) []

/-- Source function `checkAndInfectSurrounded()`: the grid after the call (the new grid passed
to `setGrid`, or the old grid when nothing is infected). -/
def checkAndInfectSurrounded (gridSize : Nat) (g : Grid) : Grid :=
  let total := totalInfected gridSize g
  if total.length > 0 then
    total.foldl (fun newGrid entry => applyInfection newGrid entry.1 entry.2) g
  else g

/-! ## Turn engine -/

/-- The four values of `GAME_PHASES`. -/
inductive GamePhase where
  | setup
  | placement
  | playing
  | ended
  deriving DecidableEq, Repr

/-- A message passed to `addLog`: one constructor per call site, carrying the
values its template string interpolates.  A player is named by its index in
`players`, the attacker of an encirclement by its id. -/
inductive LogEntry where
  | placesFirst (player : Nat)
  | encircledOne (attackerId : Nat)
  | encircledMany (attackerId : Nat) (count : Nat)
  | placed (player : Nat) (row col : Int)
  | placesNext (player : Nat)
  | gameStarted (player : Nat)
  | born (player : Nat) (row col : Int)
  | attacked (player : Nat) (row col : Int)
  | turnOf (player : Nat)
  | cannotMove (player : Nat)
  | winner (player : Nat) (score : Nat)
  | tie (score0 score1 : Nat)
  deriving DecidableEq, Repr

/-- The state variables of the component that the rule engine reads or writes:
`gamePhase`, `gridSize`, `grid`, the two `players[i].score`, `currentPlayer` (an
index into `players`), `actionsLeft`, `availableActions`, `log` and
`placementOrder`. -/
structure GameState where
  gamePhase : GamePhase
  gridSize : Nat
  grid : Grid
  score0 : Nat
  score1 : Nat
  currentPlayer : Nat
  actionsLeft : Int
  availableActions : Actions
  log : List LogEntry
  placementOrder : List Nat
  deriving DecidableEq, Repr

/-- The result of one call of a click handler: it returned, or it raised a
`TypeError` on an undefined lookup.  In both cases the state is the one holding
the updates made up to that point. -/
inductive Outcome where
  | returned (s : GameState)
  | threw (s : GameState)
  deriving DecidableEq, Repr

/-- The state after the call, however it ended. -/
def Outcome.state : Outcome → GameState
  | Outcome.returned s => s
  | Outcome.threw s => s

/-- The state of the `useState` initial values. -/
def initialState : GameState :=
  { gamePhase := GamePhase.setup, gridSize := 20, grid := [], score0 := 0, score1 := 0,
    currentPlayer := 0, actionsLeft := 3, availableActions := ⟨[], []⟩, log := [],
    placementOrder := [] }

/-- The lookup `players[index].id`; `currentPlayer` and the entries of
`placementOrder` are always `0` or `1`. -/
def playerIdOf (index : Nat) : Nat := players.getD index 0

/-- The lookup `grid[row][col]` at the coordinates of a click: `none` when the
row or the column is out of range (negative included), where reading a property
of the result raises a `TypeError`. -/
def clickedCell (g : Grid) (row col : Int) : Option Cell :=
  if 0 ≤ row ∧ 0 ≤ col then g.cell? row.toNat col.toNat else none

/-- The test `list.some(([r, c]) => r === row && c === col)` with the
coordinates of a click. -/
def listHasClick (l : List Pos) (row col : Int) : Bool :=
  l.any (fun p => decide ((p.1 : Int) = row) && decide ((p.2 : Int) = col))

/-- The expression `placementOrder.indexOf(currentPlayer) === 0`. -/
def isFirstPlacer (placementOrder : List Nat) (currentPlayer : Nat) : Bool :=
  placementOrder.head? == some currentPlayer

/-- Source function `startGame(selectedSize, selectedCellSize)`; the argument
`randomBelowHalf` is the outcome of `Math.random() < 0.5`.  The cell size is
presentation only. -/
def startGame (s : GameState) (selectedSize : Nat) (randomBelowHalf : Bool) : GameState :=
  let order : List Nat := if randomBelowHalf then [0, 1] else [1, 0]
  { s with
    gridSize := selectedSize
    grid := initializeGrid selectedSize
    placementOrder := order
    currentPlayer := order.getD 0 0
    gamePhase := GamePhase.placement
    log := s.log ++ [LogEntry.placesFirst (order.getD 0 0)] }

/-- Source function `hasActiveCells(playerId)`: the two loops returning `true` at
the first Active cell of the player. -/
def hasActiveCells (gridSize : Nat) (g : Grid) (playerId : Nat) : Bool :=
  (List.range gridSize).any (fun row =>
    (List.range gridSize).any (fun col =>
      let cell := g.cell row col
      decide (cell.type = CellType.active ∧ cell.owner = some playerId)))

/-- Source function `canPlayerMove(playerId)`. -/
def canPlayerMove (gridSize : Nat) (g : Grid) (playerId : Nat) : Bool :=
  let actions := calculateAvailableActions gridSize g playerId
  decide (actions.birth.length > 0) || decide (actions.attack.length > 0)

/-- The log entries added by `checkAndInfectSurrounded()`, one per attacker
with a non-empty set. -/
def infectionLog (gridSize : Nat) (g : Grid) : List LogEntry :=
  let total := totalInfected gridSize g
  if total.length > 0 then
    total.map (fun entry =>
      if entry.2.length = 1 then LogEntry.encircledOne entry.1
      else LogEntry.encircledMany entry.1 entry.2.length)
  else []

/-- Source function `endGame()`: the phase becomes `ended` and the winner, read
from the scores, is logged. -/
def endGame (s : GameState) : GameState :=
  { s with
    gamePhase := GamePhase.ended
    log := s.log ++
      [if s.score0 > s.score1 then LogEntry.winner 0 s.score0
       else if s.score1 > s.score0 then LogEntry.winner 1 s.score1
       else LogEntry.tie s.score0 s.score1] }

/-- Source function `handlePlacementClick(row, col)`. -/
def handlePlacementClick (s : GameState) (row col : Int) : Outcome :=
  match clickedCell s.grid row col with
  | none => Outcome.threw s
  | some cell =>
    if cell.type ≠ CellType.empty then Outcome.returned s
    else
      let newGrid := s.grid.setCell row.toNat col.toNat
        ⟨CellType.active, some (playerIdOf s.currentPlayer)⟩
      let s1 := { s with
        grid := newGrid
        log := s.log ++ [LogEntry.placed s.currentPlayer row col] }
      if isFirstPlacer s.placementOrder s.currentPlayer then
        Outcome.returned { s1 with
          currentPlayer := s.placementOrder.getD 1 0
          log := s1.log ++ [LogEntry.placesNext (s.placementOrder.getD 1 0)] }
      else
        Outcome.returned { s1 with
          currentPlayer := s.placementOrder.getD 0 0
          gamePhase := GamePhase.playing
          actionsLeft := 3
          log := s1.log ++ [LogEntry.gameStarted (s.placementOrder.getD 0 0)] }

/-- Source function `handleCellClick(row, col)`. -/
def handleCellClick (s : GameState) (row col : Int) : Outcome :=
  if s.gamePhase = GamePhase.placement then handlePlacementClick s row col
  else if s.gamePhase ≠ GamePhase.playing ∨ s.actionsLeft = 0 then Outcome.returned s
  else
    match clickedCell s.grid row col with
    | none => Outcome.threw s
    | some cell =>
      let playerId := playerIdOf s.currentPlayer
      let actions := calculateAvailableActions s.gridSize s.grid playerId
      if cell.type = CellType.empty ∧ listHasClick actions.birth row col = true then
        Outcome.returned { s with
          grid := s.grid.setCell row.toNat col.toNat ⟨CellType.active, some playerId⟩
          actionsLeft := s.actionsLeft - 1
          log := s.log ++ [LogEntry.born s.currentPlayer row col] }
      else if cell.type = CellType.active ∧ cell.owner ≠ some playerId ∧
          listHasClick actions.attack row col = true then
        Outcome.returned { s with
          grid := s.grid.setCell row.toNat col.toNat ⟨CellType.infected, some playerId⟩
          actionsLeft := s.actionsLeft - 1
          log := s.log ++ [LogEntry.attacked s.currentPlayer row col] }
      else Outcome.returned s

/-- The effect `End turn` (dependencies `actionsLeft`, `gamePhase`).  The call
`checkAndInfectSurrounded()` passes the new grid to `setGrid`; the tests
`hasActiveCells` and `canPlayerMove` that follow read `grid`, which in this run
is still the grid of the render, that is the grid before the infections. -/
def endTurnEffect (s : GameState) : GameState :=
  if s.gamePhase = GamePhase.playing ∧ s.actionsLeft = 0 then
    let s1 := { s with
      grid := checkAndInfectSurrounded s.gridSize s.grid
      log := s.log ++ infectionLog s.gridSize s.grid }
    let player1Id := playerIdOf 0
    let player2Id := playerIdOf 1
    let player1CanMove :=
      hasActiveCells s.gridSize s.grid player1Id && canPlayerMove s.gridSize s.grid player1Id
    let player2CanMove :=
      hasActiveCells s.gridSize s.grid player2Id && canPlayerMove s.gridSize s.grid player2Id
    if (!player1CanMove || !player2CanMove) = true then endGame s1
    else
      { s1 with
        currentPlayer := (s.currentPlayer + 1) % 2
        actionsLeft := 3
        log := s1.log ++ [LogEntry.turnOf ((s.currentPlayer + 1) % 2)] }
  else s

/-- The variant of the effect `End turn` in which the end conditions are
evaluated on the grid after the infections, as the comment of the effect
describes them; everything else is as in `endTurnEffect`. -/
def endTurnEffectAfterPass (s : GameState) : GameState :=
  if s.gamePhase = GamePhase.playing ∧ s.actionsLeft = 0 then
    let newGrid := checkAndInfectSurrounded s.gridSize s.grid
    let s1 := { s with
      grid := newGrid
      log := s.log ++ infectionLog s.gridSize s.grid }
    let player1Id := playerIdOf 0
    let player2Id := playerIdOf 1
    let player1CanMove :=
      hasActiveCells s.gridSize newGrid player1Id && canPlayerMove s.gridSize newGrid player1Id
    let player2CanMove :=
      hasActiveCells s.gridSize newGrid player2Id && canPlayerMove s.gridSize newGrid player2Id
    if (!player1CanMove || !player2CanMove) = true then endGame s1
    else
      { s1 with
        currentPlayer := (s.currentPlayer + 1) % 2
        actionsLeft := 3
        log := s1.log ++ [LogEntry.turnOf ((s.currentPlayer + 1) % 2)] }
  else s

/-- The effect `Update available actions` (dependencies `currentPlayer`, `grid`,
`gamePhase`, `actionsLeft`). -/
def updateActionsEffect (s : GameState) : GameState :=
  if s.gamePhase = GamePhase.playing then
    let playerId := playerIdOf s.currentPlayer
    if hasActiveCells s.gridSize s.grid playerId = false then endGame s
    else
      let actions := calculateAvailableActions s.gridSize s.grid playerId
      let s1 := { s with availableActions := actions }
      if actions.birth.length = 0 ∧ actions.attack.length = 0 ∧ s.actionsLeft > 0 then
        { s1 with
          log := s.log ++ [LogEntry.cannotMove s.currentPlayer]
          actionsLeft := 0 }
      else s1
  else s

/-- The body of the inner `forEach` of the effect `Calculate scores`: a cell
with a truthy owner (a non-zero id) that is the id of `players[i]` increments
`scores[i]`. -/
def scoreCell (scores : List Nat) (cell : Cell) : List Nat :=
  match cell.owner with
  | none => scores
  | some owner =>
    if owner = 0 then scores
    else
      match players.findIdx? (fun id => id == owner) with
      | some playerIndex => scores.set playerIndex (scores.getD playerIndex 0 + 1)
      | none => scores

/-- The array `scores` computed by the effect `Calculate scores` from the grid. -/
def calculateScores (g : Grid) : List Nat :=
  g.foldl (fun scores cells => cells.foldl scoreCell scores) [0, 0]

/-- The effect `Calculate scores` (dependency `grid`): every `players[i].score`
becomes `scores[i]`. -/
def scoreEffect (s : GameState) : GameState :=
  { s with
    score0 := (calculateScores s.grid).getD 0 0
    score1 := (calculateScores s.grid).getD 1 0 }

/-- The value of the expression `winner` in `endGame()`, as an index into
`players`; `none` is `null`, a tie.  The winner announcement of the view tests
the same two comparisons. -/
def winnerIndex (score0 score1 : Nat) : Option Nat :=
  if score0 > score1 then some 0
  else if score1 > score0 then some 1
  else none

/-- Source function `resetGame()`. -/
def resetGame (s : GameState) : GameState :=
  { s with
    gamePhase := GamePhase.setup
    gridSize := 20
    grid := initializeGrid 20
    currentPlayer := 0
    actionsLeft := 3
    log := []
    placementOrder := [] }

/-- One step of the engine: a click at any coordinates, a run of the effect
`End turn`, or a run of the effect `Update available actions`. -/
inductive Step : GameState → GameState → Prop where
  | click (s : GameState) (row col : Int) : Step s (handleCellClick s row col).state
  | endTurn (s : GameState) : Step s (endTurnEffect s)
  | updateActions (s : GameState) : Step s (updateActionsEffect s)

/-! ## Specification-side notions -/

/-- The position lies on the `N × N` board. -/
def onBoard (N : Nat) (p : Pos) : Prop := p.1 < N ∧ p.2 < N

instance (N : Nat) (p : Pos) : Decidable (onBoard N p) := by
  unfold onBoard; infer_instance

/-- Manhattan distance between two positions. -/
def manhattan (p q : Pos) : Nat :=
  (max p.1 q.1 - min p.1 q.1) + (max p.2 q.2 - min p.2 q.2)

/-- A corner of the `N × N` board. -/
def isCorner (N : Nat) (p : Pos) : Prop :=
  (p.1 = 0 ∨ p.1 = N - 1) ∧ (p.2 = 0 ∨ p.2 = N - 1)

/-- A border position of the `N × N` board (corners included). -/
def isBorder (N : Nat) (p : Pos) : Prop :=
  p.1 = 0 ∨ p.1 = N - 1 ∨ p.2 = 0 ∨ p.2 = N - 1

instance (N : Nat) (p : Pos) : Decidable (isCorner N p) := by
  unfold isCorner; infer_instance

instance (N : Nat) (p : Pos) : Decidable (isBorder N p) := by
  unfold isBorder; infer_instance

/-- The grid is an `N × N` matrix: `N` rows of `N` cells each, as built by
`initializeGrid(N)` and kept by every update. -/
def WF (N : Nat) (g : Grid) : Prop :=
  g.length = N ∧ ∀ cells ∈ g, cells.length = N

instance (N : Nat) (g : Grid) : Decidable (WF N g) := by
  unfold WF; infer_instance

/-- Some on-board position at Manhattan distance 1 of `p` has owner `playerId`. -/
def hasOwnedNeighbour (N : Nat) (g : Grid) (p : Pos) (playerId : Nat) : Prop :=
  ∃ q : Pos, onBoard N q ∧ manhattan p q = 1 ∧ (g.cell q.1 q.2).owner = some playerId

/-- The cell invariant of the data model: `owner` is `null` iff the type is
`empty`. -/
def CellInv (c : Cell) : Prop := c.owner = none ↔ c.type = CellType.empty

instance (c : Cell) : Decidable (CellInv c) := by
  unfold CellInv; infer_instance

/-- Every cell of the grid satisfies the cell invariant. -/
def GridInv (g : Grid) : Prop := ∀ cells ∈ g, ∀ c ∈ cells, CellInv c

instance (g : Grid) : Decidable (GridInv g) := by
  unfold GridInv; infer_instance

/-- Every owner on the grid is `null`, `1` or `2`. -/
def OwnersOK (g : Grid) : Prop :=
  ∀ cells ∈ g, ∀ c ∈ cells, c.owner = none ∨ c.owner = some 1 ∨ c.owner = some 2

instance (g : Grid) : Decidable (OwnersOK g) := by
  unfold OwnersOK; infer_instance

/-- The cell at `p` is Active and owned by player `E`. -/
def ActiveOf (g : Grid) (E : Nat) (p : Pos) : Prop :=
  (g.cell p.1 p.2).type = CellType.active ∧ (g.cell p.1 p.2).owner = some E

instance (g : Grid) (E : Nat) (p : Pos) : Decidable (ActiveOf g E p) := by
  unfold ActiveOf; infer_instance

/-- One 4-neighbour step between two on-board Active cells of player `E`. -/
def EnemyStep (N : Nat) (g : Grid) (E : Nat) (p q : Pos) : Prop :=
  (onBoard N p ∧ ActiveOf g E p) ∧ (onBoard N q ∧ ActiveOf g E q) ∧ manhattan p q = 1

/-- The position `q` is reachable from `p` by 4-neighbour steps through Active
cells owned by `E`.  For an Active cell `p` of `E` the positions reachable from
`p` form its maximal 4-connected Active/`E` component. -/
def Connected (N : Nat) (g : Grid) (E : Nat) (p q : Pos) : Prop :=
  Relation.ReflTransGen (EnemyStep N g E) p q

/-- Every on-board neighbour of every cell of the component of `p` that lies
outside the component has owner `A`. -/
def Enclosed (N : Nat) (g : Grid) (E A : Nat) (p : Pos) : Prop :=
  ∀ q : Pos, Connected N g E p q → ∀ n : Pos, onBoard N n → manhattan q n = 1 →
    ¬ Connected N g E p n → (g.cell n.1 n.2).owner = some A

/-- Some cell of the component of `p`, or some on-board neighbour of one, has
type `empty`. -/
def RegionHasEmpty (N : Nat) (g : Grid) (E : Nat) (p : Pos) : Prop :=
  ∃ q : Pos, Connected N g E p q ∧
    ((g.cell q.1 q.2).type = CellType.empty ∨
      ∃ n : Pos, onBoard N n ∧ manhattan q n = 1 ∧ (g.cell n.1 n.2).type = CellType.empty)

/-- The condition under which the scan for attacker `A` schedules the Active
cell `p` of enemy `E` for infection: its component is enclosed by `A` and either
has a single cell or has no empty cell in its region. -/
def Qualifies (N : Nat) (g : Grid) (E A : Nat) (p : Pos) : Prop :=
  onBoard N p ∧ ActiveOf g E p ∧ Enclosed N g E A p ∧
    ((∀ q : Pos, Connected N g E p q → q = p) ∨ ¬ RegionHasEmpty N g E p)

/-- Number of board positions that are not yet in the `visited` set. -/
def unvisitedCount (N : Nat) (visited : List Pos) : Nat :=
  ((Finset.range N ×ˢ Finset.range N).filter (fun p => p ∉ visited)).card

/-- The termination measure of the flood-fill loop. -/
def floodMeasure (N : Nat) (s : FloodState) : Nat :=
  4 * unvisitedCount N s.visited + s.queue.length

/-- The loop invariant of the flood fill started at the Active cell `x` of `E`
with the caller's set `v0`, which contains no cell of the component of `x`. -/
def FloodInv (N : Nat) (g : Grid) (E : Nat) (x : Pos) (v0 : List Pos) (s : FloodState) : Prop :=
  s.localVisited = s.group ∧
  s.visited = v0 ++ s.group ∧
  s.group.Nodup ∧
  (∀ p ∈ s.group, Connected N g E x p) ∧
  (∀ p ∈ s.queue, Connected N g E x p) ∧
  (∀ p ∈ s.group, ∀ n, EnemyStep N g E p n → n ∈ s.group ∨ n ∈ s.queue) ∧
  (x ∈ s.group ∨ x ∈ s.queue)

/-- The invariant of the board scan for attacker `A` and enemy `E` once the
positions satisfying `P` have been processed: `visited` is a union of whole
components of Active cells of `E`, covers the processed Active cells of `E`, and
`toInfect` holds exactly the visited cells that qualify. -/
def ScanInv (N : Nat) (g : Grid) (E A : Nat) (P : Pos → Prop) (s : ScanState) : Prop :=
  (∀ p ∈ s.visited, onBoard N p ∧ ActiveOf g E p) ∧
  (∀ p ∈ s.visited, ∀ q, Connected N g E p q → q ∈ s.visited) ∧
  (∀ p, P p → ActiveOf g E p → p ∈ s.visited) ∧
  (∀ p, p ∈ s.toInfect ↔ (p ∈ s.visited ∧ Qualifies N g E A p))

/-- The Active cell at `p` belongs to a player `E` other than the player `A`,
and its component is enclosed by `A`. -/
def Encircled (N : Nat) (g : Grid) (A : Nat) (p : Pos) : Prop :=
  A ∈ players ∧ ∃ E ∈ players, E ≠ A ∧ ActiveOf g E p ∧ Enclosed N g E A p

/-- The cell `{ type: 'infected', owner: A }`. -/
def infectedCell (A : Nat) : Cell := ⟨CellType.infected, some A⟩

/-- The player has presence: some board cell is Active and owned by the player. -/
def HasPresence (N : Nat) (g : Grid) (playerId : Nat) : Prop :=
  ∃ p : Pos, onBoard N p ∧ ActiveOf g playerId p

/-- The player has a legal action: the birth set or the attack set of
`calculateAvailableActions` has an element. -/
def HasLegalAction (N : Nat) (g : Grid) (playerId : Nat) : Prop :=
  ∃ p : Pos, p ∈ (calculateAvailableActions N g playerId).birth ∨
    p ∈ (calculateAvailableActions N g playerId).attack

/-- Finite sequences of engine steps. -/
def Steps (s t : GameState) : Prop := Relation.ReflTransGen Step s t

/-! ## Sample boards -/

/-- The 3 × 3 board with player 1 Active on the eight outer cells and player 2
Active on the centre `(1, 1)`. -/
def ringBoard : Grid :=
  [[⟨CellType.active, some 1⟩, ⟨CellType.active, some 1⟩, ⟨CellType.active, some 1⟩],
   [⟨CellType.active, some 1⟩, ⟨CellType.active, some 2⟩, ⟨CellType.active, some 1⟩],
   [⟨CellType.active, some 1⟩, ⟨CellType.active, some 1⟩, ⟨CellType.active, some 1⟩]]

/-- A 3 × 3 board in the middle of a game: player 1 holds the left column (one
cell Infected), player 2 holds two cells on the right, the rest is empty. -/
def midgameBoard : Grid :=
  [[⟨CellType.active, some 1⟩, emptyCell, ⟨CellType.active, some 2⟩],
   [⟨CellType.infected, some 1⟩, ⟨CellType.active, some 2⟩, emptyCell],
   [⟨CellType.active, some 1⟩, emptyCell, emptyCell]]

/-- The 2 × 2 board on which every cell is Active and owned by player 1. -/
def fullBoard : Grid :=
  [[⟨CellType.active, some 1⟩, ⟨CellType.active, some 1⟩],
   [⟨CellType.active, some 1⟩, ⟨CellType.active, some 1⟩]]

/-- The ring board after the encirclement pass: the centre Infected by player
1, the eight outer cells Infected by player 2. -/
def ringBoardAfter : Grid :=
  [[⟨CellType.infected, some 2⟩, ⟨CellType.infected, some 2⟩, ⟨CellType.infected, some 2⟩],
   [⟨CellType.infected, some 2⟩, ⟨CellType.infected, some 1⟩, ⟨CellType.infected, some 2⟩],
   [⟨CellType.infected, some 2⟩, ⟨CellType.infected, some 2⟩, ⟨CellType.infected, some 2⟩]]

/-- The list of all positions of the `N × N` board, row by row. -/
def allPositions (N : Nat) : List Pos :=
  (List.range N).flatMap (fun r => (List.range N).map (fun c => (r, c)))

/-- The cell counts as owned by one of the two players. -/
def ownedByPlayer (c : Cell) : Bool := c.owner == some 1 || c.owner == some 2

/-- Cell states only move forward from `g` to `g2`: no non-Empty cell becomes
Empty, no Infected cell becomes Active, and every Infected cell keeps its type
and its owner. -/
def Forward (g g2 : Grid) : Prop :=
  ∀ r c : Nat,
    ((g.cell r c).type ≠ CellType.empty → (g2.cell r c).type ≠ CellType.empty) ∧
    ((g.cell r c).type = CellType.infected → (g2.cell r c).type ≠ CellType.active) ∧
    ((g.cell r c).type = CellType.infected → g2.cell r c = g.cell r c)

/-! ## Sample states -/

/-- The state after a sequence of clicks, each with the state left by the one
before. -/
def clickAll (s : GameState) (clicks : List (Int × Int)) : GameState :=
  clicks.foldl (fun s p => (handleCellClick s p.1 p.2).state) s

/-- A game on the 10 × 10 board with placement order `[0, 1]`, before the first
placement. -/
def freshGame : GameState := startGame initialState 10 true

/-- The game `freshGame` after the placements at `(0, 1)` and `(0, 0)` and the
three births of the first player at `(1, 1)`, `(1, 0)` and `(0, 2)`: the turn is
exhausted and the second player's only cell, in the corner, is enclosed. -/
def cornerState : GameState :=
  clickAll freshGame [(0, 1), (0, 0), (1, 1), (1, 0), (0, 2)]

/-- The ring board in phase Playing with an exhausted turn of the first player. -/
def ringState : GameState :=
  { initialState with
    gamePhase := GamePhase.playing
    gridSize := 3
    grid := ringBoard
    actionsLeft := 0
    placementOrder := [0, 1] }

/-- A 3 × 3 board on which player 1 has one Active cell, in the corner, shut in
by two Infected cells of player 2, and player 2 has an Active cell at the
centre. -/
def stuckBoard : Grid :=
  [[⟨CellType.active, some 1⟩, ⟨CellType.infected, some 2⟩, emptyCell],
   [⟨CellType.infected, some 2⟩, ⟨CellType.active, some 2⟩, emptyCell],
   [emptyCell, emptyCell, emptyCell]]

/-- The board `stuckBoard` in phase Playing, the first player to move with one
action left. -/
def stuckState : GameState :=
  { initialState with
    gamePhase := GamePhase.playing
    gridSize := 3
    grid := stuckBoard
    actionsLeft := 1
    placementOrder := [0, 1] }

/-- A 3 × 3 board on which player 1 owns one Infected cell with empty
neighbours and no Active cell, and player 2 has an Active cell. -/
def dormantBoard : Grid :=
  [[⟨CellType.infected, some 1⟩, emptyCell, emptyCell],
   [emptyCell, emptyCell, emptyCell],
   [emptyCell, emptyCell, ⟨CellType.active, some 2⟩]]

/-- The board `dormantBoard` in phase Playing, the first player to move. -/
def dormantState : GameState :=
  { initialState with
    gamePhase := GamePhase.playing
    gridSize := 3
    grid := dormantBoard
    actionsLeft := 3
    placementOrder := [0, 1] }

/-! ## Theorems -/

/-- Membership in `getNeighbors`, one disjunct per `push`. -/
theorem mem_getNeighbors (N row col : Nat) (q : Pos) :
    q ∈ getNeighbors N row col ↔
      (0 < row ∧ q = (row - 1, col)) ∨ (row < N - 1 ∧ q = (row + 1, col)) ∨
      (0 < col ∧ q = (row, col - 1)) ∨ (col < N - 1 ∧ q = (row, col + 1)) := by
  unfold getNeighbors
  simp only [List.nil_append]
  split_ifs <;> simp [*]

/-- On the board, `getNeighbors` lists exactly the on-board positions at
Manhattan distance 1. -/
theorem mem_getNeighbors_iff {N : Nat} {p : Pos} (hb : onBoard N p) (q : Pos) :
    q ∈ getNeighbors N p.1 p.2 ↔ (onBoard N q ∧ manhattan p q = 1) := by
  obtain ⟨a, b⟩ := q
  obtain ⟨h1, h2⟩ := hb
  rw [mem_getNeighbors]
  unfold onBoard manhattan
  simp only [Prod.mk.injEq]
  omega

/-- C10: for `N ≥ 1` and an on-board `(row, col)`, `getNeighbors` lists, without
duplicates, exactly the on-board positions at Manhattan distance 1 (no
wraparound); for `N ≥ 2` a corner has exactly 2 neighbours, a non-corner border
cell exactly 3 and an interior cell exactly 4. -/
theorem getNeighbors_spec (N row col : Nat) (_hN : 1 ≤ N) (hb : onBoard N (row, col)) :
    (getNeighbors N row col).Nodup ∧
    (∀ q : Pos, q ∈ getNeighbors N row col ↔ (onBoard N q ∧ manhattan (row, col) q = 1)) ∧
    (2 ≤ N →
      (isCorner N (row, col) → (getNeighbors N row col).length = 2) ∧
      (isBorder N (row, col) → ¬ isCorner N (row, col) → (getNeighbors N row col).length = 3) ∧
      (¬ isBorder N (row, col) → (getNeighbors N row col).length = 4)) := by
  obtain ⟨h1, h2⟩ := hb
  simp only at h1 h2
  refine ⟨?_, ?_, ?_⟩
  · unfold getNeighbors
    simp only [List.nil_append]
    split_ifs <;> simp <;> omega
  · intro q
    exact mem_getNeighbors_iff (p := (row, col)) ⟨h1, h2⟩ q
  · intro hN2
    unfold isCorner isBorder getNeighbors
    simp only [List.nil_append]
    refine ⟨?_, ?_, ?_⟩ <;> split_ifs <;> simp <;> omega

/-- Witness for C10 on the 3 × 3 board at the centre cell. -/
theorem getNeighbors_spec_witness :
    (getNeighbors 3 1 1).Nodup ∧
    (∀ q : Pos, q ∈ getNeighbors 3 1 1 ↔ (onBoard 3 q ∧ manhattan (1, 1) q = 1)) ∧
    (2 ≤ 3 →
      (isCorner 3 (1, 1) → (getNeighbors 3 1 1).length = 2) ∧
      (isBorder 3 (1, 1) → ¬ isCorner 3 (1, 1) → (getNeighbors 3 1 1).length = 3) ∧
      (¬ isBorder 3 (1, 1) → (getNeighbors 3 1 1).length = 4)) :=
  getNeighbors_spec 3 1 1 (by decide) (by decide)

/-- The test `isAdjacentToPlayer` in terms of on-board positions at distance 1. -/
theorem isAdjacentToPlayer_iff (N : Nat) (g : Grid) (row col pid : Nat)
    (hb : onBoard N (row, col)) :
    isAdjacentToPlayer N g row col pid = true ↔ hasOwnedNeighbour N g (row, col) pid := by
  have hm := mem_getNeighbors_iff hb
  unfold isAdjacentToPlayer hasOwnedNeighbour
  simp only [List.any_eq_true, beq_iff_eq]
  constructor
  · rintro ⟨q, hq, ho⟩
    exact ⟨q, ((hm q).1 hq).1, ((hm q).1 hq).2, ho⟩
  · rintro ⟨q, h1, h2, ho⟩
    exact ⟨q, (hm q).2 ⟨h1, h2⟩, ho⟩

/-- The inner loop of `calculateAvailableActions` appends the qualifying columns. -/
theorem foldl_actionsAtCell (N : Nat) (g : Grid) (pid row : Nat) (cols : List Nat)
    (acc : Actions) :
    cols.foldl (actionsAtCell N g pid row) acc =
      ⟨acc.birth ++ (cols.filter (fun col => decide ((g.cell row col).type = CellType.empty ∧
          isAdjacentToPlayer N g row col pid = true))).map (fun col => (row, col)),
        acc.attack ++ (cols.filter (fun col => decide ((g.cell row col).type = CellType.active ∧
          (g.cell row col).owner ≠ some pid ∧
          isAdjacentToPlayer N g row col pid = true))).map (fun col => (row, col))⟩ := by
  induction cols generalizing acc with
  | nil => simp
  | cons c cs ih =>
    rw [List.foldl_cons, ih]
    unfold actionsAtCell
    simp only [List.filter_cons]
    split_ifs <;> simp_all

/-- The outer loop of `calculateAvailableActions` appends row after row. -/
theorem foldl_actionsRows (N : Nat) (g : Grid) (pid : Nat) (rows : List Nat) (acc : Actions) :
    rows.foldl (fun acc row => (List.range N).foldl (actionsAtCell N g pid row) acc) acc =
      ⟨acc.birth ++ rows.flatMap (fun row =>
          ((List.range N).filter (fun col => decide ((g.cell row col).type = CellType.empty ∧
            isAdjacentToPlayer N g row col pid = true))).map (fun col => (row, col))),
        acc.attack ++ rows.flatMap (fun row =>
          ((List.range N).filter (fun col => decide ((g.cell row col).type = CellType.active ∧
            (g.cell row col).owner ≠ some pid ∧
            isAdjacentToPlayer N g row col pid = true))).map (fun col => (row, col)))⟩ := by
  induction rows generalizing acc with
  | nil => simp
  | cons r rs ih =>
    rw [List.foldl_cons, ih, foldl_actionsAtCell]
    simp [List.flatMap_cons, List.append_assoc]

/-- C8: a position is in `calculateAvailableActions(p).birth` iff it is on the
board, its cell is Empty and some on-board 4-neighbour has owner `p`, whatever
the type (Active or Infected) of that neighbour. -/
theorem birth_iff (N : Nat) (g : Grid) (pid r c : Nat) (_hg : WF N g) :
    (r, c) ∈ (calculateAvailableActions N g pid).birth ↔
      (onBoard N (r, c) ∧ (g.cell r c).type = CellType.empty ∧
        hasOwnedNeighbour N g (r, c) pid) := by
  unfold calculateAvailableActions
  rw [foldl_actionsRows]
  simp only [List.nil_append, List.mem_flatMap, List.mem_map, List.mem_filter, List.mem_range,
    decide_eq_true_eq, Prod.mk.injEq]
  constructor
  · rintro ⟨row, hrow, col, ⟨hcol, ht, ha⟩, rfl, rfl⟩
    exact ⟨⟨hrow, hcol⟩, ht, (isAdjacentToPlayer_iff N g row col pid ⟨hrow, hcol⟩).1 ha⟩
  · rintro ⟨⟨hr, hc⟩, ht, ha⟩
    exact ⟨r, hr, c, ⟨hc, ht, (isAdjacentToPlayer_iff N g r c pid ⟨hr, hc⟩).2 ha⟩, rfl, rfl⟩

/-- C9: a position is in `calculateAvailableActions(p).attack` iff it is on the
board, its cell is Active, its owner is not `p` and some on-board 4-neighbour has
owner `p`; hence no Infected cell and no cell owned by `p` is an attack target. -/
theorem attack_iff (N : Nat) (g : Grid) (pid r c : Nat) (_hg : WF N g) :
    ((r, c) ∈ (calculateAvailableActions N g pid).attack ↔
      (onBoard N (r, c) ∧ (g.cell r c).type = CellType.active ∧
        (g.cell r c).owner ≠ some pid ∧ hasOwnedNeighbour N g (r, c) pid)) ∧
    ((g.cell r c).type = CellType.infected →
      (r, c) ∉ (calculateAvailableActions N g pid).attack) ∧
    ((g.cell r c).owner = some pid →
      (r, c) ∉ (calculateAvailableActions N g pid).attack) := by
  have key : (r, c) ∈ (calculateAvailableActions N g pid).attack ↔
      (onBoard N (r, c) ∧ (g.cell r c).type = CellType.active ∧
        (g.cell r c).owner ≠ some pid ∧ hasOwnedNeighbour N g (r, c) pid) := by
    unfold calculateAvailableActions
    rw [foldl_actionsRows]
    simp only [List.nil_append, List.mem_flatMap, List.mem_map, List.mem_filter, List.mem_range,
      decide_eq_true_eq, Prod.mk.injEq]
    constructor
    · rintro ⟨row, hrow, col, ⟨hcol, ht, ho, ha⟩, rfl, rfl⟩
      exact ⟨⟨hrow, hcol⟩, ht, ho, (isAdjacentToPlayer_iff N g row col pid ⟨hrow, hcol⟩).1 ha⟩
    · rintro ⟨⟨hr, hc⟩, ht, ho, ha⟩
      exact ⟨r, hr, c, ⟨hc, ht, ho, (isAdjacentToPlayer_iff N g r c pid ⟨hr, hc⟩).2 ha⟩, rfl, rfl⟩
  refine ⟨key, ?_, ?_⟩
  · intro hi hmem
    have := (key.1 hmem).2.1
    rw [hi] at this
    exact CellType.noConfusion this
  · intro ho hmem
    exact (key.1 hmem).2.2.1 ho

/-! ### Grid lookups and updates -/

theorem cell?_eq_some_iff (g : Grid) (r c : Nat) (v : Cell) :
    g.cell? r c = some v ↔ ∃ cells, g[r]? = some cells ∧ cells[c]? = some v := by
  unfold Grid.cell?
  cases h : g[r]? with
  | none => simp
  | some cells => simp

theorem WF.cell?_isSome {N : Nat} {g : Grid} (hg : WF N g) {r c : Nat} (hr : r < N)
    (hc : c < N) : ∃ v, g.cell? r c = some v := by
  obtain ⟨hl, hrow⟩ := hg
  have hr' : r < g.length := by omega
  have hmem : g[r] ∈ g := List.getElem_mem hr'
  have hc' : c < (g[r]).length := by rw [hrow _ hmem]; exact hc
  refine ⟨(g[r])[c], ?_⟩
  rw [cell?_eq_some_iff]
  exact ⟨g[r], List.getElem?_eq_getElem hr', List.getElem?_eq_getElem hc'⟩

theorem WF.cell?_none {N : Nat} {g : Grid} (hg : WF N g) {r c : Nat} (h : ¬ (r < N ∧ c < N)) :
    g.cell? r c = none := by
  obtain ⟨hl, hrow⟩ := hg
  unfold Grid.cell?
  cases h1 : g[r]? with
  | none => rfl
  | some cells =>
    have hr' : r < g.length := by
      by_contra hlt
      rw [List.getElem?_eq_none (by omega)] at h1
      exact Option.noConfusion h1
    have hmem : cells ∈ g := List.getElem?_mem h1
    have hlen := hrow _ hmem
    simp only
    apply List.getElem?_eq_none
    omega

theorem WF.onBoard_of_ne_empty {N : Nat} {g : Grid} (hg : WF N g) {p : Pos}
    (h : g.cell p.1 p.2 ≠ emptyCell) : onBoard N p := by
  by_contra hb
  apply h
  unfold Grid.cell
  rw [hg.cell?_none hb]
  rfl

theorem WF.onBoard_of_active {N : Nat} {g : Grid} (hg : WF N g) {E : Nat} {p : Pos}
    (h : ActiveOf g E p) : onBoard N p := by
  apply hg.onBoard_of_ne_empty
  intro he
  have := h.1
  rw [he] at this
  exact CellType.noConfusion this

theorem cell_mem_or_empty (g : Grid) (r c : Nat) :
    g.cell r c = emptyCell ∨ ∃ cells ∈ g, g.cell r c ∈ cells := by
  unfold Grid.cell
  cases h : g.cell? r c with
  | none => left; rfl
  | some v =>
    right
    obtain ⟨cells, h1, h2⟩ := (cell?_eq_some_iff g r c v).1 h
    exact ⟨cells, List.getElem?_mem h1, List.getElem?_mem h2⟩

theorem GridInv.cell {g : Grid} (hg : GridInv g) (r c : Nat) : CellInv (g.cell r c) := by
  rcases cell_mem_or_empty g r c with h | ⟨cells, h1, h2⟩
  · rw [h]; decide
  · exact hg cells h1 _ h2

theorem WF.setCell {N : Nat} {g : Grid} (hg : WF N g) (r c : Nat) (v : Cell) :
    WF N (g.setCell r c v) := by
  obtain ⟨hl, hrow⟩ := hg
  unfold Grid.setCell
  cases h : g[r]? with
  | none => exact ⟨hl, hrow⟩
  | some cells =>
    refine ⟨by simp [hl], ?_⟩
    intro row hmem
    rcases List.mem_or_eq_of_mem_set hmem with h1 | h1
    · exact hrow _ h1
    · rw [h1, List.length_set]
      exact hrow _ (List.getElem?_mem h)

theorem cell?_setCell (g : Grid) (r c : Nat) (v : Cell) (r' c' : Nat) :
    (g.setCell r c v).cell? r' c' =
      if r = r' ∧ c = c' ∧ (g.cell? r c).isSome then some v else g.cell? r' c' := by
  unfold Grid.setCell
  cases h : g[r]? with
  | none =>
    have : g.cell? r c = none := by unfold Grid.cell?; rw [h]
    simp [this]
  | some cells =>
    simp only
    by_cases hr : r = r'
    · subst hr
      have hlt : r < g.length := by
        by_contra hlt
        rw [List.getElem?_eq_none (by omega)] at h
        exact Option.noConfusion h
      have e1 : g.cell? r c = cells[c]? := by unfold Grid.cell?; rw [h]
      have e2 : g.cell? r c' = cells[c']? := by unfold Grid.cell?; rw [h]
      have e3 : Grid.cell? (g.set r (cells.set c v)) r c' = (cells.set c v)[c']? := by
        unfold Grid.cell?
        rw [List.getElem?_set_self hlt]
      rw [e3, e1, e2]
      by_cases hc : c = c'
      · subst hc
        by_cases hlc : c < cells.length
        · rw [List.getElem?_set_self hlc]
          simp [List.getElem?_eq_getElem hlc]
        · have h1 : cells[c]? = none := List.getElem?_eq_none (by omega)
          have h2 : (cells.set c v)[c]? = none :=
            List.getElem?_eq_none (by rw [List.length_set]; omega)
          simp [h1, h2]
      · rw [List.getElem?_set_ne hc]
        simp [hc]
    · have : Grid.cell? (g.set r (cells.set c v)) r' c' = g.cell? r' c' := by
        unfold Grid.cell?
        rw [List.getElem?_set_ne hr]
      rw [this]
      simp [hr]

theorem WF.cell_setCell {N : Nat} {g : Grid} (hg : WF N g) {r c : Nat} (hb : onBoard N (r, c))
    (v : Cell) (r' c' : Nat) :
    (g.setCell r c v).cell r' c' = if r = r' ∧ c = c' then v else g.cell r' c' := by
  obtain ⟨w, hw⟩ := hg.cell?_isSome hb.1 hb.2
  unfold Grid.cell
  rw [cell?_setCell, hw]
  by_cases h : r = r' ∧ c = c'
  · simp [h]
  · rw [if_neg h, if_neg (by tauto)]

/-! ### Sets in insertion order -/

theorem setHas_iff (s : List Pos) (k : Pos) : setHas s k = true ↔ k ∈ s := by
  unfold setHas
  simp

theorem mem_setAdd (s : List Pos) (k x : Pos) : x ∈ setAdd s k ↔ x ∈ s ∨ x = k := by
  unfold setAdd
  split_ifs with h
  · rw [setHas_iff] at h
    constructor
    · exact Or.inl
    · rintro (h1 | rfl)
      · exact h1
      · exact h
  · simp

theorem setAdd_of_not_mem {s : List Pos} {k : Pos} (h : k ∉ s) : setAdd s k = s ++ [k] := by
  unfold setAdd
  rw [if_neg]
  rw [setHas_iff]
  exact h

theorem mem_foldl_setAdd (l s : List Pos) (x : Pos) :
    x ∈ l.foldl setAdd s ↔ x ∈ s ∨ x ∈ l := by
  induction l generalizing s with
  | nil => simp
  | cons a l ih =>
    rw [List.foldl_cons, ih, mem_setAdd]
    simp only [List.mem_cons]
    tauto

/-! ### The enclosure tests -/

theorem any_isInGroup (group : List Pos) (n : Pos) :
    group.any (fun q => q.1 == n.1 && q.2 == n.2) = true ↔ n ∈ group := by
  simp only [List.any_eq_true, Bool.and_eq_true, beq_iff_eq]
  constructor
  · rintro ⟨q, hq, h1, h2⟩
    have : q = n := Prod.ext h1 h2
    rw [← this]; exact hq
  · intro h
    exact ⟨n, h, rfl, rfl⟩

theorem isGroupSurrounded_iff (N : Nat) (g : Grid) (group : List Pos) (A : Nat) :
    isGroupSurrounded N g group A = true ↔
      ∀ p ∈ group, ∀ n ∈ getNeighbors N p.1 p.2, n ∉ group →
        (g.cell n.1 n.2).owner = some A := by
  unfold isGroupSurrounded
  simp only [List.all_eq_true]
  constructor
  · intro h p hp n hn hng
    have := h p hp n hn
    have hng' : ¬ (group.any (fun q => q.1 == n.1 && q.2 == n.2) = true) := by
      rw [any_isInGroup]; exact hng
    simp only [hng', Bool.false_eq_true, if_false] at this
    by_contra hne
    simp [hne] at this
  · intro h p hp n hn
    by_cases hin : group.any (fun q => q.1 == n.1 && q.2 == n.2) = true
    · simp [hin]
    · have hng : n ∉ group := by rw [← any_isInGroup]; exact hin
      have := h p hp n hn hng
      simp [hin, this]

theorem mem_regionCells_aux (N : Nat) (group acc : List Pos) (x : Pos) :
    x ∈ group.foldl (fun region p =>
        (getNeighbors N p.1 p.2).foldl setAdd (setAdd region p)) acc ↔
      x ∈ acc ∨ ∃ p ∈ group, x = p ∨ x ∈ getNeighbors N p.1 p.2 := by
  induction group generalizing acc with
  | nil => simp
  | cons a l ih =>
    rw [List.foldl_cons, ih, mem_foldl_setAdd, mem_setAdd]
    simp only [List.mem_cons, exists_eq_or_imp]
    constructor
    · rintro (((h | h) | h) | h)
      · exact Or.inl h
      · exact Or.inr (Or.inl (Or.inl h))
      · exact Or.inr (Or.inl (Or.inr h))
      · exact Or.inr (Or.inr h)
    · rintro (h | (h | h) | h)
      · exact Or.inl (Or.inl (Or.inl h))
      · exact Or.inl (Or.inl (Or.inr h))
      · exact Or.inl (Or.inr h)
      · exact Or.inr h

theorem mem_regionCells (N : Nat) (group : List Pos) (x : Pos) :
    x ∈ regionCells N group ↔ ∃ p ∈ group, x = p ∨ x ∈ getNeighbors N p.1 p.2 := by
  unfold regionCells
  rw [mem_regionCells_aux]
  simp

theorem hasEmptyCellsInRegion_iff (N : Nat) (g : Grid) (group : List Pos) :
    hasEmptyCellsInRegion N g group = true ↔
      ∃ p ∈ group, (g.cell p.1 p.2).type = CellType.empty ∨
        ∃ n ∈ getNeighbors N p.1 p.2, (g.cell n.1 n.2).type = CellType.empty := by
  unfold hasEmptyCellsInRegion
  simp only [List.any_eq_true, beq_iff_eq, mem_regionCells]
  constructor
  · rintro ⟨x, ⟨p, hp, hx⟩, he⟩
    rcases hx with rfl | hx
    · exact ⟨x, hp, Or.inl he⟩
    · exact ⟨p, hp, Or.inr ⟨x, hx, he⟩⟩
  · rintro ⟨p, hp, he | ⟨n, hn, he⟩⟩
    · exact ⟨p, ⟨p, hp, Or.inl rfl⟩, he⟩
    · exact ⟨n, ⟨p, hp, Or.inr hn⟩, he⟩

/-- The region test cannot fire on a surrounded group of Active cells when the
cell invariant holds. -/
theorem hasEmpty_false_of_surrounded {N : Nat} {g : Grid} (hinv : GridInv g)
    {group : List Pos} {A : Nat}
    (hact : ∀ p ∈ group, (g.cell p.1 p.2).type = CellType.active)
    (hs : isGroupSurrounded N g group A = true) :
    hasEmptyCellsInRegion N g group = false := by
  rw [← Bool.not_eq_true, hasEmptyCellsInRegion_iff]
  rw [isGroupSurrounded_iff] at hs
  rintro ⟨p, hp, he | ⟨n, hn, he⟩⟩
  · rw [hact p hp] at he
    exact CellType.noConfusion he
  · by_cases hng : n ∈ group
    · rw [hact n hng] at he
      exact CellType.noConfusion he
    · have ho := hs p hp n hn hng
      have hnone := (hinv.cell n.1 n.2).2 he
      rw [ho] at hnone
      exact Option.noConfusion hnone

/-! ### Connectivity -/

theorem manhattan_comm (p q : Pos) : manhattan p q = manhattan q p := by
  unfold manhattan
  rw [max_comm p.1, min_comm p.1, max_comm p.2, min_comm p.2]

theorem EnemyStep.reverse {N : Nat} {g : Grid} {E : Nat} {p q : Pos} (h : EnemyStep N g E p q) :
    EnemyStep N g E q p :=
  ⟨h.2.1, h.1, by rw [manhattan_comm]; exact h.2.2⟩

theorem Connected.symm {N : Nat} {g : Grid} {E : Nat} {p q : Pos} (h : Connected N g E p q) :
    Connected N g E q p :=
  Relation.ReflTransGen.symmetric (fun _ _ hs => EnemyStep.reverse hs) h

theorem Connected.trans {N : Nat} {g : Grid} {E : Nat} {p q r : Pos}
    (h1 : Connected N g E p q) (h2 : Connected N g E q r) : Connected N g E p r :=
  Relation.ReflTransGen.trans h1 h2

theorem Connected.refl (N : Nat) (g : Grid) (E : Nat) (p : Pos) : Connected N g E p p :=
  Relation.ReflTransGen.refl

theorem Connected.step {N : Nat} {g : Grid} {E : Nat} {p q r : Pos}
    (h1 : Connected N g E p q) (h2 : EnemyStep N g E q r) : Connected N g E p r :=
  Relation.ReflTransGen.tail h1 h2

/-- Every position connected to an on-board Active cell of `E` is one. -/
theorem Connected.active {N : Nat} {g : Grid} {E : Nat} {p q : Pos}
    (h : Connected N g E p q) (hp : onBoard N p ∧ ActiveOf g E p) :
    onBoard N q ∧ ActiveOf g E q := by
  rcases Relation.ReflTransGen.cases_tail h with h1 | ⟨b, _, hs⟩
  · rw [h1]; exact hp
  · exact hs.2.1

/-- A position connected to a cell that is not an Active cell of `E` is that cell. -/
theorem Connected.eq_of_not_active {N : Nat} {g : Grid} {E : Nat} {p q : Pos}
    (h : Connected N g E p q) (hp : ¬ ActiveOf g E p) : q = p := by
  rcases Relation.ReflTransGen.cases_head h with h1 | ⟨b, hs, _⟩
  · exact h1.symm
  · exact absurd hs.1.2 hp

/-- Two connected positions have the same component. -/
theorem Connected.congr {N : Nat} {g : Grid} {E : Nat} {p q : Pos} (h : Connected N g E p q)
    (r : Pos) : Connected N g E p r ↔ Connected N g E q r :=
  ⟨fun h1 => h.symm.trans h1, fun h1 => h.trans h1⟩

/-! ### The queue pushes of the flood fill -/

theorem mem_pushNeighbors (g : Grid) (E : Nat) (lv v nbrs queue : List Pos) (n : Pos) :
    n ∈ pushNeighbors g E lv v nbrs queue ↔
      n ∈ queue ∨ (n ∈ nbrs ∧ n ∉ lv ∧ n ∉ v ∧ ActiveOf g E n) := by
  unfold pushNeighbors
  induction nbrs generalizing queue with
  | nil => simp
  | cons a l ih =>
    rw [List.foldl_cons, ih]
    by_cases h1 : (!setHas lv a && !setHas v a) = true
    · have h1' := h1
      simp only [Bool.and_eq_true, Bool.not_eq_eq_eq_not, Bool.not_true,
        ← Bool.not_eq_true, setHas_iff] at h1'
      rw [if_pos h1]
      by_cases h2 : (g.cell a.1 a.2).type = CellType.active ∧ (g.cell a.1 a.2).owner = some E
      · simp only [h2, and_self, if_true, List.mem_append, List.mem_cons, List.not_mem_nil, or_false]
        constructor
        · rintro ((h | h) | h)
          · exact Or.inl h
          · exact Or.inr ⟨Or.inl h, by rw [h]; exact h1'.1, by rw [h]; exact h1'.2,
              by rw [h]; exact h2⟩
          · exact Or.inr ⟨Or.inr h.1, h.2⟩
        · rintro (h | ⟨h | h, h3⟩)
          · exact Or.inl (Or.inl h)
          · exact Or.inl (Or.inr h)
          · exact Or.inr ⟨h, h3⟩
      · simp only [h2, if_false, List.mem_cons]
        constructor
        · rintro (h | h)
          · exact Or.inl h
          · exact Or.inr ⟨Or.inr h.1, h.2⟩
        · rintro (h | ⟨h | h, h3⟩)
          · exact Or.inl h
          · exact absurd (by rw [← h]; exact h3.2.2) h2
          · exact Or.inr ⟨h, h3⟩
    · rw [if_neg h1]
      have h1' : a ∈ lv ∨ a ∈ v := by
        simp only [Bool.and_eq_true, Bool.not_eq_eq_eq_not, Bool.not_true,
          ← Bool.not_eq_true, setHas_iff] at h1
        tauto
      simp only [List.mem_cons]
      constructor
      · rintro (h | h)
        · exact Or.inl h
        · exact Or.inr ⟨Or.inr h.1, h.2⟩
      · rintro (h | ⟨h | h, h3⟩)
        · exact Or.inl h
        · rcases h1' with h4 | h4
          · exact absurd (by rw [h]; exact h4) h3.1
          · exact absurd (by rw [h]; exact h4) h3.2.1
        · exact Or.inr ⟨h, h3⟩

theorem length_pushNeighbors (g : Grid) (E : Nat) (lv v nbrs queue : List Pos) :
    (pushNeighbors g E lv v nbrs queue).length ≤ queue.length + nbrs.length := by
  unfold pushNeighbors
  induction nbrs generalizing queue with
  | nil => simp
  | cons a l ih =>
    rw [List.foldl_cons]
    refine le_trans (ih _) ?_
    simp only [List.length_cons]
    split_ifs
    · simp only [List.length_append, List.length_singleton]; omega
    · omega
    · omega

theorem length_getNeighbors_le (N row col : Nat) : (getNeighbors N row col).length ≤ 4 := by
  unfold getNeighbors
  simp only [List.nil_append]
  split_ifs <;> simp

/-! ### Termination of the flood fill -/

theorem unvisitedCount_le (N : Nat) (v : List Pos) : unvisitedCount N v ≤ N * N := by
  unfold unvisitedCount
  refine le_trans (Finset.card_filter_le _ _) ?_
  simp

theorem unvisitedCount_setAdd_lt {N : Nat} {v : List Pos} {p : Pos} (hb : onBoard N p)
    (hp : p ∉ v) : unvisitedCount N (setAdd v p) < unvisitedCount N v := by
  unfold unvisitedCount
  apply Finset.card_lt_card
  rw [Finset.ssubset_iff_of_subset]
  · refine ⟨p, ?_, ?_⟩
    · simp only [Finset.mem_filter, Finset.mem_product, Finset.mem_range]
      exact ⟨hb, hp⟩
    · simp only [Finset.mem_filter, mem_setAdd, not_and, not_not]
      intro _
      exact Or.inr trivial
  · intro q
    simp only [Finset.mem_filter, mem_setAdd]
    rintro ⟨h1, h2⟩
    exact ⟨h1, fun h => h2 (Or.inl h)⟩

/-- Every iteration of the loop decreases the measure. -/
theorem floodIter_measure {N : Nat} {g : Grid} (hg : WF N g) (E : Nat) (s : FloodState)
    (p : Pos) (rest : List Pos) :
    floodMeasure N (floodIter N g E s p rest) ≤ 4 * unvisitedCount N s.visited + rest.length := by
  unfold floodIter
  by_cases h1 : (setHas s.localVisited p || setHas s.visited p) = true
  · rw [if_pos h1]
    exact Nat.le_refl _
  rw [if_neg h1]
  simp only []
  by_cases h2 : (g.cell p.1 p.2).type ≠ CellType.active ∨ (g.cell p.1 p.2).owner ≠ some E
  · rw [if_pos h2]
    exact Nat.le_refl _
  · rw [if_neg h2]
    have hact : ActiveOf g E p := by
      unfold ActiveOf
      constructor
      · by_contra h
        exact h2 (Or.inl h)
      · by_contra h
        exact h2 (Or.inr h)
    have hb : onBoard N p := hg.onBoard_of_active hact
    have hnv : p ∉ s.visited := by
      intro h
      apply h1
      rw [Bool.or_eq_true]
      exact Or.inr ((setHas_iff _ _).2 h)
    have hlt := unvisitedCount_setAdd_lt hb hnv
    have hlen := length_pushNeighbors g E (setAdd s.localVisited p) (setAdd s.visited p)
      (getNeighbors N p.1 p.2) rest
    have h4 := length_getNeighbors_le N p.1 p.2
    unfold floodMeasure
    simp only
    omega

/-- With fuel at least the measure, the loop stops on an empty queue. -/
theorem floodLoop_queue_nil {N : Nat} {g : Grid} (hg : WF N g) (E : Nat) (fuel : Nat) :
    ∀ s : FloodState, floodMeasure N s ≤ fuel → (floodLoop N g E fuel s).queue = [] := by
  induction fuel with
  | zero =>
    intro s h
    unfold floodLoop
    unfold floodMeasure at h
    apply List.eq_nil_of_length_eq_zero
    omega
  | succ k ih =>
    intro s h
    unfold floodLoop
    cases hq : s.queue with
    | nil => simpa using hq
    | cons p rest =>
      simp only
      apply ih
      have := floodIter_measure hg E s p rest
      unfold floodMeasure at h
      rw [hq, List.length_cons] at h
      omega

/-- Once the queue is empty, further iterations change nothing. -/
theorem floodLoop_of_queue_nil (N : Nat) (g : Grid) (E : Nat) (fuel : Nat) (s : FloodState)
    (h : s.queue = []) : floodLoop N g E fuel s = s := by
  cases fuel with
  | zero => rfl
  | succ k =>
    unfold floodLoop
    rw [h]

theorem floodLoop_add (N : Nat) (g : Grid) (E : Nat) (k fuel : Nat) :
    ∀ s : FloodState, floodLoop N g E (fuel + k) s =
      floodLoop N g E k (floodLoop N g E fuel s) := by
  induction fuel with
  | zero =>
    intro s
    simp [floodLoop]
  | succ n ih =>
    intro s
    have e : n + 1 + k = (n + k) + 1 := by omega
    rw [e]
    cases hq : s.queue with
    | nil =>
      rw [floodLoop_of_queue_nil N g E _ s hq, floodLoop_of_queue_nil N g E _ s hq,
        floodLoop_of_queue_nil N g E _ s hq]
    | cons p rest =>
      have e1 : floodLoop N g E (n + k + 1) s =
          floodLoop N g E (n + k) (floodIter N g E s p rest) := by
        conv_lhs => unfold floodLoop
        rw [hq]
      have e2 : floodLoop N g E (n + 1) s =
          floodLoop N g E n (floodIter N g E s p rest) := by
        conv_lhs => unfold floodLoop
        rw [hq]
      rw [e1, e2, ih]

/-- The flood fill of `findConnectedEnemyGroup` leaves its loop on an empty
queue, and more iterations would not change its result. -/
theorem floodFinal_terminates {N : Nat} {g : Grid} (hg : WF N g) (r c E : Nat)
    (visited : List Pos) :
    (floodFinal N g r c E visited).queue = [] ∧
    ∀ k, floodLoop N g E (floodFuel N + k)
      { queue := [(r, c)], localVisited := [], visited := visited, group := [] } =
        floodFinal N g r c E visited := by
  have h1 : (floodFinal N g r c E visited).queue = [] := by
    unfold floodFinal
    apply floodLoop_queue_nil hg
    unfold floodMeasure floodFuel
    have := unvisitedCount_le N visited
    simp only [List.length_singleton]
    nlinarith
  refine ⟨h1, ?_⟩
  intro k
  rw [floodLoop_add]
  exact floodLoop_of_queue_nil N g E k _ h1

/-! ### Correctness of the flood fill -/

theorem floodIter_inv {N : Nat} {g : Grid} (hg : WF N g) {E : Nat} {x : Pos} {v0 : List Pos}
    (hx : ActiveOf g E x) (hv0 : ∀ q, Connected N g E x q → q ∉ v0)
    {s : FloodState} {p : Pos} {rest : List Pos} (hq : s.queue = p :: rest)
    (hinv : FloodInv N g E x v0 s) : FloodInv N g E x v0 (floodIter N g E s p rest) := by
  obtain ⟨hlv, hvis, hnd, hgrp, hqu, hclo, hstart⟩ := hinv
  have hxb : onBoard N x ∧ ActiveOf g E x := ⟨hg.onBoard_of_active hx, hx⟩
  have hpc : Connected N g E x p := hqu p (by rw [hq]; exact List.mem_cons_self _ _)
  have hpa : onBoard N p ∧ ActiveOf g E p := hpc.active hxb
  unfold floodIter
  by_cases h1 : (setHas s.localVisited p || setHas s.visited p) = true
  · rw [if_pos h1]
    have hpg : p ∈ s.group := by
      rw [Bool.or_eq_true, setHas_iff, setHas_iff, hlv, hvis, List.mem_append] at h1
      rcases h1 with h | h | h
      · exact h
      · exact absurd h (hv0 p hpc)
      · exact h
    refine ⟨hlv, hvis, hnd, hgrp, ?_, ?_, ?_⟩
    · intro q hqr
      exact hqu q (by rw [hq]; exact List.mem_cons_of_mem _ hqr)
    · intro q hqg n hn
      rcases hclo q hqg n hn with h | h
      · exact Or.inl h
      · rw [hq, List.mem_cons] at h
        rcases h with h | h
        · exact Or.inl (by rw [h]; exact hpg)
        · exact Or.inr h
    · rcases hstart with h | h
      · exact Or.inl h
      · rw [hq, List.mem_cons] at h
        rcases h with h | h
        · exact Or.inl (by rw [h]; exact hpg)
        · exact Or.inr h
  rw [if_neg h1]
  simp only []
  by_cases h2 : (g.cell p.1 p.2).type ≠ CellType.active ∨ (g.cell p.1 p.2).owner ≠ some E
  · exact absurd hpa.2.1 (by rcases h2 with h | h; exact fun _ => h hpa.2.1; exact fun _ => h hpa.2.2)
  rw [if_neg h2]
  have hnlv : p ∉ s.localVisited := by
    intro h
    apply h1
    rw [Bool.or_eq_true]
    exact Or.inl ((setHas_iff _ _).2 h)
  have hnv : p ∉ s.visited := by
    intro h
    apply h1
    rw [Bool.or_eq_true]
    exact Or.inr ((setHas_iff _ _).2 h)
  have hng : p ∉ s.group := by rw [← hlv]; exact hnlv
  rw [setAdd_of_not_mem hnlv, setAdd_of_not_mem hnv]
  refine ⟨by simp only [hlv], by simp only [hvis, List.append_assoc], ?_, ?_, ?_, ?_, ?_⟩
  · simp only
    rw [List.nodup_append]
    refine ⟨hnd, List.nodup_singleton p, ?_⟩
    intro a ha hb
    rw [List.mem_singleton] at hb
    exact hng (by rw [← hb]; exact ha)
  · intro q hqg
    simp only [List.mem_append, List.mem_singleton] at hqg
    rcases hqg with h | h
    · exact hgrp q h
    · rw [h]; exact hpc
  · intro q hqq
    simp only [mem_pushNeighbors] at hqq
    rcases hqq with h | ⟨hn, _, _, ha⟩
    · exact hqu q (by rw [hq]; exact List.mem_cons_of_mem _ h)
    · have hqb := (mem_getNeighbors_iff hpa.1 q).1 hn
      exact hpc.step ⟨hpa, ⟨hqb.1, ha⟩, hqb.2⟩
  · intro q hqg n hn
    simp only [List.mem_append, List.mem_singleton, mem_pushNeighbors]
    simp only [List.mem_append, List.mem_singleton] at hqg
    rcases hqg with hqg | hqg
    · rcases hclo q hqg n hn with h | h
      · exact Or.inl (Or.inl h)
      · rw [hq, List.mem_cons] at h
        rcases h with h | h
        · exact Or.inl (Or.inr h)
        · exact Or.inr (Or.inl h)
    · subst hqg
      by_cases hin : n ∈ s.group ∨ n = q
      · exact Or.inl hin
      · right; right
        have hnc : Connected N g E x n := hpc.step hn
        refine ⟨(mem_getNeighbors_iff hpa.1 n).2 ⟨hn.2.1.1, hn.2.2⟩, ?_, ?_, hn.2.1.2⟩
        · rw [hlv]
          simpa only [List.mem_append, List.mem_singleton] using hin
        · rw [hvis]
          simp only [List.mem_append, List.mem_singleton]
          rintro ((h | h) | h)
          · exact hv0 n hnc h
          · exact hin (Or.inl h)
          · exact hin (Or.inr h)
  · simp only [List.mem_append, List.mem_singleton, mem_pushNeighbors]
    rcases hstart with h | h
    · exact Or.inl (Or.inl h)
    · rw [hq, List.mem_cons] at h
      rcases h with h | h
      · exact Or.inl (Or.inr h)
      · exact Or.inr (Or.inl h)

theorem floodLoop_inv {N : Nat} {g : Grid} (hg : WF N g) {E : Nat} {x : Pos} {v0 : List Pos}
    (hx : ActiveOf g E x) (hv0 : ∀ q, Connected N g E x q → q ∉ v0) (fuel : Nat) :
    ∀ s : FloodState, FloodInv N g E x v0 s → FloodInv N g E x v0 (floodLoop N g E fuel s) := by
  induction fuel with
  | zero => intro s h; exact h
  | succ k ih =>
    intro s h
    unfold floodLoop
    cases hq : s.queue with
    | nil => exact h
    | cons p rest => exact ih _ (floodIter_inv hg hx hv0 hq h)

/-- A set of Active cells of `E` that contains `x` and is closed under
4-neighbour steps contains the whole component of `x`. -/
theorem connected_mem_of_closed {N : Nat} {g : Grid} {E : Nat} {x : Pos} {S : List Pos}
    (hx : x ∈ S) (hclo : ∀ p ∈ S, ∀ n, EnemyStep N g E p n → n ∈ S) {q : Pos}
    (h : Connected N g E x q) : q ∈ S := by
  induction h with
  | refl => exact hx
  | tail _ hs ih => exact hclo _ ih _ hs

/-- The flood fill started at an Active cell of `E` whose component is disjoint
from `visited` stops on an empty queue with the component as its group. -/
theorem flood_component (N : Nat) (g : Grid) (E r c : Nat) (visited : List Pos)
    (hg : WF N g) (hx : ActiveOf g E (r, c))
    (hv0 : ∀ q, Connected N g E (r, c) q → q ∉ visited) :
    (floodFinal N g r c E visited).queue = [] ∧
    (∀ q, q ∈ (findConnectedEnemyGroup N g r c E visited).1 ↔ Connected N g E (r, c) q) ∧
    (findConnectedEnemyGroup N g r c E visited).1.Nodup ∧
    (findConnectedEnemyGroup N g r c E visited).2 =
      visited ++ (findConnectedEnemyGroup N g r c E visited).1 ∧
    (∀ q, q ∈ (findConnectedEnemyGroup N g r c E visited).2 ↔
      (q ∈ visited ∨ Connected N g E (r, c) q)) := by
  have hterm := (floodFinal_terminates hg r c E visited).1
  have hinit : FloodInv N g E (r, c) visited
      { queue := [(r, c)], localVisited := [], visited := visited, group := [] } := by
    refine ⟨rfl, by simp, List.nodup_nil, ?_, ?_, ?_, ?_⟩
    · intro p hp; exact absurd hp (List.not_mem_nil p)
    · intro p hp
      rw [List.mem_singleton] at hp
      rw [hp]; exact Connected.refl N g E _
    · intro p hp; exact absurd hp (List.not_mem_nil p)
    · exact Or.inr (List.mem_singleton_self _)
  have hfin : FloodInv N g E (r, c) visited (floodFinal N g r c E visited) :=
    floodLoop_inv hg hx hv0 _ _ hinit
  obtain ⟨_, hvis, hnd, hgrp, _, hclo, hstart⟩ := hfin
  rw [hterm] at hclo hstart
  have hmem : ∀ q, q ∈ (floodFinal N g r c E visited).group ↔ Connected N g E (r, c) q := by
    intro q
    constructor
    · exact hgrp q
    · intro h
      refine connected_mem_of_closed ?_ ?_ h
      · rcases hstart with h1 | h1
        · exact h1
        · exact absurd h1 (List.not_mem_nil _)
      · intro p hp n hn
        rcases hclo p hp n hn with h1 | h1
        · exact h1
        · exact absurd h1 (List.not_mem_nil _)
  refine ⟨hterm, hmem, hnd, hvis, ?_⟩
  intro q
  show q ∈ (floodFinal N g r c E visited).visited ↔ _
  rw [hvis, List.mem_append, hmem]

/-- C3: for an `N × N` grid, a start cell that is Active and owned by `E`, and a
visited set containing no cell of the start cell's component,
`findConnectedEnemyGroup` leaves its loop on an empty queue and returns exactly
the maximal 4-connected component of Active/`E` cells containing the start cell,
without duplicates; afterwards `visited` is the old set followed by exactly
those cells. -/
theorem findConnectedEnemyGroup_spec (N : Nat) (g : Grid) (E r c : Nat) (visited : List Pos)
    (hg : WF N g) (hx : ActiveOf g E (r, c))
    (hv0 : ∀ q, Connected N g E (r, c) q → q ∉ visited) :
    (floodFinal N g r c E visited).queue = [] ∧
    (∀ k, floodLoop N g E (floodFuel N + k)
      { queue := [(r, c)], localVisited := [], visited := visited, group := [] } =
        floodFinal N g r c E visited) ∧
    (∀ q, q ∈ (findConnectedEnemyGroup N g r c E visited).1 ↔ Connected N g E (r, c) q) ∧
    (findConnectedEnemyGroup N g r c E visited).1.Nodup ∧
    (findConnectedEnemyGroup N g r c E visited).2 =
      visited ++ (findConnectedEnemyGroup N g r c E visited).1 ∧
    (∀ q, q ∈ (findConnectedEnemyGroup N g r c E visited).2 ↔
      (q ∈ visited ∨ Connected N g E (r, c) q)) := by
  obtain ⟨h1, h2, h3, h4, h5⟩ := flood_component N g E r c visited hg hx hv0
  exact ⟨h1, (floodFinal_terminates hg r c E visited).2, h2, h3, h4, h5⟩

/-! ### The tests on a group that lists a whole component -/

theorem Qualifies.component_congr {N : Nat} {g : Grid} {E A : Nat} {x p : Pos}
    (hx : onBoard N x ∧ ActiveOf g E x) (h : Connected N g E x p) :
    Qualifies N g E A p ↔ Qualifies N g E A x := by
  have hp := h.active hx
  have hc := h.congr
  unfold Qualifies Enclosed RegionHasEmpty
  simp only [hc]
  constructor
  · rintro ⟨_, _, he, hr⟩
    refine ⟨hx.1, hx.2, he, ?_⟩
    rcases hr with hr | hr
    · have : x = p := hr x h.symm
      subst this
      exact Or.inl hr
    · exact Or.inr hr
  · rintro ⟨_, _, he, hr⟩
    refine ⟨hp.1, hp.2, he, ?_⟩
    rcases hr with hr | hr
    · have : p = x := hr p ((hc p).1 h)
      subst this
      exact Or.inl hr
    · exact Or.inr hr

theorem isGroupSurrounded_component {N : Nat} {g : Grid} {E A : Nat} {x : Pos}
    (hx : onBoard N x ∧ ActiveOf g E x) {group : List Pos}
    (hm : ∀ q, q ∈ group ↔ Connected N g E x q) :
    isGroupSurrounded N g group A = true ↔ Enclosed N g E A x := by
  rw [isGroupSurrounded_iff]
  unfold Enclosed
  constructor
  · intro h q hq n hnb hn1 hnc
    have hqb := (hq.active hx).1
    exact h q ((hm q).2 hq) n ((mem_getNeighbors_iff hqb n).2 ⟨hnb, hn1⟩)
      (fun hh => hnc ((hm n).1 hh))
  · intro h q hq n hn hng
    have hqc := (hm q).1 hq
    have hqb := (hqc.active hx).1
    have hnb := (mem_getNeighbors_iff hqb n).1 hn
    exact h q hqc n hnb.1 hnb.2 (fun hh => hng ((hm n).2 hh))

theorem length_eq_one_component {N : Nat} {g : Grid} {E : Nat} {x : Pos} {group : List Pos}
    (hm : ∀ q, q ∈ group ↔ Connected N g E x q) (hnd : group.Nodup) :
    group.length = 1 ↔ ∀ q, Connected N g E x q → q = x := by
  have hxg : x ∈ group := (hm x).2 (Connected.refl N g E x)
  constructor
  · intro h q hq
    obtain ⟨a, ha⟩ := List.length_eq_one.1 h
    have h1 := (hm q).2 hq
    rw [ha, List.mem_singleton] at h1 hxg
    rw [h1, hxg]
  · intro h
    have hall : ∀ q ∈ group, q = x := fun q hq => h q ((hm q).1 hq)
    cases group with
    | nil => exact absurd hxg (List.not_mem_nil _)
    | cons a l =>
      cases l with
      | nil => rfl
      | cons b l2 =>
        exfalso
        have ha := hall a (List.mem_cons_self _ _)
        have hb := hall b (List.mem_cons_of_mem _ (List.mem_cons_self _ _))
        rw [ha, hb] at hnd
        simp at hnd

theorem hasEmptyCellsInRegion_component {N : Nat} {g : Grid} {E : Nat} {x : Pos}
    (hx : onBoard N x ∧ ActiveOf g E x) {group : List Pos}
    (hm : ∀ q, q ∈ group ↔ Connected N g E x q) :
    hasEmptyCellsInRegion N g group = true ↔ RegionHasEmpty N g E x := by
  rw [hasEmptyCellsInRegion_iff]
  unfold RegionHasEmpty
  constructor
  · rintro ⟨p, hp, h⟩
    have hpc := (hm p).1 hp
    have hpb := (hpc.active hx).1
    refine ⟨p, hpc, ?_⟩
    rcases h with h | ⟨n, hn, he⟩
    · exact Or.inl h
    · have hnb := (mem_getNeighbors_iff hpb n).1 hn
      exact Or.inr ⟨n, hnb.1, hnb.2, he⟩
  · rintro ⟨p, hpc, h⟩
    have hpb := (hpc.active hx).1
    refine ⟨p, (hm p).2 hpc, ?_⟩
    rcases h with h | ⟨n, hnb, hn1, he⟩
    · exact Or.inl h
    · exact Or.inr ⟨n, (mem_getNeighbors_iff hpb n).2 ⟨hnb, hn1⟩, he⟩

/-- The decision of the scan on a group that lists the component of `x`. -/
theorem qualifies_component {N : Nat} {g : Grid} {E A : Nat} {x : Pos}
    (hx : onBoard N x ∧ ActiveOf g E x) {group : List Pos}
    (hm : ∀ q, q ∈ group ↔ Connected N g E x q) (hnd : group.Nodup) :
    (isGroupSurrounded N g group A = true ∧
      (group.length = 1 ∨ hasEmptyCellsInRegion N g group = false)) ↔ Qualifies N g E A x := by
  unfold Qualifies
  rw [isGroupSurrounded_component hx hm, length_eq_one_component hm hnd,
    ← Bool.not_eq_true, hasEmptyCellsInRegion_component hx hm]
  constructor
  · rintro ⟨h1, h2⟩
    exact ⟨hx.1, hx.2, h1, h2⟩
  · rintro ⟨_, _, h1, h2⟩
    exact ⟨h1, h2⟩

/-- The loop body of the scan at an unvisited Active cell of the enemy, with
the nested tests collected in one condition. -/
theorem scanCellWith_true_active (N : Nat) (g : Grid) (A E row col : Nat) (s : ScanState)
    (hv : (row, col) ∉ s.visited) (ha : ActiveOf g E (row, col))
    (hlen : 0 < (findConnectedEnemyGroup N g row col E s.visited).1.length) :
    scanCellWith true N g A E row s col =
      { toInfect :=
          if isGroupSurrounded N g (findConnectedEnemyGroup N g row col E s.visited).1 A = true ∧
              ((findConnectedEnemyGroup N g row col E s.visited).1.length = 1 ∨
                hasEmptyCellsInRegion N g
                  (findConnectedEnemyGroup N g row col E s.visited).1 = false) then
            (findConnectedEnemyGroup N g row col E s.visited).1.foldl setAdd s.toInfect
          else s.toInfect,
        visited := (findConnectedEnemyGroup N g row col E s.visited).2 } := by
  unfold scanCellWith
  have hv' : ¬ (setHas s.visited (row, col) = true) := by rw [setHas_iff]; exact hv
  have ha' : (g.cell row col).type = CellType.active ∧ (g.cell row col).owner = some E := ha
  rw [if_neg hv']
  simp only [ha', and_self, if_true, gt_iff_lt, hlen]
  split_ifs <;> simp_all

/-! ### The scan of the board -/

theorem scanCell_inv {N : Nat} {g : Grid} (hg : WF N g) {E A : Nat} {P : Pos → Prop}
    {s : ScanState} {row col : Nat} (hb : onBoard N (row, col))
    (hinv : ScanInv N g E A P s) :
    ScanInv N g E A (fun p => P p ∨ p = (row, col)) (scanCellWith true N g A E row s col) := by
  obtain ⟨hact, hclo, hcov, hinf⟩ := hinv
  by_cases hv : (row, col) ∈ s.visited
  · have e : scanCellWith true N g A E row s col = s := by
      unfold scanCellWith
      rw [if_pos ((setHas_iff _ _).2 hv)]
    rw [e]
    refine ⟨hact, hclo, ?_, hinf⟩
    rintro p (hp | hp) ha
    · exact hcov p hp ha
    · rw [hp]; exact hv
  by_cases ha : ActiveOf g E (row, col)
  · have hx : onBoard N (row, col) ∧ ActiveOf g E (row, col) := ⟨hb, ha⟩
    have hv0 : ∀ q, Connected N g E (row, col) q → q ∉ s.visited := by
      intro q hq hqv
      exact hv (hclo q hqv _ hq.symm)
    obtain ⟨_, hm, hnd, _, hvis⟩ := flood_component N g E row col s.visited hg ha hv0
    have hlen : 0 < (findConnectedEnemyGroup N g row col E s.visited).1.length :=
      List.length_pos_of_mem ((hm (row, col)).2 (Connected.refl N g E _))
    rw [scanCellWith_true_active N g A E row col s hv ha hlen]
    have hqi := qualifies_component (A := A) hx hm hnd
    refine ⟨?_, ?_, ?_, ?_⟩
    · intro p hp
      rcases (hvis p).1 hp with h | h
      · exact hact p h
      · exact h.active hx
    · intro p hp q hq
      rcases (hvis p).1 hp with h | h
      · exact (hvis q).2 (Or.inl (hclo p h q hq))
      · exact (hvis q).2 (Or.inr (h.trans hq))
    · rintro p (hp | hp) hpa
      · exact (hvis p).2 (Or.inl (hcov p hp hpa))
      · rw [hp]; exact (hvis _).2 (Or.inr (Connected.refl N g E _))
    · intro p
      simp only [hvis]
      by_cases hq : Qualifies N g E A (row, col)
      · rw [if_pos (hqi.2 hq), mem_foldl_setAdd, hinf, hm]
        constructor
        · rintro (⟨h1, h2⟩ | h)
          · exact ⟨Or.inl h1, h2⟩
          · exact ⟨Or.inr h, (Qualifies.component_congr hx h).2 hq⟩
        · rintro ⟨h1 | h1, h2⟩
          · exact Or.inl ⟨h1, h2⟩
          · exact Or.inr h1
      · rw [if_neg (fun h => hq (hqi.1 h)), hinf]
        constructor
        · rintro ⟨h1, h2⟩
          exact ⟨Or.inl h1, h2⟩
        · rintro ⟨h1 | h1, h2⟩
          · exact ⟨h1, h2⟩
          · exact absurd ((Qualifies.component_congr hx h1).1 h2) hq
  · have e : scanCellWith true N g A E row s col = s := by
      unfold scanCellWith
      rw [if_neg (by rw [setHas_iff]; exact hv)]
      have ha' : ¬ ((g.cell row col).type = CellType.active ∧ (g.cell row col).owner = some E) := ha
      simp only [ha', if_false]
    rw [e]
    refine ⟨hact, hclo, ?_, hinf⟩
    rintro p (hp | hp) hpa
    · exact hcov p hp hpa
    · rw [hp] at hpa; exact absurd hpa ha

theorem ScanInv.mono {N : Nat} {g : Grid} {E A : Nat} {P Q : Pos → Prop} {s : ScanState}
    (h : ScanInv N g E A P s) (hPQ : ∀ p, Q p → P p) : ScanInv N g E A Q s :=
  ⟨h.1, h.2.1, fun p hp ha => h.2.2.1 p (hPQ p hp) ha, h.2.2.2⟩

/-- The inner loop over the columns of one row. -/
theorem scanRow_inv {N : Nat} {g : Grid} (hg : WF N g) {E A : Nat} {row : Nat} (hr : row < N)
    (cols : List Nat) (hcols : ∀ c ∈ cols, c < N) :
    ∀ (P : Pos → Prop) (s : ScanState), ScanInv N g E A P s →
      ScanInv N g E A (fun p => P p ∨ (p.1 = row ∧ p.2 ∈ cols))
        (cols.foldl (scanCellWith true N g A E row) s) := by
  induction cols with
  | nil =>
    intro P s h
    exact h.mono (by simp)
  | cons c cs ih =>
    intro P s h
    rw [List.foldl_cons]
    have hbc : onBoard N (row, c) := ⟨hr, hcols c (List.mem_cons_self _ _)⟩
    have h1 := scanCell_inv hg hbc h
    have h2 := ih (fun c' hc' => hcols c' (List.mem_cons_of_mem _ hc')) _ _ h1
    refine h2.mono ?_
    rintro ⟨a, b⟩ (hp | ⟨hp1, hp2⟩)
    · exact Or.inl (Or.inl hp)
    · simp only [List.mem_cons] at hp2
      simp only at hp1
      rcases hp2 with hp2 | hp2
      · exact Or.inl (Or.inr (by rw [hp1, hp2]))
      · exact Or.inr ⟨hp1, hp2⟩

/-- The outer loop over the rows. -/
theorem scanRows_inv {N : Nat} {g : Grid} (hg : WF N g) {E A : Nat}
    (rows : List Nat) (hrows : ∀ r ∈ rows, r < N) :
    ∀ (P : Pos → Prop) (s : ScanState), ScanInv N g E A P s →
      ScanInv N g E A (fun p => P p ∨ (p.1 ∈ rows ∧ p.2 < N))
        (rows.foldl (fun s row =>
          (List.range N).foldl (scanCellWith true N g A E row) s) s) := by
  induction rows with
  | nil =>
    intro P s h
    exact h.mono (by simp)
  | cons r rs ih =>
    intro P s h
    rw [List.foldl_cons]
    have h1 := scanRow_inv hg (E := E) (A := A) (hrows r (List.mem_cons_self _ _))
      (List.range N) (fun c hc => List.mem_range.1 hc) P s h
    have h2 := ih (fun r' hr' => hrows r' (List.mem_cons_of_mem _ hr')) _ _ h1
    refine h2.mono ?_
    rintro ⟨a, b⟩ (hp | ⟨hp1, hp2⟩)
    · exact Or.inl (Or.inl hp)
    · simp only [List.mem_cons] at hp1
      simp only at hp2
      rcases hp1 with hp1 | hp1
      · exact Or.inl (Or.inr ⟨hp1, List.mem_range.2 hp2⟩)
      · exact Or.inr ⟨hp1, hp2⟩

/-- After the scan of the whole board, started with empty sets, `toInfect`
holds exactly the cells that qualify. -/
theorem mem_scanBoard {N : Nat} {g : Grid} (hg : WF N g) (E A : Nat) (p : Pos) :
    p ∈ (scanBoardWith true N g A E ⟨[], []⟩).toInfect ↔ Qualifies N g E A p := by
  have h0 : ScanInv N g E A (fun _ => False) ⟨[], []⟩ := by
    refine ⟨?_, ?_, ?_, ?_⟩
    · intro p hp; exact absurd hp (List.not_mem_nil _)
    · intro p hp; exact absurd hp (List.not_mem_nil _)
    · intro p hp; exact absurd hp id
    · intro p; simp
  have h := scanRows_inv hg (E := E) (A := A) (List.range N)
    (fun r hr => List.mem_range.1 hr) _ _ h0
  obtain ⟨_, _, hcov, hinf⟩ := h
  unfold scanBoardWith
  rw [hinf]
  constructor
  · exact fun h => h.2
  · intro hq
    refine ⟨hcov p (Or.inr ⟨List.mem_range.2 hq.1.1, hq.1.2⟩) hq.2.1, hq⟩

theorem scanPlayers_one (b : Bool) (N : Nat) (g : Grid) :
    scanPlayersWith b N g 1 = scanBoardWith b N g 1 2 ⟨[], []⟩ := by
  unfold scanPlayersWith players
  simp

theorem scanPlayers_two (b : Bool) (N : Nat) (g : Grid) :
    scanPlayersWith b N g 2 = scanBoardWith b N g 2 1 ⟨[], []⟩ := by
  unfold scanPlayersWith players
  simp

/-- The set returned by `checkAndInfectSurroundedByPlayer(1)`. -/
theorem mem_toInfect_one {N : Nat} {g : Grid} (hg : WF N g) (p : Pos) :
    p ∈ (checkAndInfectSurroundedByPlayer N g 1).toInfect ↔ Qualifies N g 2 1 p := by
  unfold checkAndInfectSurroundedByPlayer
  simp only [scanPlayers_one]
  exact mem_scanBoard hg 2 1 p

/-- The set returned by `checkAndInfectSurroundedByPlayer(2)`. -/
theorem mem_toInfect_two {N : Nat} {g : Grid} (hg : WF N g) (p : Pos) :
    p ∈ (checkAndInfectSurroundedByPlayer N g 2).toInfect ↔ Qualifies N g 1 2 p := by
  unfold checkAndInfectSurroundedByPlayer
  simp only [scanPlayers_two]
  exact mem_scanBoard hg 1 2 p

/-! ### Applying the infections -/

theorem applyInfection_wf {N : Nat} {g : Grid} (hg : WF N g) (A : Nat) (cells : List Pos) :
    WF N (applyInfection g A cells) := by
  unfold applyInfection
  induction cells generalizing g with
  | nil => exact hg
  | cons a l ih =>
    rw [List.foldl_cons]
    exact ih (hg.setCell _ _ _)

theorem applyInfection_cell {N : Nat} {g : Grid} (hg : WF N g) (A : Nat) (cells : List Pos)
    (hb : ∀ p ∈ cells, onBoard N p) (q : Pos) :
    (applyInfection g A cells).cell q.1 q.2 =
      if q ∈ cells then ⟨CellType.infected, some A⟩ else g.cell q.1 q.2 := by
  unfold applyInfection
  induction cells generalizing g with
  | nil => simp
  | cons a l ih =>
    rw [List.foldl_cons, ih (hg.setCell _ _ _) (fun p hp => hb p (List.mem_cons_of_mem _ hp))]
    by_cases h1 : q ∈ l
    · rw [if_pos h1, if_pos (List.mem_cons_of_mem _ h1)]
    · rw [if_neg h1, hg.cell_setCell (hb a (List.mem_cons_self _ _))]
      by_cases h2 : q = a
      · subst h2
        simp
      · have h3 : ¬ (a.1 = q.1 ∧ a.2 = q.2) := fun h => h2 (Prod.ext h.1.symm h.2.symm)
        have h4 : q ∉ a :: l := by
          rw [List.mem_cons]
          rintro (h | h)
          · exact h2 h
          · exact h1 h
        rw [if_neg h3, if_neg h4]

/-- The grid returned by the pass: the infections of attacker 1, then those of
attacker 2, written over the input grid. -/
theorem checkAndInfectSurrounded_eq (N : Nat) (g : Grid) :
    checkAndInfectSurrounded N g =
      applyInfection
        (applyInfection g 1 (checkAndInfectSurroundedByPlayer N g 1).toInfect) 2
        (checkAndInfectSurroundedByPlayer N g 2).toInfect := by
  have a1 : (checkAndInfectSurroundedByPlayer N g 1).attackerId = 1 := rfl
  have a2 : (checkAndInfectSurroundedByPlayer N g 2).attackerId = 2 := rfl
  unfold checkAndInfectSurrounded totalInfected players
  simp only [List.foldl_cons, List.foldl_nil, a1, a2]
  cases h1 : (checkAndInfectSurroundedByPlayer N g 1).toInfect with
  | nil =>
    cases h2 : (checkAndInfectSurroundedByPlayer N g 2).toInfect with
    | nil => simp [applyInfection]
    | cons b l2 => simp [applyInfection, mapSet]
  | cons a l1 =>
    cases h2 : (checkAndInfectSurroundedByPlayer N g 2).toInfect with
    | nil => simp [applyInfection, mapSet]
    | cons b l2 => simp [applyInfection, mapSet]

theorem toInfect_disjoint {N : Nat} {g : Grid} (hg : WF N g) (p : Pos)
    (h1 : p ∈ (checkAndInfectSurroundedByPlayer N g 1).toInfect)
    (h2 : p ∈ (checkAndInfectSurroundedByPlayer N g 2).toInfect) : False := by
  have q1 := ((mem_toInfect_one hg p).1 h1).2.1.2
  have q2 := ((mem_toInfect_two hg p).1 h2).2.1.2
  rw [q1] at q2
  exact absurd q2 (by decide)

/-- The cells of the grid returned by the pass. -/
theorem cell_checkAndInfectSurrounded {N : Nat} {g : Grid} (hg : WF N g) (p : Pos) :
    (Qualifies N g 1 2 p → (checkAndInfectSurrounded N g).cell p.1 p.2 = infectedCell 2) ∧
    (Qualifies N g 2 1 p → (checkAndInfectSurrounded N g).cell p.1 p.2 = infectedCell 1) ∧
    (¬ Qualifies N g 1 2 p → ¬ Qualifies N g 2 1 p →
      (checkAndInfectSurrounded N g).cell p.1 p.2 = g.cell p.1 p.2) := by
  have hb1 : ∀ q ∈ (checkAndInfectSurroundedByPlayer N g 1).toInfect, onBoard N q :=
    fun q hq => ((mem_toInfect_one hg q).1 hq).1
  have hb2 : ∀ q ∈ (checkAndInfectSurroundedByPlayer N g 2).toInfect, onBoard N q :=
    fun q hq => ((mem_toInfect_two hg q).1 hq).1
  rw [checkAndInfectSurrounded_eq, applyInfection_cell (applyInfection_wf hg 1 _) 2 _ hb2,
    applyInfection_cell hg 1 _ hb1]
  refine ⟨?_, ?_, ?_⟩
  · intro h2
    rw [if_pos ((mem_toInfect_two hg p).2 h2)]
    rfl
  · intro h1
    have h2 : p ∉ (checkAndInfectSurroundedByPlayer N g 2).toInfect :=
      fun h => toInfect_disjoint hg p ((mem_toInfect_one hg p).2 h1) h
    rw [if_neg h2, if_pos ((mem_toInfect_one hg p).2 h1)]
    rfl
  · intro h2 h1
    rw [if_neg (fun h => h2 ((mem_toInfect_two hg p).1 h)),
      if_neg (fun h => h1 ((mem_toInfect_one hg p).1 h))]

theorem checkAndInfectSurrounded_wf {N : Nat} {g : Grid} (hg : WF N g) :
    WF N (checkAndInfectSurrounded N g) := by
  rw [checkAndInfectSurrounded_eq]
  exact applyInfection_wf (applyInfection_wf hg 1 _) 2 _

/-! ### The result of the encirclement pass -/

/-- Two `N × N` grids with the same cells are equal. -/
theorem grid_ext {N : Nat} {g g2 : Grid} (hg : WF N g) (hg2 : WF N g2)
    (h : ∀ r c, g.cell r c = g2.cell r c) : g = g2 := by
  apply List.ext_getElem?
  intro i
  by_cases hi : i < N
  · have l1 : i < g.length := by rw [hg.1]; exact hi
    have l2 : i < g2.length := by rw [hg2.1]; exact hi
    rw [List.getElem?_eq_getElem l1, List.getElem?_eq_getElem l2]
    congr 1
    have m1 : (g[i]).length = N := hg.2 _ (List.getElem_mem l1)
    have m2 : (g2[i]).length = N := hg2.2 _ (List.getElem_mem l2)
    apply List.ext_getElem?
    intro j
    by_cases hj : j < N
    · have e1 : g.cell? i j = (g[i])[j]? := by
        unfold Grid.cell?
        rw [List.getElem?_eq_getElem l1]
      have e2 : g2.cell? i j = (g2[i])[j]? := by
        unfold Grid.cell?
        rw [List.getElem?_eq_getElem l2]
      have := h i j
      unfold Grid.cell at this
      rw [e1, e2, List.getElem?_eq_getElem (by omega), List.getElem?_eq_getElem (by omega)] at this
      rw [List.getElem?_eq_getElem (by omega), List.getElem?_eq_getElem (by omega)]
      simpa using this
    · rw [List.getElem?_eq_none (by omega), List.getElem?_eq_none (by omega)]
  · rw [List.getElem?_eq_none (by rw [hg.1]; omega), List.getElem?_eq_none (by rw [hg2.1]; omega)]

/-- Under the cell invariant the region test is implied by enclosure. -/
theorem qualifies_iff_of_inv {N : Nat} {g : Grid} (hinv : GridInv g) (E A : Nat) (p : Pos) :
    Qualifies N g E A p ↔ (onBoard N p ∧ ActiveOf g E p ∧ Enclosed N g E A p) := by
  unfold Qualifies
  constructor
  · rintro ⟨h1, h2, h3, _⟩
    exact ⟨h1, h2, h3⟩
  · rintro ⟨h1, h2, h3⟩
    refine ⟨h1, h2, h3, Or.inr ?_⟩
    rintro ⟨q, hq, he | ⟨n, hnb, hn1, he⟩⟩
    · have := (hq.active ⟨h1, h2⟩).2.1
      rw [he] at this
      exact CellType.noConfusion this
    · by_cases hc : Connected N g E p n
      · have := (hc.active ⟨h1, h2⟩).2.1
        rw [he] at this
        exact CellType.noConfusion this
      · have ho := h3 q hq n hnb hn1 hc
        have hnone := (hinv.cell n.1 n.2).2 he
        rw [ho] at hnone
        exact Option.noConfusion hnone

theorem encircled_iff (N : Nat) (g : Grid) (A : Nat) (p : Pos) :
    Encircled N g A p ↔
      ((A = 1 ∧ ActiveOf g 2 p ∧ Enclosed N g 2 1 p) ∨
        (A = 2 ∧ ActiveOf g 1 p ∧ Enclosed N g 1 2 p)) := by
  unfold Encircled players
  simp only [List.mem_cons, List.mem_singleton, List.not_mem_nil, or_false]
  constructor
  · rintro ⟨hA | hA, E, hE | hE, hne, h1, h2⟩
    · exact absurd (hE.trans hA.symm) hne
    · subst hA; subst hE
      exact Or.inl ⟨rfl, h1, h2⟩
    · subst hA; subst hE
      exact Or.inr ⟨rfl, h1, h2⟩
    · exact absurd (hE.trans hA.symm) hne
  · rintro (⟨hA, h1, h2⟩ | ⟨hA, h1, h2⟩)
    · subst hA
      exact ⟨Or.inl rfl, 2, Or.inr rfl, by decide, h1, h2⟩
    · subst hA
      exact ⟨Or.inr rfl, 1, Or.inl rfl, by decide, h1, h2⟩

theorem infectedCell_ne_of_active {g : Grid} {E : Nat} {p : Pos} (h : ActiveOf g E p) (A : Nat) :
    infectedCell A ≠ g.cell p.1 p.2 := by
  intro he
  have := h.1
  rw [← he] at this
  exact CellType.noConfusion this

/-- C1: on an `N × N` grid satisfying the cell invariant, the grid produced by
`checkAndInfectSurrounded` is again `N × N` and differs from the input exactly as
follows: a cell becomes `{infected, owner A}` iff it was Active, owned by the
other player `E`, and every on-board neighbour of every cell of its maximal
4-connected Active/`E` component that lies outside that component has owner `A`;
every other cell is unchanged.  (No restriction on the owners is needed.) -/
theorem checkAndInfectSurrounded_spec (N : Nat) (g : Grid) (hg : WF N g) (hinv : GridInv g) :
    WF N (checkAndInfectSurrounded N g) ∧
    ∀ p : Pos,
      (∀ A : Nat,
        (((checkAndInfectSurrounded N g).cell p.1 p.2 = infectedCell A ∧
          (checkAndInfectSurrounded N g).cell p.1 p.2 ≠ g.cell p.1 p.2) ↔
            Encircled N g A p)) ∧
      ((∀ A : Nat, ¬ Encircled N g A p) →
        (checkAndInfectSurrounded N g).cell p.1 p.2 = g.cell p.1 p.2) := by
  refine ⟨checkAndInfectSurrounded_wf hg, ?_⟩
  intro p
  obtain ⟨c12, c21, cno⟩ := cell_checkAndInfectSurrounded hg p
  have q12 := qualifies_iff_of_inv (N := N) hinv 1 2 p
  have q21 := qualifies_iff_of_inv (N := N) hinv 2 1 p
  refine ⟨?_, ?_⟩
  · intro A
    rw [encircled_iff]
    constructor
    · rintro ⟨h1, h2⟩
      by_cases hq12 : Qualifies N g 1 2 p
      · rw [c12 hq12] at h1
        have hA : A = 2 := by
          have := congrArg Cell.owner h1
          simp only [infectedCell, Option.some.injEq] at this
          exact this.symm
        exact Or.inr ⟨hA, (q12.1 hq12).2⟩
      · by_cases hq21 : Qualifies N g 2 1 p
        · rw [c21 hq21] at h1
          have hA : A = 1 := by
            have := congrArg Cell.owner h1
            simp only [infectedCell, Option.some.injEq] at this
            exact this.symm
          exact Or.inl ⟨hA, (q21.1 hq21).2⟩
        · exact absurd (cno hq12 hq21) h2
    · rintro (⟨hA, h1, h2⟩ | ⟨hA, h1, h2⟩)
      · subst hA
        have hq := q21.2 ⟨hg.onBoard_of_active h1, h1, h2⟩
        rw [c21 hq]
        exact ⟨rfl, infectedCell_ne_of_active h1 1⟩
      · subst hA
        have hq := q12.2 ⟨hg.onBoard_of_active h1, h1, h2⟩
        rw [c12 hq]
        exact ⟨rfl, infectedCell_ne_of_active h1 2⟩
  · intro hno
    apply cno
    · intro hq
      exact hno 2 ((encircled_iff N g 2 p).2 (Or.inr ⟨rfl, (q12.1 hq).2⟩))
    · intro hq
      exact hno 1 ((encircled_iff N g 1 p).2 (Or.inl ⟨rfl, (q21.1 hq).2⟩))

/-- C6: `checkAndInfectSurrounded` evaluates both players as attackers on the
input grid and applies the conversions together: the output is the input
overwritten with `{infected, owner A}` on the set computed for each attacker
`A` on the input grid; the two sets are disjoint, so the order of application
does not matter and every cell of either set ends up infected by its attacker. -/
theorem checkAndInfectSurrounded_simultaneous (N : Nat) (g : Grid) (hg : WF N g) :
    checkAndInfectSurrounded N g =
      applyInfection (applyInfection g 1 (checkAndInfectSurroundedByPlayer N g 1).toInfect) 2
        (checkAndInfectSurroundedByPlayer N g 2).toInfect ∧
    (∀ p, p ∈ (checkAndInfectSurroundedByPlayer N g 1).toInfect →
      p ∉ (checkAndInfectSurroundedByPlayer N g 2).toInfect) ∧
    applyInfection (applyInfection g 1 (checkAndInfectSurroundedByPlayer N g 1).toInfect) 2
        (checkAndInfectSurroundedByPlayer N g 2).toInfect =
      applyInfection (applyInfection g 2 (checkAndInfectSurroundedByPlayer N g 2).toInfect) 1
        (checkAndInfectSurroundedByPlayer N g 1).toInfect ∧
    (∀ p ∈ (checkAndInfectSurroundedByPlayer N g 1).toInfect,
      (checkAndInfectSurrounded N g).cell p.1 p.2 = infectedCell 1) ∧
    (∀ p ∈ (checkAndInfectSurroundedByPlayer N g 2).toInfect,
      (checkAndInfectSurrounded N g).cell p.1 p.2 = infectedCell 2) := by
  have hb1 : ∀ q ∈ (checkAndInfectSurroundedByPlayer N g 1).toInfect, onBoard N q :=
    fun q hq => ((mem_toInfect_one hg q).1 hq).1
  have hb2 : ∀ q ∈ (checkAndInfectSurroundedByPlayer N g 2).toInfect, onBoard N q :=
    fun q hq => ((mem_toInfect_two hg q).1 hq).1
  refine ⟨checkAndInfectSurrounded_eq N g, fun p h1 h2 => toInfect_disjoint hg p h1 h2, ?_, ?_, ?_⟩
  · apply grid_ext (applyInfection_wf (applyInfection_wf hg 1 _) 2 _)
      (applyInfection_wf (applyInfection_wf hg 2 _) 1 _)
    intro r c
    have e1 := applyInfection_cell (applyInfection_wf hg 1
      (checkAndInfectSurroundedByPlayer N g 1).toInfect) 2 _ hb2 (r, c)
    have e2 := applyInfection_cell hg 1 _ hb1 (r, c)
    have e3 := applyInfection_cell (applyInfection_wf hg 2
      (checkAndInfectSurroundedByPlayer N g 2).toInfect) 1 _ hb1 (r, c)
    have e4 := applyInfection_cell hg 2 _ hb2 (r, c)
    simp only at e1 e2 e3 e4
    rw [e1, e2, e3, e4]
    by_cases h1 : (r, c) ∈ (checkAndInfectSurroundedByPlayer N g 1).toInfect
    · have h2 : (r, c) ∉ (checkAndInfectSurroundedByPlayer N g 2).toInfect :=
        fun h => toInfect_disjoint hg _ h1 h
      rw [if_neg h2, if_pos h1, if_pos h1]
    · rw [if_neg h1, if_neg h1]
  · intro p hp
    exact (cell_checkAndInfectSurrounded hg p).2.1 ((mem_toInfect_one hg p).1 hp)
  · intro p hp
    exact (cell_checkAndInfectSurrounded hg p).1 ((mem_toInfect_two hg p).1 hp)

/-! ### Idempotence of the pass -/

/-- The three ways the pass treats a cell. -/
theorem pass_cell_cases {N : Nat} {g : Grid} (hg : WF N g) (p : Pos) :
    ((checkAndInfectSurrounded N g).cell p.1 p.2 = g.cell p.1 p.2 ∧
        ¬ Qualifies N g 1 2 p ∧ ¬ Qualifies N g 2 1 p) ∨
      (Qualifies N g 1 2 p ∧ (checkAndInfectSurrounded N g).cell p.1 p.2 = infectedCell 2) ∨
      (Qualifies N g 2 1 p ∧ (checkAndInfectSurrounded N g).cell p.1 p.2 = infectedCell 1) := by
  obtain ⟨c12, c21, cno⟩ := cell_checkAndInfectSurrounded hg p
  by_cases h12 : Qualifies N g 1 2 p
  · exact Or.inr (Or.inl ⟨h12, c12 h12⟩)
  · by_cases h21 : Qualifies N g 2 1 p
    · exact Or.inr (Or.inr ⟨h21, c21 h21⟩)
    · exact Or.inl ⟨cno h12 h21, h12, h21⟩

/-- A cell that is Active after the pass was Active before it and was not
converted. -/
theorem active_after_pass {N : Nat} {g : Grid} (hg : WF N g) {E : Nat} {p : Pos}
    (h : ActiveOf (checkAndInfectSurrounded N g) E p) :
    ActiveOf g E p ∧ ¬ Qualifies N g 1 2 p ∧ ¬ Qualifies N g 2 1 p := by
  rcases pass_cell_cases hg p with ⟨e, h1, h2⟩ | ⟨_, e⟩ | ⟨_, e⟩
  · unfold ActiveOf at h
    rw [e] at h
    exact ⟨h, h1, h2⟩
  · have := h.1
    rw [e] at this
    exact CellType.noConfusion this
  · have := h.1
    rw [e] at this
    exact CellType.noConfusion this

theorem connected_before_pass {N : Nat} {g : Grid} (hg : WF N g) {E : Nat} {p q : Pos}
    (h : Connected N (checkAndInfectSurrounded N g) E p q) : Connected N g E p q := by
  refine Relation.ReflTransGen.mono ?_ h
  rintro a b ⟨⟨h1, h2⟩, ⟨h3, h4⟩, h5⟩
  exact ⟨⟨h1, (active_after_pass hg h2).1⟩, ⟨h3, (active_after_pass hg h4).1⟩, h5⟩

/-- An Active cell of `E` connected to an unconverted cell is not converted. -/
theorem unconverted_of_connected {N : Nat} {g : Grid} {E : Nat} {p c : Pos}
    (hp : onBoard N p ∧ ActiveOf g E p) (hn12 : ¬ Qualifies N g 1 2 p)
    (hn21 : ¬ Qualifies N g 2 1 p) (hc : Connected N g E p c) :
    ¬ Qualifies N g 1 2 c ∧ ¬ Qualifies N g 2 1 c := by
  have hca := (hc.active hp).2
  constructor
  · intro hq
    have hE : E = 1 := by
      have := hq.2.1.2
      rw [hca.2] at this
      exact Option.some.inj this
    subst hE
    exact hn12 ((Qualifies.component_congr hp hc).1 hq)
  · intro hq
    have hE : E = 2 := by
      have := hq.2.1.2
      rw [hca.2] at this
      exact Option.some.inj this
    subst hE
    exact hn21 ((Qualifies.component_congr hp hc).1 hq)

theorem connected_after_pass {N : Nat} {g : Grid} (hg : WF N g) {E : Nat} {p q : Pos}
    (hb : onBoard N p) (hp : ActiveOf (checkAndInfectSurrounded N g) E p)
    (h : Connected N g E p q) : Connected N (checkAndInfectSurrounded N g) E p q := by
  obtain ⟨hpa, hn12, hn21⟩ := active_after_pass hg hp
  induction h with
  | refl => exact Connected.refl _ _ _ _
  | tail hpb hs ih =>
    rename_i b c
    have hb' := ih.active ⟨hb, hp⟩
    have hcc : Connected N g E p c := Connected.step hpb hs
    obtain ⟨k12, k21⟩ := unconverted_of_connected ⟨hb, hpa⟩ hn12 hn21 hcc
    have hcell : (checkAndInfectSurrounded N g).cell c.1 c.2 = g.cell c.1 c.2 :=
      (cell_checkAndInfectSurrounded hg c).2.2 k12 k21
    have hc' : ActiveOf (checkAndInfectSurrounded N g) E c := by
      unfold ActiveOf
      rw [hcell]
      exact hs.2.1.2
    exact ih.step ⟨hb', ⟨hs.2.1.1, hc'⟩, hs.2.2⟩

/-- A cell that qualifies on the output of the pass already qualified on its
input. -/
theorem qualifies_before_pass {N : Nat} {g : Grid} (hg : WF N g) {E A : Nat} {p : Pos}
    (hEA : (E = 1 ∧ A = 2) ∨ (E = 2 ∧ A = 1))
    (h : Qualifies N (checkAndInfectSurrounded N g) E A p) : Qualifies N g E A p := by
  obtain ⟨hb, hact, henc, hreg⟩ := h
  obtain ⟨hpa, hn12, hn21⟩ := active_after_pass hg hact
  refine ⟨hb, hpa, ?_, ?_⟩
  · intro q hq n hnb hn1 hnc
    have hq' := connected_after_pass hg hb hact hq
    have hnc' : ¬ Connected N (checkAndInfectSurrounded N g) E p n :=
      fun hh => hnc (connected_before_pass hg hh)
    have ho := henc q hq' n hnb hn1 hnc'
    have hqa := hq.active ⟨hb, hpa⟩
    rcases pass_cell_cases hg n with ⟨e, _, _⟩ | ⟨hqn, e⟩ | ⟨hqn, e⟩
    · rw [e] at ho; exact ho
    · exfalso
      rw [e] at ho
      have hA : A = 2 := (Option.some.inj ho).symm
      have hE : E = 1 := by
        rcases hEA with ⟨h1, _⟩ | ⟨_, h2⟩
        · exact h1
        · omega
      subst hE
      exact hnc (hq.step ⟨hqa, ⟨hnb, hqn.2.1⟩, hn1⟩)
    · exfalso
      rw [e] at ho
      have hA : A = 1 := (Option.some.inj ho).symm
      have hE : E = 2 := by
        rcases hEA with ⟨_, h2⟩ | ⟨h1, _⟩
        · omega
        · exact h1
      subst hE
      exact hnc (hq.step ⟨hqa, ⟨hnb, hqn.2.1⟩, hn1⟩)
  · rcases hreg with hs | hr
    · left
      intro q hq
      exact hs q (connected_after_pass hg hb hact hq)
    · right
      rintro ⟨q, hq, he | ⟨n, hnb, hn1, he⟩⟩
      · have := (hq.active ⟨hb, hpa⟩).2.1
        rw [he] at this
        exact CellType.noConfusion this
      · apply hr
        refine ⟨q, connected_after_pass hg hb hact hq, Or.inr ⟨n, hnb, hn1, ?_⟩⟩
        rcases pass_cell_cases hg n with ⟨e, _, _⟩ | ⟨hqn, _⟩ | ⟨hqn, _⟩
        · rw [e]; exact he
        · have := hqn.2.1.1
          rw [he] at this
          exact CellType.noConfusion this
        · have := hqn.2.1.1
          rw [he] at this
          exact CellType.noConfusion this

/-- Nothing qualifies on the output of the pass. -/
theorem not_qualifies_after_pass {N : Nat} {g : Grid} (hg : WF N g) {E A : Nat} {p : Pos}
    (hEA : (E = 1 ∧ A = 2) ∨ (E = 2 ∧ A = 1)) :
    ¬ Qualifies N (checkAndInfectSurrounded N g) E A p := by
  intro h
  have hq := qualifies_before_pass hg hEA h
  obtain ⟨_, hn12, hn21⟩ := active_after_pass hg h.2.1
  rcases hEA with ⟨h1, h2⟩ | ⟨h1, h2⟩
  · subst h1; subst h2; exact hn12 hq
  · subst h1; subst h2; exact hn21 hq

/-- C4: the encirclement pass is idempotent: applying `checkAndInfectSurrounded`
to the grid it has just produced changes no cell.  (No restriction on the
owners is needed.) -/
theorem checkAndInfectSurrounded_idempotent (N : Nat) (g : Grid) (hg : WF N g) :
    checkAndInfectSurrounded N (checkAndInfectSurrounded N g) =
      checkAndInfectSurrounded N g := by
  have hout := checkAndInfectSurrounded_wf hg
  have e1 : (checkAndInfectSurroundedByPlayer N (checkAndInfectSurrounded N g) 1).toInfect
      = [] := by
    rw [List.eq_nil_iff_forall_not_mem]
    intro p hp
    exact not_qualifies_after_pass hg (Or.inr ⟨rfl, rfl⟩) ((mem_toInfect_one hout p).1 hp)
  have e2 : (checkAndInfectSurroundedByPlayer N (checkAndInfectSurrounded N g) 2).toInfect
      = [] := by
    rw [List.eq_nil_iff_forall_not_mem]
    intro p hp
    exact not_qualifies_after_pass hg (Or.inl ⟨rfl, rfl⟩) ((mem_toInfect_two hout p).1 hp)
  conv_lhs => rw [checkAndInfectSurrounded_eq]
  rw [e1, e2]
  rfl

/-! ### Single-cell components -/

theorem manhattan_self (p : Pos) : manhattan p p = 0 := by
  unfold manhattan
  simp

theorem singleton_component {N : Nat} {g : Grid} {E : Nat} {p : Pos}
    (hsingle : ∀ n, onBoard N n → manhattan p n = 1 → ¬ ActiveOf g E n) :
    ∀ q, Connected N g E p q → q = p := by
  intro q hq
  rcases Relation.ReflTransGen.cases_head hq with h | ⟨b, hs, _⟩
  · exact h.symm
  · exact absurd hs.2.1.2 (hsingle b hs.2.1.1 hs.2.2)

theorem enclosed_singleton {N : Nat} {g : Grid} {E A : Nat} {p : Pos}
    (hs : ∀ q, Connected N g E p q → q = p) :
    Enclosed N g E A p ↔
      ∀ n, onBoard N n → manhattan p n = 1 → (g.cell n.1 n.2).owner = some A := by
  unfold Enclosed
  constructor
  · intro h n hnb hn1
    refine h p (Connected.refl N g E p) n hnb hn1 ?_
    intro hc
    have := hs n hc
    rw [this, manhattan_self] at hn1
    exact absurd hn1 (by decide)
  · intro h q hq n hnb hn1 _
    rw [hs q hq] at hn1
    exact h n hnb hn1

/-- C7: on an `N × N` grid satisfying the cell invariant, an Active cell owned by
`E` that has no Active/`E` neighbour is turned into `{infected, owner A}` (`A`
the other player) by the encirclement pass iff all of its on-board neighbours
have owner `A`, whatever the rest of the board contains; it is left unchanged
when at least one neighbour is Empty. -/
theorem single_cell_encirclement (N : Nat) (g : Grid) (A E : Nat) (p : Pos) (hg : WF N g)
    (hinv : GridInv g) (hAE : (A = 1 ∧ E = 2) ∨ (A = 2 ∧ E = 1)) (hp : ActiveOf g E p)
    (hsingle : ∀ n, onBoard N n → manhattan p n = 1 → ¬ ActiveOf g E n) :
    ((checkAndInfectSurrounded N g).cell p.1 p.2 = infectedCell A ↔
      ∀ n, onBoard N n → manhattan p n = 1 → (g.cell n.1 n.2).owner = some A) ∧
    ((∃ n, onBoard N n ∧ manhattan p n = 1 ∧ (g.cell n.1 n.2).type = CellType.empty) →
      (checkAndInfectSurrounded N g).cell p.1 p.2 = g.cell p.1 p.2) := by
  have hb := hg.onBoard_of_active hp
  have hs := singleton_component hsingle
  have henc := enclosed_singleton (A := A) hs
  have hq : Qualifies N g E A p ↔
      ∀ n, onBoard N n → manhattan p n = 1 → (g.cell n.1 n.2).owner = some A := by
    rw [← henc]
    unfold Qualifies
    constructor
    · exact fun h => h.2.2.1
    · exact fun h => ⟨hb, hp, h, Or.inl hs⟩
  have hother : ∀ E2 A2, E2 ≠ E → ¬ Qualifies N g E2 A2 p := by
    intro E2 A2 hne hq2
    have := hq2.2.1.2
    rw [hp.2] at this
    exact hne (Option.some.inj this).symm
  have hmain : (checkAndInfectSurrounded N g).cell p.1 p.2 = infectedCell A ↔
      Qualifies N g E A p := by
    obtain ⟨c12, c21, cno⟩ := cell_checkAndInfectSurrounded hg p
    rcases hAE with ⟨h1, h2⟩ | ⟨h1, h2⟩
    · subst h1; subst h2
      constructor
      · intro hc
        by_contra hn
        have := cno (hother 1 2 (by decide)) hn
        rw [this] at hc
        exact infectedCell_ne_of_active hp 1 hc.symm
      · exact c21
    · subst h1; subst h2
      constructor
      · intro hc
        by_contra hn
        have := cno hn (hother 2 1 (by decide))
        rw [this] at hc
        exact infectedCell_ne_of_active hp 2 hc.symm
      · exact c12
  refine ⟨hmain.trans hq, ?_⟩
  rintro ⟨n, hnb, hn1, he⟩
  have hnq : ¬ Qualifies N g E A p := by
    intro h
    have ho := hq.1 h n hnb hn1
    have hnone := (hinv.cell n.1 n.2).2 he
    rw [ho] at hnone
    exact Option.noConfusion hnone
  obtain ⟨_, _, cno⟩ := cell_checkAndInfectSurrounded hg p
  rcases hAE with ⟨h1, h2⟩ | ⟨h1, h2⟩
  · subst h1; subst h2
    exact cno (hother 1 2 (by decide)) hnq
  · subst h1; subst h2
    exact cno hnq (hother 2 1 (by decide))

/-- Witness for C7: on the 3 × 3 board with player 1 Active on the eight outer
cells and player 2 Active on `(1, 1)`, the cell `(1, 1)` becomes Infected/1. -/
theorem single_cell_encirclement_witness :
    WF 3 ringBoard ∧ GridInv ringBoard ∧ ActiveOf ringBoard 2 (1, 1) ∧
    (checkAndInfectSurrounded 3 ringBoard).cell 1 1 = infectedCell 1 := by
  have hn : ∀ n : Pos, onBoard 3 n → manhattan (1, 1) n = 1 →
      n = (0, 1) ∨ n = (2, 1) ∨ n = (1, 0) ∨ n = (1, 2) := by
    intro n hnb hn1
    have := (mem_getNeighbors_iff (N := 3) (p := (1, 1)) (by decide) n).2 ⟨hnb, hn1⟩
    simpa [getNeighbors] using this
  refine ⟨by decide, by decide, by decide, ?_⟩
  refine (single_cell_encirclement 3 ringBoard 1 2 (1, 1) (by decide) (by decide)
    (Or.inl ⟨rfl, rfl⟩) (by decide) ?_).1.2 ?_
  · intro n hnb hn1
    rcases hn n hnb hn1 with h | h | h | h <;> subst h <;> decide
  · intro n hnb hn1
    rcases hn n hnb hn1 with h | h | h | h <;> subst h <;> decide

/-! ### The enclosure test and the region test -/

/-- C2: for every `N × N` grid, every list `group` of board cells and every
attacker id `A`, `isGroupSurrounded(group, A)` is true iff every on-board
4-neighbour of every cell of the group that is not itself in the group has owner
`A`.  In particular an outside neighbour that is Empty (owner `null`), or that
is owned by another player such as the victim, makes it false; positions off
the board impose no requirement. -/
theorem isGroupSurrounded_spec (N : Nat) (g : Grid) (group : List Pos) (A : Nat)
    (_hg : WF N g) (hgrp : ∀ p ∈ group, onBoard N p) :
    (isGroupSurrounded N g group A = true ↔
      ∀ p ∈ group, ∀ n : Pos, onBoard N n → manhattan p n = 1 → n ∉ group →
        (g.cell n.1 n.2).owner = some A) ∧
    (∀ p ∈ group, ∀ n : Pos, onBoard N n → manhattan p n = 1 → n ∉ group →
      (((g.cell n.1 n.2).type = CellType.empty ∧ CellInv (g.cell n.1 n.2)) ∨
        (∃ E, E ≠ A ∧ (g.cell n.1 n.2).owner = some E)) →
      isGroupSurrounded N g group A = false) := by
  have key : isGroupSurrounded N g group A = true ↔
      ∀ p ∈ group, ∀ n : Pos, onBoard N n → manhattan p n = 1 → n ∉ group →
        (g.cell n.1 n.2).owner = some A := by
    rw [isGroupSurrounded_iff]
    constructor
    · intro h p hp n hnb hn1 hng
      exact h p hp n ((mem_getNeighbors_iff (hgrp p hp) n).2 ⟨hnb, hn1⟩) hng
    · intro h p hp n hn hng
      have := (mem_getNeighbors_iff (hgrp p hp) n).1 hn
      exact h p hp n this.1 this.2 hng
  refine ⟨key, ?_⟩
  intro p hp n hnb hn1 hng hcase
  rw [← Bool.not_eq_true, key]
  intro h
  have ho := h p hp n hnb hn1 hng
  rcases hcase with ⟨he, hci⟩ | ⟨E, hne, hE⟩
  · have hnone := hci.2 he
    rw [ho] at hnone
    exact Option.noConfusion hnone
  · rw [ho] at hE
    exact hne (Option.some.inj hE).symm

/-- Witness for C2: the centre cell of the ring board as a group, attacker 1. -/
theorem isGroupSurrounded_spec_witness :
    WF 3 ringBoard ∧ (∀ p ∈ [((1, 1) : Pos)], onBoard 3 p) ∧
    (isGroupSurrounded 3 ringBoard [(1, 1)] 1 = true ↔
      ∀ p ∈ [((1, 1) : Pos)], ∀ n : Pos, onBoard 3 n → manhattan p n = 1 → n ∉ [((1, 1) : Pos)] →
        (ringBoard.cell n.1 n.2).owner = some 1) :=
  ⟨by decide, by decide,
    (isGroupSurrounded_spec 3 ringBoard [(1, 1)] 1 (by decide) (by decide)).1⟩

/-! ### The flood fill collects Active cells only -/

theorem floodIter_group_active (N : Nat) (g : Grid) (E : Nat) (s : FloodState) (p : Pos)
    (rest : List Pos) (h : ∀ q ∈ s.group, ActiveOf g E q) :
    ∀ q ∈ (floodIter N g E s p rest).group, ActiveOf g E q := by
  unfold floodIter
  by_cases h1 : (setHas s.localVisited p || setHas s.visited p) = true
  · rw [if_pos h1]
    exact h
  rw [if_neg h1]
  simp only []
  by_cases h2 : (g.cell p.1 p.2).type ≠ CellType.active ∨ (g.cell p.1 p.2).owner ≠ some E
  · rw [if_pos h2]
    exact h
  · rw [if_neg h2]
    intro q hq
    simp only [List.mem_append, List.mem_singleton] at hq
    rcases hq with hq | hq
    · exact h q hq
    · rw [hq]
      unfold ActiveOf
      constructor
      · by_contra hh
        exact h2 (Or.inl hh)
      · by_contra hh
        exact h2 (Or.inr hh)

theorem floodLoop_group_active (N : Nat) (g : Grid) (E : Nat) (fuel : Nat) :
    ∀ s : FloodState, (∀ q ∈ s.group, ActiveOf g E q) →
      ∀ q ∈ (floodLoop N g E fuel s).group, ActiveOf g E q := by
  induction fuel with
  | zero => intro s h; exact h
  | succ k ih =>
    intro s h
    unfold floodLoop
    cases hq : s.queue with
    | nil => exact h
    | cons p rest => exact ih _ (floodIter_group_active N g E s p rest h)

theorem findConnectedEnemyGroup_active (N : Nat) (g : Grid) (r c E : Nat) (visited : List Pos) :
    ∀ q ∈ (findConnectedEnemyGroup N g r c E visited).1, ActiveOf g E q := by
  unfold findConnectedEnemyGroup floodFinal
  apply floodLoop_group_active
  intro q hq
  exact absurd hq (List.not_mem_nil _)

/-- Under the cell invariant the scan takes the same decision at every cell
with and without the region test. -/
theorem scanCellWith_region_irrelevant {g : Grid} (hinv : GridInv g) (N A E row : Nat)
    (s : ScanState) (col : Nat) :
    scanCellWith true N g A E row s col = scanCellWith false N g A E row s col := by
  unfold scanCellWith
  by_cases hs : isGroupSurrounded N g (findConnectedEnemyGroup N g row col E s.visited).1 A = true
  · have hact : ∀ p ∈ (findConnectedEnemyGroup N g row col E s.visited).1,
        (g.cell p.1 p.2).type = CellType.active :=
      fun p hp => (findConnectedEnemyGroup_active N g row col E s.visited p hp).1
    have he := hasEmpty_false_of_surrounded hinv hact hs
    simp [hs, he]
  · simp [hs]

/-- C5: on an `N × N` grid satisfying the cell invariant, for every attacker id
`A`, every group of Active cells on which `isGroupSurrounded(group, A)` is true
has `hasEmptyCellsInRegion(group)` false; hence
`checkAndInfectSurroundedByPlayer` returns the same `toInfect` set as the variant
with the `hasEmptyCellsInRegion` test removed. -/
theorem region_check_redundant (N : Nat) (g : Grid) (A : Nat) (_hg : WF N g)
    (hinv : GridInv g) :
    (∀ group : List Pos, (∀ p ∈ group, (g.cell p.1 p.2).type = CellType.active) →
      isGroupSurrounded N g group A = true → hasEmptyCellsInRegion N g group = false) ∧
    checkAndInfectSurroundedByPlayer N g A =
      checkAndInfectSurroundedByPlayerNoRegionCheck N g A := by
  refine ⟨fun group hact hs => hasEmpty_false_of_surrounded hinv hact hs, ?_⟩
  have hcell : ∀ E row, scanCellWith true N g A E row = scanCellWith false N g A E row := by
    intro E row
    funext s col
    exact scanCellWith_region_irrelevant hinv N A E row s col
  have hboard : ∀ E, scanBoardWith true N g A E = scanBoardWith false N g A E := by
    intro E
    funext s
    unfold scanBoardWith
    simp only [hcell]
  unfold checkAndInfectSurroundedByPlayer checkAndInfectSurroundedByPlayerNoRegionCheck
    scanPlayersWith
  simp only [hboard]

/-- Witness for C5 on the ring board with attacker 1. -/
theorem region_check_redundant_witness :
    WF 3 ringBoard ∧ GridInv ringBoard ∧
    checkAndInfectSurroundedByPlayer 3 ringBoard 1 =
      checkAndInfectSurroundedByPlayerNoRegionCheck 3 ringBoard 1 :=
  ⟨by decide, by decide, (region_check_redundant 3 ringBoard 1 (by decide) (by decide)).2⟩

/-! ### Witnesses on the sample boards -/

/-- Witness for C1 on the ring board, at the centre cell and attacker 1. -/
theorem checkAndInfectSurrounded_spec_witness :
    WF 3 ringBoard ∧ GridInv ringBoard ∧ WF 3 (checkAndInfectSurrounded 3 ringBoard) ∧
    ((((checkAndInfectSurrounded 3 ringBoard).cell 1 1 = infectedCell 1 ∧
        (checkAndInfectSurrounded 3 ringBoard).cell 1 1 ≠ ringBoard.cell 1 1)) ↔
      Encircled 3 ringBoard 1 (1, 1)) :=
  ⟨by decide, by decide,
    (checkAndInfectSurrounded_spec 3 ringBoard (by decide) (by decide)).1,
    ((checkAndInfectSurrounded_spec 3 ringBoard (by decide) (by decide)).2 (1, 1)).1 1⟩

/-- Witness for C3: the flood fill from the centre of the ring board. -/
theorem findConnectedEnemyGroup_spec_witness :
    WF 3 ringBoard ∧ ActiveOf ringBoard 2 (1, 1) ∧
    (∀ q, q ∈ (findConnectedEnemyGroup 3 ringBoard 1 1 2 []).1 ↔
      Connected 3 ringBoard 2 (1, 1) q) :=
  ⟨by decide, by decide,
    (findConnectedEnemyGroup_spec 3 ringBoard 2 1 1 [] (by decide) (by decide)
      (fun q _ => List.not_mem_nil q)).2.2.1⟩

/-- Witness for C4 on the ring board. -/
theorem checkAndInfectSurrounded_idempotent_witness :
    WF 3 ringBoard ∧
    checkAndInfectSurrounded 3 (checkAndInfectSurrounded 3 ringBoard) =
      checkAndInfectSurrounded 3 ringBoard :=
  ⟨by decide, checkAndInfectSurrounded_idempotent 3 ringBoard (by decide)⟩

/-- Witness for C6 on the ring board. -/
theorem checkAndInfectSurrounded_simultaneous_witness :
    WF 3 ringBoard ∧
    (∀ p, p ∈ (checkAndInfectSurroundedByPlayer 3 ringBoard 1).toInfect →
      p ∉ (checkAndInfectSurroundedByPlayer 3 ringBoard 2).toInfect) :=
  ⟨by decide, (checkAndInfectSurrounded_simultaneous 3 ringBoard (by decide)).2.1⟩

/-- Witness for C8: births of player 2 at `(1, 2)` of the mid-game board. -/
theorem birth_iff_witness :
    WF 3 midgameBoard ∧
    ((1, 2) ∈ (calculateAvailableActions 3 midgameBoard 2).birth ↔
      (onBoard 3 (1, 2) ∧ (midgameBoard.cell 1 2).type = CellType.empty ∧
        hasOwnedNeighbour 3 midgameBoard (1, 2) 2)) :=
  ⟨by decide, birth_iff 3 midgameBoard 2 1 2 (by decide)⟩

/-- Witness for C9: attacks of player 1 at `(1, 1)` of the mid-game board. -/
theorem attack_iff_witness :
    WF 3 midgameBoard ∧
    ((1, 1) ∈ (calculateAvailableActions 3 midgameBoard 1).attack ↔
      (onBoard 3 (1, 1) ∧ (midgameBoard.cell 1 1).type = CellType.active ∧
        (midgameBoard.cell 1 1).owner ≠ some 1 ∧ hasOwnedNeighbour 3 midgameBoard (1, 1) 1)) :=
  ⟨by decide, (attack_iff 3 midgameBoard 1 1 1 (by decide)).1⟩

/-! ### Clicks on the board -/

theorem clickedCell_onBoard {N : Nat} {g : Grid} (hg : WF N g) {r c : Nat}
    (hb : onBoard N (r, c)) : clickedCell g (r : Int) (c : Int) = some (g.cell r c) := by
  obtain ⟨v, hv⟩ := hg.cell?_isSome hb.1 hb.2
  unfold clickedCell Grid.cell
  simp [hv]

theorem clickedCell_offBoard {N : Nat} {g : Grid} (hg : WF N g) {row col : Int}
    (h : ¬ (0 ≤ row ∧ row < N ∧ 0 ≤ col ∧ col < N)) : clickedCell g row col = none := by
  unfold clickedCell
  by_cases h0 : 0 ≤ row ∧ 0 ≤ col
  · rw [if_pos h0]
    apply hg.cell?_none
    intro hlt
    apply h
    have h1 : (row.toNat : Int) = row := Int.toNat_of_nonneg h0.1
    have h2 : (col.toNat : Int) = col := Int.toNat_of_nonneg h0.2
    omega
  · rw [if_neg h0]

theorem listHasClick_iff (l : List Pos) (r c : Nat) :
    listHasClick l (r : Int) (c : Int) = true ↔ (r, c) ∈ l := by
  unfold listHasClick
  simp only [List.any_eq_true, Bool.and_eq_true, decide_eq_true_eq, Nat.cast_inj]
  constructor
  · rintro ⟨p, hp, h1, h2⟩
    have : p = (r, c) := Prod.ext h1 h2
    rw [← this]; exact hp
  · intro h
    exact ⟨(r, c), h, rfl, rfl⟩

/-- Membership in the birth set (the content of the move resolver for births). -/
theorem mem_birth_iff (N : Nat) (g : Grid) (pid r c : Nat) :
    (r, c) ∈ (calculateAvailableActions N g pid).birth ↔
      (onBoard N (r, c) ∧ (g.cell r c).type = CellType.empty ∧
        hasOwnedNeighbour N g (r, c) pid) := by
  unfold calculateAvailableActions
  rw [foldl_actionsRows]
  simp only [List.nil_append, List.mem_flatMap, List.mem_map, List.mem_filter, List.mem_range,
    decide_eq_true_eq, Prod.mk.injEq]
  constructor
  · rintro ⟨row, hrow, col, ⟨hcol, ht, ha⟩, rfl, rfl⟩
    exact ⟨⟨hrow, hcol⟩, ht, (isAdjacentToPlayer_iff N g row col pid ⟨hrow, hcol⟩).1 ha⟩
  · rintro ⟨⟨hr, hc⟩, ht, ha⟩
    exact ⟨r, hr, c, ⟨hc, ht, (isAdjacentToPlayer_iff N g r c pid ⟨hr, hc⟩).2 ha⟩, rfl, rfl⟩

/-- Membership in the attack set (the content of the move resolver for attacks). -/
theorem mem_attack_iff (N : Nat) (g : Grid) (pid r c : Nat) :
    (r, c) ∈ (calculateAvailableActions N g pid).attack ↔
      (onBoard N (r, c) ∧ (g.cell r c).type = CellType.active ∧
        (g.cell r c).owner ≠ some pid ∧ hasOwnedNeighbour N g (r, c) pid) := by
  unfold calculateAvailableActions
  rw [foldl_actionsRows]
  simp only [List.nil_append, List.mem_flatMap, List.mem_map, List.mem_filter, List.mem_range,
    decide_eq_true_eq, Prod.mk.injEq]
  constructor
  · rintro ⟨row, hrow, col, ⟨hcol, ht, ho, ha⟩, rfl, rfl⟩
    exact ⟨⟨hrow, hcol⟩, ht, ho, (isAdjacentToPlayer_iff N g row col pid ⟨hrow, hcol⟩).1 ha⟩
  · rintro ⟨⟨hr, hc⟩, ht, ho, ha⟩
    exact ⟨r, hr, c, ⟨hc, ht, ho, (isAdjacentToPlayer_iff N g r c pid ⟨hr, hc⟩).2 ha⟩, rfl, rfl⟩

/-- The playing click on a board cell, as a function of the two membership
tests. -/
theorem handleCellClick_playing {s : GameState} (hg : WF s.gridSize s.grid)
    (hp : s.gamePhase = GamePhase.playing) (hal : s.actionsLeft ≠ 0) {r c : Nat}
    (hb : onBoard s.gridSize (r, c)) :
    handleCellClick s (r : Int) (c : Int) =
      if (r, c) ∈ (calculateAvailableActions s.gridSize s.grid
          (playerIdOf s.currentPlayer)).birth then
        Outcome.returned { s with
          grid := s.grid.setCell r c ⟨CellType.active, some (playerIdOf s.currentPlayer)⟩
          actionsLeft := s.actionsLeft - 1
          log := s.log ++ [LogEntry.born s.currentPlayer r c] }
      else if (r, c) ∈ (calculateAvailableActions s.gridSize s.grid
          (playerIdOf s.currentPlayer)).attack then
        Outcome.returned { s with
          grid := s.grid.setCell r c ⟨CellType.infected, some (playerIdOf s.currentPlayer)⟩
          actionsLeft := s.actionsLeft - 1
          log := s.log ++ [LogEntry.attacked s.currentPlayer r c] }
      else Outcome.returned s := by
  unfold handleCellClick
  have hp1 : ¬ s.gamePhase = GamePhase.placement := by rw [hp]; decide
  have hp2 : ¬ (s.gamePhase ≠ GamePhase.playing ∨ s.actionsLeft = 0) := by
    rintro (h | h)
    · exact h hp
    · exact hal h
  rw [if_neg hp1, if_neg hp2, clickedCell_onBoard hg hb]
  simp only [listHasClick_iff, Int.toNat_ofNat]
  have hbirth := mem_birth_iff s.gridSize s.grid (playerIdOf s.currentPlayer) r c
  have hattack := mem_attack_iff s.gridSize s.grid (playerIdOf s.currentPlayer) r c
  by_cases h1 : (r, c) ∈ (calculateAvailableActions s.gridSize s.grid
      (playerIdOf s.currentPlayer)).birth
  · rw [if_pos h1, if_pos ⟨(hbirth.1 h1).2.1, h1⟩]
  · rw [if_neg h1, if_neg (fun h => h1 h.2)]
    by_cases h2 : (r, c) ∈ (calculateAvailableActions s.gridSize s.grid
        (playerIdOf s.currentPlayer)).attack
    · rw [if_pos h2, if_pos ⟨(hattack.1 h2).2.1, (hattack.1 h2).2.2.1, h2⟩]
    · rw [if_neg h2, if_neg (fun h => h2 h.2.2)]

/-- C11: in phase Playing, for every on-board click `(r, c)` on an `N × N` grid:
if `actionsLeft` is 0, or the position is neither in the birth set nor in the
attack set of `calculateAvailableActions` for the current player,
`handleCellClick` returns and leaves the whole state (grid, currentPlayer,
actionsLeft, phase, log) unchanged.  In particular every click on an Infected
cell and every click on a cell the current player owns is ignored. -/
theorem click_ignored (s : GameState) (r c : Nat) (hg : WF s.gridSize s.grid)
    (hp : s.gamePhase = GamePhase.playing) (hb : onBoard s.gridSize (r, c)) :
    ((s.actionsLeft = 0 ∨
        ((r, c) ∉ (calculateAvailableActions s.gridSize s.grid
            (playerIdOf s.currentPlayer)).birth ∧
          (r, c) ∉ (calculateAvailableActions s.gridSize s.grid
            (playerIdOf s.currentPlayer)).attack)) →
      handleCellClick s (r : Int) (c : Int) = Outcome.returned s) ∧
    ((s.grid.cell r c).type = CellType.infected →
      handleCellClick s (r : Int) (c : Int) = Outcome.returned s) ∧
    ((s.grid.cell r c).owner = some (playerIdOf s.currentPlayer) →
      CellInv (s.grid.cell r c) →
      handleCellClick s (r : Int) (c : Int) = Outcome.returned s) := by
  have hbirth := mem_birth_iff s.gridSize s.grid (playerIdOf s.currentPlayer) r c
  have hattack := mem_attack_iff s.gridSize s.grid (playerIdOf s.currentPlayer) r c
  have key : (s.actionsLeft = 0 ∨
        ((r, c) ∉ (calculateAvailableActions s.gridSize s.grid
            (playerIdOf s.currentPlayer)).birth ∧
          (r, c) ∉ (calculateAvailableActions s.gridSize s.grid
            (playerIdOf s.currentPlayer)).attack)) →
      handleCellClick s (r : Int) (c : Int) = Outcome.returned s := by
    intro h
    by_cases hal : s.actionsLeft = 0
    · unfold handleCellClick
      have hp1 : ¬ s.gamePhase = GamePhase.placement := by rw [hp]; decide
      rw [if_neg hp1, if_pos (Or.inr hal)]
    · rcases h with h | ⟨h1, h2⟩
      · exact absurd h hal
      · rw [handleCellClick_playing hg hp hal hb, if_neg h1, if_neg h2]
  refine ⟨key, ?_, ?_⟩
  · intro hi
    apply key
    right
    constructor
    · intro hm
      have := (hbirth.1 hm).2.1
      rw [hi] at this
      exact CellType.noConfusion this
    · intro hm
      have := (hattack.1 hm).2.1
      rw [hi] at this
      exact CellType.noConfusion this
  · intro ho hci
    apply key
    right
    constructor
    · intro hm
      have hnone := hci.2 (hbirth.1 hm).2.1
      rw [ho] at hnone
      exact Option.noConfusion hnone
    · intro hm
      exact (hattack.1 hm).2.2.1 ho

/-- C12: in phase Playing with `actionsLeft > 0` on an `N × N` grid, a click on a
position of the current player's birth set sets exactly that cell to
`{active, owner = current player's id}`, and a click on a position of the
attack set sets exactly that cell to `{infected, owner = current player's id}`;
in both cases every other cell is unchanged, `actionsLeft` decreases by exactly
1, and `currentPlayer` and the phase are unchanged. -/
theorem click_accepted (s : GameState) (r c : Nat) (hg : WF s.gridSize s.grid)
    (hp : s.gamePhase = GamePhase.playing) (hal : 0 < s.actionsLeft) :
    (((r, c) ∈ (calculateAvailableActions s.gridSize s.grid
          (playerIdOf s.currentPlayer)).birth →
      ∃ t, handleCellClick s (r : Int) (c : Int) = Outcome.returned t ∧
        t.grid.cell r c = ⟨CellType.active, some (playerIdOf s.currentPlayer)⟩ ∧
        (∀ r2 c2, (r2, c2) ≠ (r, c) → t.grid.cell r2 c2 = s.grid.cell r2 c2) ∧
        WF s.gridSize t.grid ∧ t.gridSize = s.gridSize ∧
        t.actionsLeft = s.actionsLeft - 1 ∧ t.currentPlayer = s.currentPlayer ∧
        t.gamePhase = s.gamePhase)) ∧
    (((r, c) ∈ (calculateAvailableActions s.gridSize s.grid
          (playerIdOf s.currentPlayer)).attack →
      ∃ t, handleCellClick s (r : Int) (c : Int) = Outcome.returned t ∧
        t.grid.cell r c = ⟨CellType.infected, some (playerIdOf s.currentPlayer)⟩ ∧
        (∀ r2 c2, (r2, c2) ≠ (r, c) → t.grid.cell r2 c2 = s.grid.cell r2 c2) ∧
        WF s.gridSize t.grid ∧ t.gridSize = s.gridSize ∧
        t.actionsLeft = s.actionsLeft - 1 ∧ t.currentPlayer = s.currentPlayer ∧
        t.gamePhase = s.gamePhase)) := by
  have hbirth := mem_birth_iff s.gridSize s.grid (playerIdOf s.currentPlayer) r c
  have hattack := mem_attack_iff s.gridSize s.grid (playerIdOf s.currentPlayer) r c
  have hal0 : s.actionsLeft ≠ 0 := by omega
  have hframe : ∀ v : Cell, onBoard s.gridSize (r, c) →
      (s.grid.setCell r c v).cell r c = v ∧
      (∀ r2 c2, (r2, c2) ≠ (r, c) → (s.grid.setCell r c v).cell r2 c2 = s.grid.cell r2 c2) := by
    intro v hb
    constructor
    · rw [hg.cell_setCell hb]
      simp
    · intro r2 c2 hne
      rw [hg.cell_setCell hb, if_neg]
      rintro ⟨h1, h2⟩
      exact hne (by rw [h1, h2])
  constructor
  · intro hm
    have hb := (hbirth.1 hm).1
    refine ⟨{ s with
        grid := s.grid.setCell r c ⟨CellType.active, some (playerIdOf s.currentPlayer)⟩
        actionsLeft := s.actionsLeft - 1
        log := s.log ++ [LogEntry.born s.currentPlayer r c] },
      ?_, (hframe _ hb).1, (hframe _ hb).2, hg.setCell _ _ _, rfl, rfl, rfl, rfl⟩
    rw [handleCellClick_playing hg hp hal0 hb, if_pos hm]
  · intro hm
    have hb := (hattack.1 hm).1
    have hnb : (r, c) ∉ (calculateAvailableActions s.gridSize s.grid
        (playerIdOf s.currentPlayer)).birth := by
      intro h
      have h1 := (hbirth.1 h).2.1
      rw [(hattack.1 hm).2.1] at h1
      exact CellType.noConfusion h1
    refine ⟨{ s with
        grid := s.grid.setCell r c ⟨CellType.infected, some (playerIdOf s.currentPlayer)⟩
        actionsLeft := s.actionsLeft - 1
        log := s.log ++ [LogEntry.attacked s.currentPlayer r c] },
      ?_, (hframe _ hb).1, (hframe _ hb).2, hg.setCell _ _ _, rfl, rfl, rfl, rfl⟩
    rw [handleCellClick_playing hg hp hal0 hb, if_neg hnb, if_pos hm]

/-! ### Presence and legal actions -/

theorem hasActiveCells_iff (N : Nat) (g : Grid) (pid : Nat) :
    hasActiveCells N g pid = true ↔ HasPresence N g pid := by
  unfold hasActiveCells HasPresence onBoard ActiveOf
  simp only [List.any_eq_true, List.mem_range, decide_eq_true_eq]
  constructor
  · rintro ⟨row, hr, col, hc, h⟩
    exact ⟨(row, col), ⟨hr, hc⟩, h⟩
  · rintro ⟨⟨row, col⟩, ⟨hr, hc⟩, h⟩
    exact ⟨row, hr, col, hc, h⟩

theorem canPlayerMove_iff (N : Nat) (g : Grid) (pid : Nat) :
    canPlayerMove N g pid = true ↔ HasLegalAction N g pid := by
  unfold canPlayerMove HasLegalAction
  simp only [Bool.or_eq_true, decide_eq_true_eq, gt_iff_lt, List.length_pos_iff_exists_mem]
  constructor
  · rintro (⟨p, hp⟩ | ⟨p, hp⟩)
    · exact ⟨p, Or.inl hp⟩
    · exact ⟨p, Or.inr hp⟩
  · rintro ⟨p, hp | hp⟩
    · exact Or.inl ⟨p, hp⟩
    · exact Or.inr ⟨p, hp⟩

theorem not_hasLegalAction_iff (N : Nat) (g : Grid) (pid : Nat) :
    ¬ HasLegalAction N g pid ↔
      ((calculateAvailableActions N g pid).birth = [] ∧
        (calculateAvailableActions N g pid).attack = []) := by
  unfold HasLegalAction
  simp only [List.eq_nil_iff_forall_not_mem]
  constructor
  · intro h
    exact ⟨fun p hp => h ⟨p, Or.inl hp⟩, fun p hp => h ⟨p, Or.inr hp⟩⟩
  · rintro ⟨h1, h2⟩ ⟨p, hp | hp⟩
    · exact h1 p hp
    · exact h2 p hp

/-- The decision of the effect `End turn`: the game ends iff, on the grid of
the render (before the infections), one of the two players has no presence or
no legal action. -/
theorem endTurnEffect_eq (s : GameState) (hp : s.gamePhase = GamePhase.playing)
    (hal : s.actionsLeft = 0) :
    ((HasPresence s.gridSize s.grid 1 ∧ HasLegalAction s.gridSize s.grid 1) ∧
        (HasPresence s.gridSize s.grid 2 ∧ HasLegalAction s.gridSize s.grid 2) →
      endTurnEffect s =
        { s with
          grid := checkAndInfectSurrounded s.gridSize s.grid
          currentPlayer := (s.currentPlayer + 1) % 2
          actionsLeft := 3
          log := (s.log ++ infectionLog s.gridSize s.grid) ++
            [LogEntry.turnOf ((s.currentPlayer + 1) % 2)] }) ∧
    (¬ ((HasPresence s.gridSize s.grid 1 ∧ HasLegalAction s.gridSize s.grid 1) ∧
        (HasPresence s.gridSize s.grid 2 ∧ HasLegalAction s.gridSize s.grid 2)) →
      endTurnEffect s =
        endGame { s with
          grid := checkAndInfectSurrounded s.gridSize s.grid
          log := s.log ++ infectionLog s.gridSize s.grid }) := by
  have e1 : playerIdOf 0 = 1 := rfl
  have e2 : playerIdOf 1 = 2 := rfl
  unfold endTurnEffect
  rw [if_pos ⟨hp, hal⟩]
  simp only [e1, e2]
  constructor
  · rintro ⟨⟨a1, b1⟩, ⟨a2, b2⟩⟩
    rw [← hasActiveCells_iff] at a1 a2
    rw [← canPlayerMove_iff] at b1 b2
    simp [a1, a2, b1, b2]
  · intro h
    have : (!(hasActiveCells s.gridSize s.grid 1 && canPlayerMove s.gridSize s.grid 1) ||
        !(hasActiveCells s.gridSize s.grid 2 && canPlayerMove s.gridSize s.grid 2)) = true := by
      by_contra hc
      apply h
      simp only [Bool.or_eq_true, Bool.not_eq_true', Bool.and_eq_false_imp, not_or,
        Bool.not_eq_false, Classical.not_imp] at hc
      rw [← hasActiveCells_iff, ← hasActiveCells_iff, ← canPlayerMove_iff, ← canPlayerMove_iff]
      exact hc
    rw [if_pos this]

/-! ### The two effects -/

theorem playerIdOf_cases {i : Nat} (h : i < 2) : playerIdOf i = 1 ∨ playerIdOf i = 2 := by
  interval_cases i
  · exact Or.inl rfl
  · exact Or.inr rfl

/-- C13: when the exhaustion handler runs (phase Playing, `actionsLeft = 0`) and
both players have at least one Active cell and at least one legal birth or
attack, the phase stays Playing, `currentPlayer` becomes
`(currentPlayer + 1) mod 2` and `actionsLeft` is reset to 3; the new mover is
the other of the two player indices, and the next such step gives the move
back. -/
theorem turn_switches (s : GameState) (hp : s.gamePhase = GamePhase.playing)
    (hal : s.actionsLeft = 0)
    (h1 : HasPresence s.gridSize s.grid 1 ∧ HasLegalAction s.gridSize s.grid 1)
    (h2 : HasPresence s.gridSize s.grid 2 ∧ HasLegalAction s.gridSize s.grid 2) :
    (endTurnEffect s).gamePhase = GamePhase.playing ∧
    (endTurnEffect s).currentPlayer = (s.currentPlayer + 1) % 2 ∧
    (endTurnEffect s).actionsLeft = 3 ∧
    (endTurnEffect s).grid = checkAndInfectSurrounded s.gridSize s.grid ∧
    (s.currentPlayer < 2 →
      (endTurnEffect s).currentPlayer < 2 ∧
      (endTurnEffect s).currentPlayer ≠ s.currentPlayer ∧
      ((endTurnEffect s).currentPlayer + 1) % 2 = s.currentPlayer) := by
  rw [(endTurnEffect_eq s hp hal).1 ⟨h1, h2⟩]
  refine ⟨hp, rfl, rfl, rfl, ?_⟩
  intro hlt
  simp only
  omega

/-- Witness for C13: a 3 × 3 mid-game position with an exhausted turn. -/
theorem turn_switches_witness :
    (endTurnEffect { dormantState with grid := midgameBoard, actionsLeft := 0 }).gamePhase =
      GamePhase.playing ∧
    (endTurnEffect { dormantState with grid := midgameBoard, actionsLeft := 0 }).currentPlayer
      = 1 := by
  have h := turn_switches { dormantState with grid := midgameBoard, actionsLeft := 0 } rfl rfl
    ⟨⟨(0, 0), by decide, by decide⟩,
      ⟨(0, 1), Or.inl ((mem_birth_iff 3 midgameBoard 1 0 1).2
        ⟨by decide, by decide, ⟨(0, 0), by decide, by decide, by decide⟩⟩)⟩⟩
    ⟨⟨(1, 1), by decide, by decide⟩,
      ⟨(0, 1), Or.inl ((mem_birth_iff 3 midgameBoard 2 0 1).2
        ⟨by decide, by decide, ⟨(0, 2), by decide, by decide, by decide⟩⟩)⟩⟩
  exact ⟨h.1, h.2.1⟩

/-- What the effect `Update available actions` does in phase Playing. -/
theorem updateActionsEffect_eq (s : GameState) (hp : s.gamePhase = GamePhase.playing) :
    (¬ HasPresence s.gridSize s.grid (playerIdOf s.currentPlayer) →
      updateActionsEffect s = endGame s) ∧
    (HasPresence s.gridSize s.grid (playerIdOf s.currentPlayer) →
      ¬ HasLegalAction s.gridSize s.grid (playerIdOf s.currentPlayer) → 0 < s.actionsLeft →
      updateActionsEffect s =
        { s with
          availableActions :=
            calculateAvailableActions s.gridSize s.grid (playerIdOf s.currentPlayer)
          log := s.log ++ [LogEntry.cannotMove s.currentPlayer]
          actionsLeft := 0 }) ∧
    (HasPresence s.gridSize s.grid (playerIdOf s.currentPlayer) →
      (HasLegalAction s.gridSize s.grid (playerIdOf s.currentPlayer) ∨ ¬ 0 < s.actionsLeft) →
      updateActionsEffect s =
        { s with
          availableActions :=
            calculateAvailableActions s.gridSize s.grid (playerIdOf s.currentPlayer) }) := by
  unfold updateActionsEffect
  rw [if_pos hp]
  refine ⟨?_, ?_, ?_⟩
  · intro h
    rw [← hasActiveCells_iff, Bool.not_eq_true] at h
    simp only [h, if_true]
  · intro h hn hal
    rw [← hasActiveCells_iff] at h
    rw [not_hasLegalAction_iff] at hn
    simp only [h, Bool.true_eq_false, if_false]
    rw [if_pos ⟨by rw [hn.1]; rfl, by rw [hn.2]; rfl, hal⟩]
  · intro h hor
    rw [← hasActiveCells_iff] at h
    simp only [h, Bool.true_eq_false, if_false]
    rw [if_neg]
    rintro ⟨hb, ha, hal⟩
    rcases hor with hl | hl
    · apply (not_hasLegalAction_iff _ _ _).2 ⟨List.eq_nil_of_length_eq_zero hb,
        List.eq_nil_of_length_eq_zero ha⟩
      exact hl
    · exact hl hal

/-- C16: the action-update step in phase Playing: if the current player has no
Active cell the phase becomes Ended (whatever Infected cells and legal births
that player has); otherwise, if the player's birth and attack sets are both
empty and `actionsLeft > 0`, `actionsLeft` is set to 0 and the phase stays;
otherwise phase and `actionsLeft` are unchanged.  The grid is never changed. -/
theorem updateActions_spec (s : GameState) (hp : s.gamePhase = GamePhase.playing) :
    (¬ HasPresence s.gridSize s.grid (playerIdOf s.currentPlayer) →
      (updateActionsEffect s).gamePhase = GamePhase.ended) ∧
    (HasPresence s.gridSize s.grid (playerIdOf s.currentPlayer) →
      (calculateAvailableActions s.gridSize s.grid (playerIdOf s.currentPlayer)).birth = [] →
      (calculateAvailableActions s.gridSize s.grid (playerIdOf s.currentPlayer)).attack = [] →
      0 < s.actionsLeft →
      (updateActionsEffect s).actionsLeft = 0 ∧
        (updateActionsEffect s).gamePhase = GamePhase.playing) ∧
    (HasPresence s.gridSize s.grid (playerIdOf s.currentPlayer) →
      ¬ ((calculateAvailableActions s.gridSize s.grid (playerIdOf s.currentPlayer)).birth = [] ∧
        (calculateAvailableActions s.gridSize s.grid (playerIdOf s.currentPlayer)).attack = [] ∧
        0 < s.actionsLeft) →
      (updateActionsEffect s).actionsLeft = s.actionsLeft ∧
        (updateActionsEffect s).gamePhase = GamePhase.playing) ∧
    (updateActionsEffect s).grid = s.grid := by
  obtain ⟨e1, e2, e3⟩ := updateActionsEffect_eq s hp
  refine ⟨?_, ?_, ?_, ?_⟩
  · intro h
    rw [e1 h]
    rfl
  · intro h hb ha hal
    rw [e2 h ((not_hasLegalAction_iff _ _ _).2 ⟨hb, ha⟩) hal]
    exact ⟨rfl, hp⟩
  · intro h hn
    have hor : HasLegalAction s.gridSize s.grid (playerIdOf s.currentPlayer) ∨
        ¬ 0 < s.actionsLeft := by
      by_cases hl : HasLegalAction s.gridSize s.grid (playerIdOf s.currentPlayer)
      · exact Or.inl hl
      · right
        intro hal
        rw [not_hasLegalAction_iff] at hl
        exact hn ⟨hl.1, hl.2, hal⟩
    rw [e3 h hor]
    exact ⟨rfl, hp⟩
  · by_cases h : HasPresence s.gridSize s.grid (playerIdOf s.currentPlayer)
    · by_cases hl : HasLegalAction s.gridSize s.grid (playerIdOf s.currentPlayer) ∨
          ¬ 0 < s.actionsLeft
      · rw [e3 h hl]
      · rw [e2 h (fun hh => hl (Or.inl hh)) (by by_contra hh; exact hl (Or.inr hh))]
    · rw [e1 h]
      rfl

/-- Witness for C16: the first player owns only an Infected cell, with empty
neighbours: legal births exist, and the step ends the game. -/
theorem updateActions_spec_witness :
    dormantState.gamePhase = GamePhase.playing ∧
    (0, 1) ∈ (calculateAvailableActions 3 dormantBoard 1).birth ∧
    (updateActionsEffect dormantState).gamePhase = GamePhase.ended := by
  refine ⟨rfl, ?_, ?_⟩
  · exact (mem_birth_iff 3 dormantBoard 1 0 1).2
      ⟨by decide, by decide, ⟨(0, 0), by decide, by decide, by decide⟩⟩
  · apply (updateActions_spec dormantState rfl).1
    rintro ⟨⟨r, c⟩, ⟨hr, hc⟩, h⟩
    simp only at hr hc
    have hr3 : r < 3 := hr
    have hc3 : c < 3 := hc
    interval_cases r <;> interval_cases c <;> exact absurd h (by decide)

/-- C15, as the code behaves: in phase Playing with `actionsLeft = 1`, if the
current player has at least one Active cell but empty birth and attack sets, the
action-update step sets `actionsLeft` to 0 and leaves grid, phase and
`currentPlayer` as they are; the exhaustion handler then runs the encirclement
pass and ends the game: the phase becomes Ended, `currentPlayer` is not
switched and `actionsLeft` stays 0. -/
theorem auto_skip_ends_game (s : GameState) (hp : s.gamePhase = GamePhase.playing)
    (hal : s.actionsLeft = 1) (hcur : s.currentPlayer < 2)
    (hpres : HasPresence s.gridSize s.grid (playerIdOf s.currentPlayer))
    (hb : (calculateAvailableActions s.gridSize s.grid (playerIdOf s.currentPlayer)).birth = [])
    (ha : (calculateAvailableActions s.gridSize s.grid
      (playerIdOf s.currentPlayer)).attack = []) :
    ((updateActionsEffect s).actionsLeft = 0 ∧
      (updateActionsEffect s).gamePhase = GamePhase.playing ∧
      (updateActionsEffect s).grid = s.grid ∧
      (updateActionsEffect s).currentPlayer = s.currentPlayer) ∧
    ((endTurnEffect (updateActionsEffect s)).gamePhase = GamePhase.ended ∧
      (endTurnEffect (updateActionsEffect s)).grid =
        checkAndInfectSurrounded s.gridSize s.grid ∧
      (endTurnEffect (updateActionsEffect s)).currentPlayer = s.currentPlayer ∧
      (endTurnEffect (updateActionsEffect s)).actionsLeft = 0) := by
  have hno : ¬ HasLegalAction s.gridSize s.grid (playerIdOf s.currentPlayer) :=
    (not_hasLegalAction_iff _ _ _).2 ⟨hb, ha⟩
  have e := (updateActionsEffect_eq s hp).2.1 hpres hno (by omega)
  have hph : (updateActionsEffect s).gamePhase = GamePhase.playing := by rw [e]; exact hp
  have hal0 : (updateActionsEffect s).actionsLeft = 0 := by rw [e]
  have hgr : (updateActionsEffect s).grid = s.grid := by rw [e]
  have hsz : (updateActionsEffect s).gridSize = s.gridSize := by rw [e]
  have hcp : (updateActionsEffect s).currentPlayer = s.currentPlayer := by rw [e]
  refine ⟨⟨hal0, hph, hgr, hcp⟩, ?_⟩
  have hnot : ¬ ((HasPresence (updateActionsEffect s).gridSize (updateActionsEffect s).grid 1 ∧
        HasLegalAction (updateActionsEffect s).gridSize (updateActionsEffect s).grid 1) ∧
      (HasPresence (updateActionsEffect s).gridSize (updateActionsEffect s).grid 2 ∧
        HasLegalAction (updateActionsEffect s).gridSize (updateActionsEffect s).grid 2)) := by
    rw [hgr, hsz]
    rintro ⟨⟨_, l1⟩, ⟨_, l2⟩⟩
    rcases playerIdOf_cases hcur with h | h
    · rw [h] at hno; exact hno l1
    · rw [h] at hno; exact hno l2
  rw [(endTurnEffect_eq (updateActionsEffect s) hph hal0).2 hnot]
  refine ⟨rfl, ?_, ?_, ?_⟩
  · show checkAndInfectSurrounded (updateActionsEffect s).gridSize (updateActionsEffect s).grid = _
    rw [hgr, hsz]
  · exact hcp
  · exact hal0

/-! ### Placement -/

theorem initializeGrid_wf (N : Nat) : WF N (initializeGrid N) := by
  unfold WF initializeGrid
  refine ⟨List.length_replicate _ _, ?_⟩
  intro cells hc
  rw [List.eq_of_mem_replicate hc, List.length_replicate]

theorem initializeGrid_cell (N r c : Nat) : (initializeGrid N).cell r c = emptyCell := by
  rcases cell_mem_or_empty (initializeGrid N) r c with h | ⟨cells, h1, h2⟩
  · exact h
  · unfold initializeGrid at h1
    rw [List.eq_of_mem_replicate h1] at h2
    exact List.eq_of_mem_replicate h2

/-- The placement click on an Empty board cell. -/
theorem handleCellClick_placement {s : GameState} (hg : WF s.gridSize s.grid)
    (hp : s.gamePhase = GamePhase.placement) {r c : Nat} (hb : onBoard s.gridSize (r, c))
    (he : (s.grid.cell r c).type = CellType.empty) :
    handleCellClick s (r : Int) (c : Int) =
      if isFirstPlacer s.placementOrder s.currentPlayer = true then
        Outcome.returned { s with
          grid := s.grid.setCell r c ⟨CellType.active, some (playerIdOf s.currentPlayer)⟩
          currentPlayer := s.placementOrder.getD 1 0
          log := (s.log ++ [LogEntry.placed s.currentPlayer r c]) ++
            [LogEntry.placesNext (s.placementOrder.getD 1 0)] }
      else
        Outcome.returned { s with
          grid := s.grid.setCell r c ⟨CellType.active, some (playerIdOf s.currentPlayer)⟩
          currentPlayer := s.placementOrder.getD 0 0
          gamePhase := GamePhase.playing
          actionsLeft := 3
          log := (s.log ++ [LogEntry.placed s.currentPlayer r c]) ++
            [LogEntry.gameStarted (s.placementOrder.getD 0 0)] } := by
  unfold handleCellClick handlePlacementClick
  rw [if_pos hp, clickedCell_onBoard hg hb]
  simp only [he, ne_eq, not_true_eq_false, if_false, Int.toNat_ofNat]

/-- C17: in phase Placement on an `N × N` grid, a click on an on-board cell that
is not Empty returns and leaves the whole state (grid, currentPlayer, phase,
actionsLeft, placementOrder) unchanged. -/
theorem placement_click_occupied (s : GameState) (r c : Nat) (hg : WF s.gridSize s.grid)
    (hp : s.gamePhase = GamePhase.placement) (hb : onBoard s.gridSize (r, c))
    (hne : (s.grid.cell r c).type ≠ CellType.empty) :
    handleCellClick s (r : Int) (c : Int) = Outcome.returned s := by
  unfold handleCellClick handlePlacementClick
  rw [if_pos hp, clickedCell_onBoard hg hb]
  simp only [hne, ne_eq, not_false_eq_true, if_true]

/-- Witness for C17: on the empty 10 × 10 board, after the first placer clicked
`(3, 3)`, a second click on `(3, 3)` changes nothing and the second placer is
still the current player. -/
theorem placement_click_occupied_witness :
    (handleCellClick freshGame 3 3).state.gamePhase = GamePhase.placement ∧
    (handleCellClick freshGame 3 3).state.currentPlayer = 1 ∧
    handleCellClick (handleCellClick freshGame 3 3).state 3 3 =
      Outcome.returned (handleCellClick freshGame 3 3).state :=
  ⟨by decide, by decide,
    placement_click_occupied (handleCellClick freshGame 3 3).state 3 3
      (by decide) (by decide) (by decide) (by decide)⟩

/-- C18: from the state produced by `startGame` with placement order `(a, b)`,
a click on an (Empty) board cell sets exactly that cell to
`{active, owner = id of player a}` and makes `b` the current player, the phase
still Placement; a following click on a different board cell sets exactly that
cell to `{active, owner = id of player b}`, sets the phase to Playing,
`currentPlayer` to `a` and `actionsLeft` to 3.  No other cell changes in either
step. -/
theorem placement_sequence (s0 : GameState) (N : Nat) (randomBelowHalf : Bool)
    (r1 c1 r2 c2 : Nat) (hb1 : onBoard N (r1, c1)) (hb2 : onBoard N (r2, c2))
    (hne : (r2, c2) ≠ (r1, c1)) :
    ∃ t1 t2 : GameState,
      (startGame s0 N randomBelowHalf).placementOrder =
        [if randomBelowHalf = true then 0 else 1, if randomBelowHalf = true then 1 else 0] ∧
      handleCellClick (startGame s0 N randomBelowHalf) (r1 : Int) (c1 : Int) =
        Outcome.returned t1 ∧
      handleCellClick t1 (r2 : Int) (c2 : Int) = Outcome.returned t2 ∧
      t1.gamePhase = GamePhase.placement ∧
      t1.currentPlayer = (if randomBelowHalf = true then 1 else 0) ∧
      (∀ r c, t1.grid.cell r c =
        if (r, c) = (r1, c1) then
          ⟨CellType.active, some (playerIdOf (if randomBelowHalf = true then 0 else 1))⟩
        else (startGame s0 N randomBelowHalf).grid.cell r c) ∧
      t2.gamePhase = GamePhase.playing ∧
      t2.currentPlayer = (if randomBelowHalf = true then 0 else 1) ∧
      t2.actionsLeft = 3 ∧
      (∀ r c, t2.grid.cell r c =
        if (r, c) = (r2, c2) then
          ⟨CellType.active, some (playerIdOf (if randomBelowHalf = true then 1 else 0))⟩
        else t1.grid.cell r c) := by
  have hcellset : ∀ (g : Grid), WF N g → ∀ (r0 c0 : Nat), onBoard N (r0, c0) → ∀ (v : Cell)
      (r c : Nat), (g.setCell r0 c0 v).cell r c = if (r, c) = (r0, c0) then v else g.cell r c := by
    intro g hg r0 c0 hb v r c
    rw [hg.cell_setCell hb]
    by_cases h : r0 = r ∧ c0 = c
    · rw [if_pos h, if_pos (by rw [h.1, h.2])]
    · rw [if_neg h, if_neg]
      intro heq
      exact h ⟨(congrArg Prod.fst heq).symm, (congrArg Prod.snd heq).symm⟩
  have hg0 : WF N (initializeGrid N) := initializeGrid_wf N
  cases randomBelowHalf
  · have hs : WF (startGame s0 N false).gridSize (startGame s0 N false).grid := hg0
    have e1 := handleCellClick_placement hs rfl hb1 (by
      show ((initializeGrid N).cell r1 c1).type = CellType.empty
      rw [initializeGrid_cell]; rfl)
    rw [if_pos (by rfl)] at e1
    have hg1 : WF N ((initializeGrid N).setCell r1 c1 ⟨CellType.active, some (playerIdOf 1)⟩) :=
      hg0.setCell _ _ _
    have e2 := handleCellClick_placement
      (s := { startGame s0 N false with
        grid := (initializeGrid N).setCell r1 c1 ⟨CellType.active, some (playerIdOf 1)⟩
        currentPlayer := 0
        log := ((startGame s0 N false).log ++ [LogEntry.placed 1 r1 c1]) ++
          [LogEntry.placesNext 0] })
      hg1 rfl hb2 (by
        show (((initializeGrid N).setCell r1 c1 _).cell r2 c2).type = CellType.empty
        rw [hcellset _ hg0 r1 c1 hb1, if_neg hne, initializeGrid_cell]; rfl)
    rw [if_neg (by simp [isFirstPlacer, startGame])] at e2
    refine ⟨_, _, rfl, e1, e2, rfl, rfl, ?_, rfl, rfl, rfl, ?_⟩
    · intro r c
      exact hcellset _ hg0 r1 c1 hb1 _ r c
    · intro r c
      exact hcellset _ (hg0.setCell _ _ _) r2 c2 hb2 _ r c
  · have hs : WF (startGame s0 N true).gridSize (startGame s0 N true).grid := hg0
    have e1 := handleCellClick_placement hs rfl hb1 (by
      show ((initializeGrid N).cell r1 c1).type = CellType.empty
      rw [initializeGrid_cell]; rfl)
    rw [if_pos (by rfl)] at e1
    have hg1 : WF N ((initializeGrid N).setCell r1 c1 ⟨CellType.active, some (playerIdOf 0)⟩) :=
      hg0.setCell _ _ _
    have e2 := handleCellClick_placement
      (s := { startGame s0 N true with
        grid := (initializeGrid N).setCell r1 c1 ⟨CellType.active, some (playerIdOf 0)⟩
        currentPlayer := 1
        log := ((startGame s0 N true).log ++ [LogEntry.placed 0 r1 c1]) ++
          [LogEntry.placesNext 1] })
      hg1 rfl hb2 (by
        show (((initializeGrid N).setCell r1 c1 _).cell r2 c2).type = CellType.empty
        rw [hcellset _ hg0 r1 c1 hb1, if_neg hne, initializeGrid_cell]; rfl)
    rw [if_neg (by simp [isFirstPlacer, startGame])] at e2
    refine ⟨_, _, rfl, e1, e2, rfl, rfl, ?_, rfl, rfl, rfl, ?_⟩
    · intro r c
      exact hcellset _ hg0 r1 c1 hb1 _ r c
    · intro r c
      exact hcellset _ (hg0.setCell _ _ _) r2 c2 hb2 _ r c

/-! ### The end conditions read the grid of the render -/

/-- C14, the code at two inputs.  In `cornerState`, reached on the 10 × 10 board
by two placements and three births, the turn is exhausted; the encirclement
pass infects the second player's only cell, so that after the pass player 2 has
no Active cell, yet the exhaustion handler leaves the phase Playing, gives the
move to the second player and resets `actionsLeft` to 3.  On the 3 × 3 ring
board no Active cell of either player is left after the pass and the handler
leaves the phase Playing as well. -/
theorem endTurn_reads_render_grid :
    (cornerState.gamePhase = GamePhase.playing ∧ cornerState.actionsLeft = 0 ∧
      cornerState.gridSize = 10 ∧
      hasActiveCells 10 (checkAndInfectSurrounded 10 cornerState.grid) 2 = false ∧
      (endTurnEffect cornerState).grid = checkAndInfectSurrounded 10 cornerState.grid ∧
      (endTurnEffect cornerState).gamePhase = GamePhase.playing ∧
      (endTurnEffect cornerState).currentPlayer = 1 ∧
      (endTurnEffect cornerState).actionsLeft = 3) ∧
    (hasActiveCells 3 (checkAndInfectSurrounded 3 ringBoard) 1 = false ∧
      hasActiveCells 3 (checkAndInfectSurrounded 3 ringBoard) 2 = false ∧
      (endTurnEffect ringState).grid = checkAndInfectSurrounded 3 ringBoard ∧
      (endTurnEffect ringState).gamePhase = GamePhase.playing) := by
  decide!

/-! ### The auto-skipped turn -/

/-- Counterexample to C15 as stated: in `stuckState` the phase is Playing,
`actionsLeft` is 1, the current player has an Active cell and empty birth and
attack sets; after the action-update step and the exhaustion handler the phase
is Ended, the current player is still the first one and `actionsLeft` is 0, so
the engine has not advanced to the other player. -/
theorem auto_skip_advances_counterexample :
    stuckState.gamePhase = GamePhase.playing ∧ stuckState.actionsLeft = 1 ∧
    hasActiveCells 3 stuckBoard (playerIdOf stuckState.currentPlayer) = true ∧
    (calculateAvailableActions 3 stuckBoard (playerIdOf stuckState.currentPlayer)).birth = [] ∧
    (calculateAvailableActions 3 stuckBoard (playerIdOf stuckState.currentPlayer)).attack = [] ∧
    (endTurnEffect (updateActionsEffect stuckState)).gamePhase = GamePhase.ended ∧
    ¬ ((endTurnEffect (updateActionsEffect stuckState)).gamePhase = GamePhase.playing ∧
      (endTurnEffect (updateActionsEffect stuckState)).currentPlayer = 1 ∧
      (endTurnEffect (updateActionsEffect stuckState)).actionsLeft = 3) := by
  decide!

/-- Witness for the amended C15 in `stuckState`. -/
theorem auto_skip_ends_game_witness :
    (endTurnEffect (updateActionsEffect stuckState)).gamePhase = GamePhase.ended ∧
    (endTurnEffect (updateActionsEffect stuckState)).currentPlayer = 0 ∧
    (endTurnEffect (updateActionsEffect stuckState)).actionsLeft = 0 := by
  have h := auto_skip_ends_game stuckState rfl rfl (by decide)
    ⟨(0, 0), by decide, by decide⟩ (by decide!) (by decide!)
  exact ⟨h.2.1, h.2.2.2.1, h.2.2.2.2⟩

/-! ### Inert phases and clicks off the board -/

theorem handleCellClick_inert (s : GameState)
    (h : s.gamePhase = GamePhase.ended ∨ s.gamePhase = GamePhase.setup) (row col : Int) :
    handleCellClick s row col = Outcome.returned s := by
  unfold handleCellClick
  have h1 : ¬ s.gamePhase = GamePhase.placement := by
    rcases h with h | h <;> rw [h] <;> decide
  have h2 : s.gamePhase ≠ GamePhase.playing := by
    rcases h with h | h <;> rw [h] <;> decide
  rw [if_neg h1, if_pos (Or.inl h2)]

theorem endTurnEffect_inert (s : GameState) (h : s.gamePhase ≠ GamePhase.playing) :
    endTurnEffect s = s := by
  unfold endTurnEffect
  rw [if_neg (fun hh => h hh.1)]

theorem updateActionsEffect_inert (s : GameState) (h : s.gamePhase ≠ GamePhase.playing) :
    updateActionsEffect s = s := by
  unfold updateActionsEffect
  rw [if_neg h]

theorem step_inert {s t : GameState}
    (h : s.gamePhase = GamePhase.ended ∨ s.gamePhase = GamePhase.setup) (hs : Step s t) :
    t = s := by
  have h2 : s.gamePhase ≠ GamePhase.playing := by
    rcases h with h | h <;> rw [h] <;> decide
  cases hs with
  | click row col => rw [handleCellClick_inert s h row col]; rfl
  | endTurn => exact endTurnEffect_inert s h2
  | updateActions => exact updateActionsEffect_inert s h2

theorem steps_inert {s t : GameState}
    (h : s.gamePhase = GamePhase.ended ∨ s.gamePhase = GamePhase.setup) (hs : Steps s t) :
    t = s := by
  induction hs with
  | refl => rfl
  | tail _ hstep ih =>
    rw [ih] at hstep
    exact step_inert h hstep

/-- C19: when the phase is Ended or Setup, `handleCellClick` with any
coordinates (on the board or not) returns and leaves the whole state unchanged,
and neither the exhaustion handler nor the action-update step changes anything;
hence no sequence of clicks and effect steps changes the state, and once the
phase is Ended it is never Playing again. -/
theorem ended_setup_inert (s : GameState)
    (h : s.gamePhase = GamePhase.ended ∨ s.gamePhase = GamePhase.setup) :
    (∀ row col : Int, handleCellClick s row col = Outcome.returned s) ∧
    endTurnEffect s = s ∧
    updateActionsEffect s = s ∧
    (∀ t, Steps s t → t = s) ∧
    (s.gamePhase = GamePhase.ended → ∀ t, Steps s t → t.gamePhase = GamePhase.ended) := by
  have h2 : s.gamePhase ≠ GamePhase.playing := by
    rcases h with h | h <;> rw [h] <;> decide
  refine ⟨handleCellClick_inert s h, endTurnEffect_inert s h2, updateActionsEffect_inert s h2,
    fun t ht => steps_inert h ht, ?_⟩
  intro he t ht
  rw [steps_inert h ht]
  exact he

/-- Witness for C19: the initial state, in phase Setup. -/
theorem ended_setup_inert_witness :
    initialState.gamePhase = GamePhase.setup ∧
    handleCellClick initialState 0 0 = Outcome.returned initialState ∧
    endTurnEffect initialState = initialState :=
  ⟨rfl, (ended_setup_inert initialState (Or.inr rfl)).1 0 0,
    (ended_setup_inert initialState (Or.inr rfl)).2.1⟩

/-- Counterexample to C20 as stated: on the 10 × 10 board in phase Placement the
click at row 10 does not return with the state unchanged; it raises the
`TypeError` of the lookup `grid[10][0]`. -/
theorem offboard_click_counterexample :
    freshGame.gamePhase = GamePhase.placement ∧ freshGame.gridSize = 10 ∧
    handleCellClick freshGame 10 0 = Outcome.threw freshGame ∧
    handleCellClick freshGame 10 0 ≠ Outcome.returned freshGame := by
  decide

/-- C20, as the code behaves: on an `N × N` grid a click whose row or column is
outside `0 .. N - 1` never changes the state; in phase Placement, and in phase
Playing with `actionsLeft ≠ 0`, it does not return but raises a `TypeError` on
the cell lookup, before any state update; in phase Playing with
`actionsLeft = 0` it returns. -/
theorem offboard_click (s : GameState) (row col : Int) (hg : WF s.gridSize s.grid)
    (hoff : ¬ (0 ≤ row ∧ row < s.gridSize ∧ 0 ≤ col ∧ col < s.gridSize)) :
    ((s.gamePhase = GamePhase.placement ∨
        (s.gamePhase = GamePhase.playing ∧ s.actionsLeft ≠ 0)) →
      handleCellClick s row col = Outcome.threw s) ∧
    ((s.gamePhase = GamePhase.playing ∧ s.actionsLeft = 0) →
      handleCellClick s row col = Outcome.returned s) ∧
    (handleCellClick s row col).state = s := by
  have hnone := clickedCell_offBoard hg hoff
  have e1 : s.gamePhase = GamePhase.placement → handleCellClick s row col = Outcome.threw s := by
    intro hp
    unfold handleCellClick handlePlacementClick
    rw [if_pos hp, hnone]
  have e2 : s.gamePhase = GamePhase.playing → s.actionsLeft ≠ 0 →
      handleCellClick s row col = Outcome.threw s := by
    intro hp hal
    unfold handleCellClick
    have hp1 : ¬ s.gamePhase = GamePhase.placement := by rw [hp]; decide
    have hp2 : ¬ (s.gamePhase ≠ GamePhase.playing ∨ s.actionsLeft = 0) := by
      rintro (h | h)
      · exact h hp
      · exact hal h
    rw [if_neg hp1, if_neg hp2, hnone]
  have e3 : ¬ s.gamePhase = GamePhase.placement →
      (s.gamePhase ≠ GamePhase.playing ∨ s.actionsLeft = 0) →
      handleCellClick s row col = Outcome.returned s := by
    intro hp1 hp2
    unfold handleCellClick
    rw [if_neg hp1, if_pos hp2]
  refine ⟨?_, ?_, ?_⟩
  · rintro (hp | ⟨hp, hal⟩)
    · exact e1 hp
    · exact e2 hp hal
  · rintro ⟨hp, hal⟩
    exact e3 (by rw [hp]; decide) (Or.inr hal)
  · by_cases hp : s.gamePhase = GamePhase.placement
    · rw [e1 hp]; rfl
    · by_cases hq : s.gamePhase ≠ GamePhase.playing ∨ s.actionsLeft = 0
      · rw [e3 hp hq]; rfl
      · rw [e2 (by by_contra h; exact hq (Or.inl h)) (by intro h; exact hq (Or.inr h))]; rfl

/-- Witness for the amended C20: a click at column `-1` on the fresh 10 × 10
board. -/
theorem offboard_click_witness :
    WF freshGame.gridSize freshGame.grid ∧
    handleCellClick freshGame 0 (-1) = Outcome.threw freshGame :=
  ⟨by decide, (offboard_click freshGame 0 (-1) (by decide) (by decide)).1 (Or.inl rfl)⟩

/-! ### Witnesses for the clicks -/

/-- Witness for C11: a click on the Infected cell `(1, 0)` of the mid-game
board. -/
theorem click_ignored_witness :
    handleCellClick { dormantState with grid := midgameBoard } 1 0 =
      Outcome.returned { dormantState with grid := midgameBoard } :=
  (click_ignored { dormantState with grid := midgameBoard } 1 0 (by decide) rfl
    (by decide)).2.1 (by decide)

/-- Witness for C12: the first player's birth at `(0, 1)` of the mid-game
board. -/
theorem click_accepted_witness :
    ∃ t, handleCellClick { dormantState with grid := midgameBoard } 0 1 = Outcome.returned t ∧
      t.grid.cell 0 1 = ⟨CellType.active, some 1⟩ ∧ t.actionsLeft = 2 := by
  obtain ⟨t, h1, h2, _, _, _, h3, _, _⟩ :=
    (click_accepted { dormantState with grid := midgameBoard } 0 1 (by decide) rfl
      (by decide)).1
      ((mem_birth_iff 3 midgameBoard 1 0 1).2
        ⟨by decide, by decide, ⟨(0, 0), by decide, by decide, by decide⟩⟩)
  exact ⟨t, h1, h2, h3⟩

/-- Witness for C18: two placements on the 10 × 10 board. -/
theorem placement_sequence_witness :
    ∃ t1 t2 : GameState,
      handleCellClick (startGame initialState 10 true) 3 3 = Outcome.returned t1 ∧
      handleCellClick t1 4 4 = Outcome.returned t2 ∧
      t2.gamePhase = GamePhase.playing ∧ t2.currentPlayer = 0 ∧ t2.actionsLeft = 3 := by
  obtain ⟨t1, t2, _, h1, h2, _, _, _, h3, h4, h5, _⟩ :=
    placement_sequence initialState 10 true 3 3 4 4 (by decide) (by decide) (by decide)
  exact ⟨t1, t2, h1, h2, h3, h4, h5⟩

/-! ### The grid written by a click -/

theorem clickedCell_some {g : Grid} {row col : Int} {cell : Cell}
    (h : clickedCell g row col = some cell) : g.cell? row.toNat col.toNat = some cell := by
  unfold clickedCell at h
  by_cases h0 : 0 ≤ row ∧ 0 ≤ col
  · rw [if_pos h0] at h; exact h
  · rw [if_neg h0] at h; exact Option.noConfusion h

/-- The grid after a click is the grid before it, or that grid with one cell
written: an Empty cell made Active, or an Active cell made Infected, owned by
the current player. -/
theorem click_grid_cases (s : GameState) (row col : Int) :
    (handleCellClick s row col).state.grid = s.grid ∨
    ∃ (r c : Nat) (old v : Cell), s.grid.cell? r c = some old ∧
      (handleCellClick s row col).state.grid = s.grid.setCell r c v ∧
      ((old.type = CellType.empty ∧ v = ⟨CellType.active, some (playerIdOf s.currentPlayer)⟩) ∨
        (old.type = CellType.active ∧
          v = ⟨CellType.infected, some (playerIdOf s.currentPlayer)⟩)) := by
  unfold handleCellClick
  by_cases hp : s.gamePhase = GamePhase.placement
  · rw [if_pos hp]
    unfold handlePlacementClick
    cases hc : clickedCell s.grid row col with
    | none => left; rfl
    | some cell =>
      simp only
      by_cases he : cell.type ≠ CellType.empty
      · rw [if_pos he]; left; rfl
      · rw [if_neg he]
        right
        refine ⟨row.toNat, col.toNat, cell, _, clickedCell_some hc, ?_,
          Or.inl ⟨by simpa using he, rfl⟩⟩
        by_cases hf : isFirstPlacer s.placementOrder s.currentPlayer = true
        · rw [if_pos hf]; rfl
        · rw [if_neg hf]; rfl
  · rw [if_neg hp]
    by_cases hq : s.gamePhase ≠ GamePhase.playing ∨ s.actionsLeft = 0
    · rw [if_pos hq]; left; rfl
    · rw [if_neg hq]
      cases hc : clickedCell s.grid row col with
      | none => left; rfl
      | some cell =>
        simp only
        by_cases h1 : cell.type = CellType.empty ∧
            listHasClick (calculateAvailableActions s.gridSize s.grid
              (playerIdOf s.currentPlayer)).birth row col = true
        · rw [if_pos h1]
          right
          exact ⟨row.toNat, col.toNat, cell, _, clickedCell_some hc, rfl, Or.inl ⟨h1.1, rfl⟩⟩
        · rw [if_neg h1]
          by_cases h2 : cell.type = CellType.active ∧
              cell.owner ≠ some (playerIdOf s.currentPlayer) ∧
              listHasClick (calculateAvailableActions s.gridSize s.grid
                (playerIdOf s.currentPlayer)).attack row col = true
          · rw [if_pos h2]
            right
            exact ⟨row.toNat, col.toNat, cell, _, clickedCell_some hc, rfl, Or.inr ⟨h2.1, rfl⟩⟩
          · rw [if_neg h2]; left; rfl

theorem cell_of_cell? {g : Grid} {r c : Nat} {v : Cell} (h : g.cell? r c = some v) :
    g.cell r c = v := by
  unfold Grid.cell
  rw [h]
  rfl

theorem cell_setCell_of_some {g : Grid} {r c : Nat} {old : Cell} (h : g.cell? r c = some old)
    (v : Cell) (r2 c2 : Nat) :
    (g.setCell r c v).cell r2 c2 = if r = r2 ∧ c = c2 then v else g.cell r2 c2 := by
  unfold Grid.cell
  rw [cell?_setCell, h]
  by_cases hh : r = r2 ∧ c = c2
  · simp [hh]
  · rw [if_neg hh, if_neg (by tauto)]

/-! ### The cell invariant -/

theorem gridInv_setCell {g : Grid} (hg : GridInv g) (r c : Nat) {v : Cell} (hv : CellInv v) :
    GridInv (g.setCell r c v) := by
  unfold Grid.setCell
  cases h : g[r]? with
  | none => exact hg
  | some cells =>
    intro row hrow cell hcell
    rcases List.mem_or_eq_of_mem_set hrow with h1 | h1
    · exact hg row h1 cell hcell
    · rw [h1] at hcell
      rcases List.mem_or_eq_of_mem_set hcell with h2 | h2
      · exact hg cells (List.getElem?_mem h) cell h2
      · rw [h2]; exact hv

theorem gridInv_applyInfection {g : Grid} (hg : GridInv g) (A : Nat) (cells : List Pos) :
    GridInv (applyInfection g A cells) := by
  unfold applyInfection
  induction cells generalizing g with
  | nil => exact hg
  | cons a l ih =>
    rw [List.foldl_cons]
    exact ih (gridInv_setCell hg _ _ (by unfold CellInv; simp))

theorem gridInv_initializeGrid (N : Nat) : GridInv (initializeGrid N) := by
  intro cells hc cell hcell
  unfold initializeGrid at hc
  rw [List.eq_of_mem_replicate hc] at hcell
  rw [List.eq_of_mem_replicate hcell]
  decide

theorem gridInv_click {s : GameState} (hg : GridInv s.grid) (row col : Int) :
    GridInv (handleCellClick s row col).state.grid := by
  rcases click_grid_cases s row col with h | ⟨r, c, old, v, _, h, hv⟩
  · rw [h]; exact hg
  · rw [h]
    apply gridInv_setCell hg
    rcases hv with ⟨_, hv⟩ | ⟨_, hv⟩ <;> rw [hv] <;> unfold CellInv <;> simp

theorem gridInv_pass {g : Grid} (hg : GridInv g) (N : Nat) :
    GridInv (checkAndInfectSurrounded N g) := by
  rw [checkAndInfectSurrounded_eq]
  exact gridInv_applyInfection (gridInv_applyInfection hg _ _) _ _

/-- C21: the cell invariant 'owner is null iff type is empty' holds for every
cell of the grid built by `initializeGrid` and is preserved by every operation
that changes the grid: a click in any phase (so a placement click, an accepted
birth and an accepted attack) and the encirclement pass. -/
theorem cell_invariant_preserved :
    (∀ N : Nat, GridInv (initializeGrid N)) ∧
    (∀ (s : GameState) (row col : Int), GridInv s.grid →
      GridInv (handleCellClick s row col).state.grid) ∧
    (∀ (N : Nat) (g : Grid), GridInv g → GridInv (checkAndInfectSurrounded N g)) :=
  ⟨gridInv_initializeGrid, fun _ row col hg => gridInv_click hg row col,
    fun N _ hg => gridInv_pass hg N⟩

/-! ### Cell states move forward -/

theorem forward_refl (g : Grid) : Forward g g := by
  intro r c
  refine ⟨fun h => h, ?_, fun _ => rfl⟩
  intro h
  rw [h]
  decide

theorem forward_setCell {g : Grid} {r c : Nat} {old v : Cell} (h : g.cell? r c = some old)
    (hv : (old.type = CellType.empty ∧ v.type = CellType.active) ∨
      (old.type = CellType.active ∧ v.type = CellType.infected)) :
    Forward g (g.setCell r c v) := by
  have hold := cell_of_cell? h
  intro r2 c2
  rw [cell_setCell_of_some h]
  by_cases hh : r = r2 ∧ c = c2
  · rw [if_pos hh, ← hh.1, ← hh.2, hold]
    rcases hv with ⟨h1, h2⟩ | ⟨h1, h2⟩
    · rw [h1, h2]
      refine ⟨fun hne => absurd rfl hne, fun hi => CellType.noConfusion hi,
        fun hi => CellType.noConfusion hi⟩
    · rw [h1, h2]
      refine ⟨fun _ => by decide, fun hi => CellType.noConfusion hi,
        fun hi => CellType.noConfusion hi⟩
  · rw [if_neg hh]
    exact forward_refl g r2 c2

theorem forward_click (s : GameState) (row col : Int) :
    Forward s.grid (handleCellClick s row col).state.grid := by
  rcases click_grid_cases s row col with h | ⟨r, c, old, v, ho, h, hv⟩
  · rw [h]; exact forward_refl _
  · rw [h]
    apply forward_setCell ho
    rcases hv with ⟨h1, h2⟩ | ⟨h1, h2⟩
    · exact Or.inl ⟨h1, by rw [h2]⟩
    · exact Or.inr ⟨h1, by rw [h2]⟩

theorem forward_pass {N : Nat} {g : Grid} (hg : WF N g) :
    Forward g (checkAndInfectSurrounded N g) := by
  intro r c
  rcases pass_cell_cases hg (r, c) with ⟨e, _, _⟩ | ⟨hq, e⟩ | ⟨hq, e⟩
  · simp only at e
    rw [e]
    exact forward_refl g r c
  · simp only at e
    have ha : (g.cell r c).type = CellType.active := hq.2.1.1
    rw [e, ha]
    refine ⟨fun _ => by decide, fun hi => CellType.noConfusion hi,
      fun hi => CellType.noConfusion hi⟩
  · simp only at e
    have ha : (g.cell r c).type = CellType.active := hq.2.1.1
    rw [e, ha]
    refine ⟨fun _ => by decide, fun hi => CellType.noConfusion hi,
      fun hi => CellType.noConfusion hi⟩

/-- C27: cell states only move forward along Empty → Active → Infected: for
every click in any phase (placement click, playing click) and for the
encirclement pass on an `N × N` grid, no non-Empty cell becomes Empty, no
Infected cell becomes Active, and every cell that is Infected before the
operation has the same type and owner after it. -/
theorem cell_states_forward :
    (∀ (s : GameState) (row col : Int),
      Forward s.grid (handleCellClick s row col).state.grid) ∧
    (∀ (N : Nat) (g : Grid), WF N g → Forward g (checkAndInfectSurrounded N g)) :=
  ⟨forward_click, fun _ _ hg => forward_pass hg⟩

/-! ### The end of the game -/

/-- C23: for every pair of scores, `endGame` sets the phase to Ended and
declares `players[0]` the winner iff `score0 > score1`, `players[1]` the winner
iff `score1 > score0`, and no winner (a tie) iff the scores are equal; the log
entry it adds names the same outcome. -/
theorem endGame_spec (s : GameState) :
    (endGame s).gamePhase = GamePhase.ended ∧
    (winnerIndex s.score0 s.score1 = some 0 ↔ s.score0 > s.score1) ∧
    (winnerIndex s.score0 s.score1 = some 1 ↔ s.score1 > s.score0) ∧
    (winnerIndex s.score0 s.score1 = none ↔ s.score0 = s.score1) ∧
    (endGame s).log = s.log ++
      [match winnerIndex s.score0 s.score1 with
        | some 0 => LogEntry.winner 0 s.score0
        | some _ => LogEntry.winner 1 s.score1
        | none => LogEntry.tie s.score0 s.score1] := by
  unfold winnerIndex endGame
  refine ⟨rfl, ?_, ?_, ?_, ?_⟩
  · split_ifs <;> simp <;> omega
  · split_ifs <;> simp <;> omega
  · split_ifs <;> simp <;> omega
  · simp only
    split_ifs <;> rfl

/-! ### The start of a game -/

/-- C25: for every size and either outcome of the random draw, `startGame`
yields phase Placement, a `size × size` grid in which every cell is
`{empty, owner null}`, a `placementOrder` that is a permutation of the two
player indices `[0, 1]`, and `currentPlayer` equal to its first element. -/
theorem startGame_spec (s0 : GameState) (size : Nat) (randomBelowHalf : Bool) :
    (startGame s0 size randomBelowHalf).gamePhase = GamePhase.placement ∧
    (startGame s0 size randomBelowHalf).gridSize = size ∧
    WF size (startGame s0 size randomBelowHalf).grid ∧
    (∀ cells ∈ (startGame s0 size randomBelowHalf).grid, ∀ cell ∈ cells, cell = emptyCell) ∧
    (∀ r c, (startGame s0 size randomBelowHalf).grid.cell r c = emptyCell) ∧
    ((startGame s0 size randomBelowHalf).placementOrder = [0, 1] ∨
      (startGame s0 size randomBelowHalf).placementOrder = [1, 0]) ∧
    List.Perm (startGame s0 size randomBelowHalf).placementOrder [0, 1] ∧
    (startGame s0 size randomBelowHalf).placementOrder.head? =
      some (startGame s0 size randomBelowHalf).currentPlayer := by
  refine ⟨rfl, rfl, initializeGrid_wf size, ?_, initializeGrid_cell size, ?_, ?_, ?_⟩
  · intro cells hc cell hcell
    have hc2 : cells ∈ initializeGrid size := hc
    unfold initializeGrid at hc2
    rw [List.eq_of_mem_replicate hc2] at hcell
    exact List.eq_of_mem_replicate hcell
  · cases randomBelowHalf
    · exact Or.inr rfl
    · exact Or.inl rfl
  · cases randomBelowHalf
    · exact List.Perm.swap 0 1 []
    · exact List.Perm.refl _
  · cases randomBelowHalf <;> rfl

/-! ### The action budget -/

theorem click_actionsLeft_cases (s : GameState) (row col : Int) :
    (handleCellClick s row col).state.actionsLeft = s.actionsLeft ∨
    (handleCellClick s row col).state.actionsLeft = 3 ∨
    (s.actionsLeft ≠ 0 ∧
      (handleCellClick s row col).state.actionsLeft = s.actionsLeft - 1) := by
  unfold handleCellClick
  by_cases hp : s.gamePhase = GamePhase.placement
  · rw [if_pos hp]
    unfold handlePlacementClick
    cases hc : clickedCell s.grid row col with
    | none => left; rfl
    | some cell =>
      simp only
      by_cases he : cell.type ≠ CellType.empty
      · rw [if_pos he]; left; rfl
      · rw [if_neg he]
        by_cases hf : isFirstPlacer s.placementOrder s.currentPlayer = true
        · rw [if_pos hf]; left; rfl
        · rw [if_neg hf]; right; left; rfl
  · rw [if_neg hp]
    by_cases hq : s.gamePhase ≠ GamePhase.playing ∨ s.actionsLeft = 0
    · rw [if_pos hq]; left; rfl
    · rw [if_neg hq]
      have hal : s.actionsLeft ≠ 0 := fun h => hq (Or.inr h)
      cases hc : clickedCell s.grid row col with
      | none => left; rfl
      | some cell =>
        simp only
        split_ifs
        · right; right; exact ⟨hal, rfl⟩
        · right; right; exact ⟨hal, rfl⟩
        · left; rfl

theorem endTurn_actionsLeft_cases (s : GameState) :
    (endTurnEffect s).actionsLeft = s.actionsLeft ∨ (endTurnEffect s).actionsLeft = 3 := by
  unfold endTurnEffect
  by_cases h : s.gamePhase = GamePhase.playing ∧ s.actionsLeft = 0
  · rw [if_pos h]
    simp only []
    split_ifs
    · left; rfl
    · right; rfl
  · rw [if_neg h]
    left; rfl

theorem updateActions_actionsLeft_cases (s : GameState) :
    (updateActionsEffect s).actionsLeft = s.actionsLeft ∨
      (updateActionsEffect s).actionsLeft = 0 := by
  unfold updateActionsEffect
  by_cases h : s.gamePhase = GamePhase.playing
  · rw [if_pos h]
    simp only []
    split_ifs
    · left; rfl
    · right; rfl
    · left; rfl
  · rw [if_neg h]
    left; rfl

theorem step_budget {s t : GameState} (hs : Step s t)
    (h : 0 ≤ s.actionsLeft ∧ s.actionsLeft ≤ 3) : 0 ≤ t.actionsLeft ∧ t.actionsLeft ≤ 3 := by
  cases hs with
  | click row col =>
    rcases click_actionsLeft_cases s row col with e | e | ⟨hne, e⟩ <;> rw [e] <;> omega
  | endTurn =>
    rcases endTurn_actionsLeft_cases s with e | e <;> rw [e] <;> omega
  | updateActions =>
    rcases updateActions_actionsLeft_cases s with e | e <;> rw [e] <;> omega

theorem steps_budget {s t : GameState} (hs : Steps s t)
    (h : 0 ≤ s.actionsLeft ∧ s.actionsLeft ≤ 3) : 0 ≤ t.actionsLeft ∧ t.actionsLeft ≤ 3 := by
  induction hs with
  | refl => exact h
  | tail _ hstep ih => exact step_budget hstep ih

/-- C24: `startGame` is offered in phase Setup, which is entered by the initial
state and by `resetGame`, both with `actionsLeft = 3`; in every state reachable
from a state produced by `startGame` there, by clicks, exhaustion-handler steps
and action-update steps, `actionsLeft` is an integer with
`0 ≤ actionsLeft ≤ 3`. -/
theorem actionsLeft_bounds :
    initialState.actionsLeft = 3 ∧
    (∀ s : GameState, (resetGame s).actionsLeft = 3) ∧
    (∀ (s0 : GameState) (size : Nat) (randomBelowHalf : Bool) (t : GameState),
      s0.actionsLeft = 3 → Steps (startGame s0 size randomBelowHalf) t →
      0 ≤ t.actionsLeft ∧ t.actionsLeft ≤ 3) := by
  refine ⟨rfl, fun _ => rfl, ?_⟩
  intro s0 size b t h0 hs
  apply steps_budget hs
  have : (startGame s0 size b).actionsLeft = 3 := h0
  omega

/-! ### Termination and size of the flood fill -/

theorem floodIter_nodup (N : Nat) (g : Grid) (E : Nat) (s : FloodState) (p : Pos)
    (rest : List Pos) (h : s.localVisited = s.group ∧ s.group.Nodup) :
    (floodIter N g E s p rest).localVisited = (floodIter N g E s p rest).group ∧
      (floodIter N g E s p rest).group.Nodup := by
  unfold floodIter
  by_cases h1 : (setHas s.localVisited p || setHas s.visited p) = true
  · rw [if_pos h1]
    exact h
  rw [if_neg h1]
  simp only []
  by_cases h2 : (g.cell p.1 p.2).type ≠ CellType.active ∨ (g.cell p.1 p.2).owner ≠ some E
  · rw [if_pos h2]
    exact h
  · rw [if_neg h2]
    have hnlv : p ∉ s.localVisited := by
      intro hh
      apply h1
      rw [Bool.or_eq_true]
      exact Or.inl ((setHas_iff _ _).2 hh)
    rw [setAdd_of_not_mem hnlv]
    refine ⟨by simp only [h.1], ?_⟩
    simp only
    rw [List.nodup_append]
    refine ⟨h.2, List.nodup_singleton p, ?_⟩
    intro a ha hb
    rw [List.mem_singleton] at hb
    rw [h.1] at hnlv
    exact hnlv (by rw [← hb]; exact ha)

theorem floodLoop_nodup (N : Nat) (g : Grid) (E : Nat) (fuel : Nat) :
    ∀ s : FloodState, (s.localVisited = s.group ∧ s.group.Nodup) →
      (floodLoop N g E fuel s).localVisited = (floodLoop N g E fuel s).group ∧
        (floodLoop N g E fuel s).group.Nodup := by
  induction fuel with
  | zero => intro s h; exact h
  | succ k ih =>
    intro s h
    unfold floodLoop
    cases hq : s.queue with
    | nil => exact h
    | cons p rest => exact ih _ (floodIter_nodup N g E s p rest h)

theorem length_le_of_nodup_onBoard {N : Nat} {l : List Pos} (hnd : l.Nodup)
    (hb : ∀ p ∈ l, onBoard N p) : l.length ≤ N * N := by
  have hsub : l.toFinset ⊆ Finset.range N ×ˢ Finset.range N := by
    intro p hp
    rw [List.mem_toFinset] at hp
    rw [Finset.mem_product, Finset.mem_range, Finset.mem_range]
    exact hb p hp
  have hcard := Finset.card_le_card hsub
  rw [List.toFinset_card_of_nodup hnd, Finset.card_product, Finset.card_range] at hcard
  exact hcard

/-- C26: on every `N × N` grid, for every start cell and visited set, the loop
of `findConnectedEnemyGroup` stops on an empty queue within its fuel (and more
fuel changes nothing), and the group it returns has no duplicate positions and
at most `N²` elements; a position can nevertheless be in the queue twice, as
`(1, 1)` is after three iterations on the full 2 × 2 board. -/
theorem findConnectedEnemyGroup_terminates (N : Nat) (g : Grid) (r c E : Nat)
    (visited : List Pos) (hg : WF N g) :
    (floodFinal N g r c E visited).queue = [] ∧
    (∀ k, floodLoop N g E (floodFuel N + k)
      { queue := [(r, c)], localVisited := [], visited := visited, group := [] } =
        floodFinal N g r c E visited) ∧
    (findConnectedEnemyGroup N g r c E visited).1.Nodup ∧
    (findConnectedEnemyGroup N g r c E visited).1.length ≤ N * N ∧
    (floodLoop 2 fullBoard 1 3
      { queue := [(0, 0)], localVisited := [], visited := [], group := [] }).queue =
        [(1, 1), (1, 1)] := by
  have hnd : (findConnectedEnemyGroup N g r c E visited).1.Nodup := by
    unfold findConnectedEnemyGroup floodFinal
    exact (floodLoop_nodup N g E _ _ ⟨rfl, List.nodup_nil⟩).2
  have hb : ∀ p ∈ (findConnectedEnemyGroup N g r c E visited).1, onBoard N p :=
    fun p hp => hg.onBoard_of_active (findConnectedEnemyGroup_active N g r c E visited p hp)
  exact ⟨(floodFinal_terminates hg r c E visited).1, (floodFinal_terminates hg r c E visited).2,
    hnd, length_le_of_nodup_onBoard hnd hb, by decide⟩

/-- Witness for C26: the flood fill from the corner of the full 2 × 2 board. -/
theorem findConnectedEnemyGroup_terminates_witness :
    WF 2 fullBoard ∧ (findConnectedEnemyGroup 2 fullBoard 0 0 1 []).1.length ≤ 2 * 2 :=
  ⟨by decide, (findConnectedEnemyGroup_terminates 2 fullBoard 0 0 1 [] (by decide)).2.2.2.1⟩

/-! ### Scores -/

theorem scoreCell_pair (a b : Nat) (cell : Cell) :
    scoreCell [a, b] cell =
      [a + (if cell.owner = some 1 then 1 else 0), b + (if cell.owner = some 2 then 1 else 0)] := by
  unfold scoreCell
  cases h : cell.owner with
  | none => simp
  | some k =>
    simp only
    by_cases h0 : k = 0
    · subst h0; simp
    · rw [if_neg h0]
      by_cases h1 : k = 1
      · subst h1; simp [players, List.findIdx?_cons]
      · by_cases h2 : k = 2
        · subst h2; simp [players, List.findIdx?_cons]
        · have e1 : ¬ (1 = k) := fun h => h1 h.symm
          have e2 : ¬ (2 = k) := fun h => h2 h.symm
          simp [players, List.findIdx?_cons, h1, h2, e1, e2]

theorem foldl_scoreCell (cells : List Cell) (a b : Nat) :
    cells.foldl scoreCell [a, b] =
      [a + cells.countP (fun c => decide (c.owner = some 1)),
        b + cells.countP (fun c => decide (c.owner = some 2))] := by
  induction cells generalizing a b with
  | nil => simp
  | cons c cs ih =>
    rw [List.foldl_cons, scoreCell_pair, ih, List.countP_cons, List.countP_cons]
    simp only [decide_eq_true_eq]
    congr 1
    · omega
    · congr 1
      omega

theorem foldl_scoreRows (g : Grid) (a b : Nat) :
    g.foldl (fun scores cells => cells.foldl scoreCell scores) [a, b] =
      [a + g.flatten.countP (fun c => decide (c.owner = some 1)),
        b + g.flatten.countP (fun c => decide (c.owner = some 2))] := by
  induction g generalizing a b with
  | nil => simp
  | cons row rows ih =>
    rw [List.foldl_cons, foldl_scoreCell, ih, List.flatten_cons, List.countP_append,
      List.countP_append]
    congr 1
    · omega
    · congr 1
      omega

theorem calculateScores_eq (g : Grid) :
    calculateScores g =
      [g.flatten.countP (fun c => decide (c.owner = some 1)),
        g.flatten.countP (fun c => decide (c.owner = some 2))] := by
  unfold calculateScores
  rw [foldl_scoreRows]
  simp

theorem countP_owner_add (l : List Cell) :
    l.countP (fun c => decide (c.owner = some 1)) + l.countP (fun c => decide (c.owner = some 2)) =
      l.countP ownedByPlayer := by
  induction l with
  | nil => rfl
  | cons c cs ih =>
    rw [List.countP_cons, List.countP_cons, List.countP_cons, ← ih]
    unfold ownedByPlayer
    cases h : c.owner with
    | none => simp
    | some k =>
      by_cases h1 : k = 1
      · subst h1; simp; omega
      · by_cases h2 : k = 2
        · subst h2; simp; omega
        · simp [h1, h2]

/-- C22: the score computed for player index `i` equals the number of cells
whose owner is `players[i].id`, whatever their type (Active or Infected); hence,
on a grid whose owners are `null`, 1 or 2, the two scores sum to the number of
cells with non-null owner. -/
theorem calculateScores_spec (g : Grid) :
    (calculateScores g).length = 2 ∧
    (∀ i, i < 2 → (calculateScores g).getD i 0 =
      g.flatten.countP (fun c => decide (c.owner = some (playerIdOf i)))) ∧
    (∀ s : GameState, (scoreEffect s).score0 =
        s.grid.flatten.countP (fun c => decide (c.owner = some 1)) ∧
      (scoreEffect s).score1 =
        s.grid.flatten.countP (fun c => decide (c.owner = some 2))) ∧
    (OwnersOK g →
      (calculateScores g).getD 0 0 + (calculateScores g).getD 1 0 =
        g.flatten.countP (fun c => decide (c.owner ≠ none))) := by
  refine ⟨by rw [calculateScores_eq]; rfl, ?_, ?_, ?_⟩
  · intro i hi
    rw [calculateScores_eq]
    interval_cases i <;> rfl
  · intro s
    unfold scoreEffect
    simp only [calculateScores_eq]
    exact ⟨rfl, rfl⟩
  · intro hown
    rw [calculateScores_eq]
    show g.flatten.countP (fun c => decide (c.owner = some 1)) +
      g.flatten.countP (fun c => decide (c.owner = some 2)) = _
    rw [countP_owner_add]
    apply List.countP_congr
    intro c hc
    rw [List.mem_flatten] at hc
    obtain ⟨cells, h1, h2⟩ := hc
    have := hown cells h1 c h2
    unfold ownedByPlayer
    rcases this with h | h | h <;> simp [h]

/-! ### Counting cells by position -/

theorem cell_offBoard {N : Nat} {g : Grid} (hg : WF N g) {r c : Nat}
    (hb : ¬ (r < N ∧ c < N)) : g.cell r c = emptyCell := by
  unfold Grid.cell
  rw [hg.cell?_none hb]
  rfl

theorem wf_eq_table {N : Nat} {g : Grid} (hg : WF N g) :
    g = (List.range N).map (fun r => (List.range N).map (fun c => g.cell r c)) := by
  have hw : WF N ((List.range N).map (fun r => (List.range N).map (fun c => g.cell r c))) := by
    refine ⟨by simp, ?_⟩
    intro cells hc
    rw [List.mem_map] at hc
    obtain ⟨r, _, rfl⟩ := hc
    simp
  apply grid_ext hg hw
  intro r c
  by_cases hb : r < N ∧ c < N
  · have e : Grid.cell? ((List.range N).map (fun r => (List.range N).map (fun c => g.cell r c)))
        r c = some (g.cell r c) := by
      unfold Grid.cell?
      simp [List.getElem?_map, List.getElem?_range, hb.1, hb.2]
    exact (cell_of_cell? e).symm
  · rw [cell_offBoard hg hb, cell_offBoard hw hb]

theorem countP_table (f : Nat → Nat → Cell) (P : Cell → Bool) (cols rows : List Nat) :
    ((rows.map (fun r => cols.map (fun c => f r c))).flatten).countP P =
      (rows.flatMap (fun r => cols.map (fun c => (r, c)))).countP
        (fun p => P (f p.1 p.2)) := by
  induction rows with
  | nil => rfl
  | cons r rs ih =>
    rw [List.map_cons, List.flatten_cons, List.countP_append, ih, List.flatMap_cons,
      List.countP_append, List.countP_map, List.countP_map]
    rfl

/-- On an `N × N` grid the cells are counted position by position. -/
theorem countP_flatten_wf {N : Nat} {g : Grid} (hg : WF N g) (P : Cell → Bool) :
    g.flatten.countP P = (allPositions N).countP (fun p => P (g.cell p.1 p.2)) := by
  conv_lhs => rw [wf_eq_table hg]
  rw [countP_table]
  rfl

theorem score_sum_eq {N : Nat} {g : Grid} (hg : WF N g) :
    (calculateScores g).getD 0 0 + (calculateScores g).getD 1 0 =
      (allPositions N).countP (fun p => ownedByPlayer (g.cell p.1 p.2)) := by
  rw [calculateScores_eq, ← countP_flatten_wf hg]
  exact countP_owner_add g.flatten

/-! ### What the pass changes -/

/-- A cell changed by the pass was Active, owned by one player, and is Infected,
owned by the other. -/
theorem pass_changed_cell {N : Nat} {g : Grid} (hg : WF N g) (r c : Nat)
    (h : (checkAndInfectSurrounded N g).cell r c ≠ g.cell r c) :
    ∃ E A : Nat, ((E = 1 ∧ A = 2) ∨ (E = 2 ∧ A = 1)) ∧
      g.cell r c = ⟨CellType.active, some E⟩ ∧
      (checkAndInfectSurrounded N g).cell r c = ⟨CellType.infected, some A⟩ := by
  rcases pass_cell_cases hg (r, c) with ⟨e, _, _⟩ | ⟨hq, e⟩ | ⟨hq, e⟩
  · exact absurd e h
  · refine ⟨1, 2, Or.inl ⟨rfl, rfl⟩, ?_, e⟩
    have ha : ActiveOf g 1 (r, c) := hq.2.1
    cases hcell : g.cell r c with
    | mk t o =>
      have h1 : t = CellType.active := by have := ha.1; simp only [hcell] at this; exact this
      have h2 : o = some 1 := by have := ha.2; simp only [hcell] at this; exact this
      rw [h1, h2]
  · refine ⟨2, 1, Or.inr ⟨rfl, rfl⟩, ?_, e⟩
    have ha : ActiveOf g 2 (r, c) := hq.2.1
    cases hcell : g.cell r c with
    | mk t o =>
      have h1 : t = CellType.active := by have := ha.1; simp only [hcell] at this; exact this
      have h2 : o = some 2 := by have := ha.2; simp only [hcell] at this; exact this
      rw [h1, h2]

/-- C30: on an `N × N` grid the encirclement pass changes only Active cells: it
leaves every Empty cell and every Infected cell unchanged, gives every changed
cell type `infected` and the owner opposite to its previous owner, and
therefore preserves the set of owned positions and the sum of the two players'
scores. -/
theorem pass_changes_active_only (N : Nat) (g : Grid) (hg : WF N g) :
    (∀ r c, (g.cell r c).type ≠ CellType.active →
      (checkAndInfectSurrounded N g).cell r c = g.cell r c) ∧
    (∀ r c, (checkAndInfectSurrounded N g).cell r c ≠ g.cell r c →
      ∃ E A : Nat, ((E = 1 ∧ A = 2) ∨ (E = 2 ∧ A = 1)) ∧
        g.cell r c = ⟨CellType.active, some E⟩ ∧
        (checkAndInfectSurrounded N g).cell r c = ⟨CellType.infected, some A⟩) ∧
    (∀ r c, ((checkAndInfectSurrounded N g).cell r c).owner = none ↔
      (g.cell r c).owner = none) ∧
    (calculateScores (checkAndInfectSurrounded N g)).getD 0 0 +
        (calculateScores (checkAndInfectSurrounded N g)).getD 1 0 =
      (calculateScores g).getD 0 0 + (calculateScores g).getD 1 0 := by
  have hch := pass_changed_cell hg
  refine ⟨?_, hch, ?_, ?_⟩
  · intro r c hna
    by_contra hne
    obtain ⟨E, A, _, h1, _⟩ := hch r c hne
    rw [h1] at hna
    exact hna rfl
  · intro r c
    by_cases hne : (checkAndInfectSurrounded N g).cell r c = g.cell r c
    · rw [hne]
    · obtain ⟨E, A, _, h1, h2⟩ := hch r c hne
      rw [h1, h2]
      simp
  · rw [score_sum_eq (checkAndInfectSurrounded_wf hg), score_sum_eq hg]
    apply List.countP_congr
    intro p _
    by_cases hne : (checkAndInfectSurrounded N g).cell p.1 p.2 = g.cell p.1 p.2
    · rw [hne]
    · obtain ⟨E, A, hEA, h1, h2⟩ := hch p.1 p.2 hne
      rw [h1, h2]
      rcases hEA with ⟨rfl, rfl⟩ | ⟨rfl, rfl⟩ <;> decide

/-- Witness for C30 on the ring board. -/
theorem pass_changes_active_only_witness :
    WF 3 ringBoard ∧
    (calculateScores (checkAndInfectSurrounded 3 ringBoard)).getD 0 0 +
        (calculateScores (checkAndInfectSurrounded 3 ringBoard)).getD 1 0 =
      (calculateScores ringBoard).getD 0 0 + (calculateScores ringBoard).getD 1 0 :=
  ⟨by decide, (pass_changes_active_only 3 ringBoard (by decide)).2.2.2⟩

/-! ### Mutual and vacuous encirclement -/

/-- C28: on the 3 × 3 board with player 1 Active on the eight outer cells and
player 2 Active on `(1, 1)`, the eight-cell ring is one group, surrounded by
player 2 (its only outside neighbour is the centre), and the centre is
surrounded by player 1; one encirclement pass turns `(1, 1)` into Infected/1
and all eight ring cells into Infected/2, so the scores after the pass are 1
for player 1 and 8 for player 2. -/
theorem mutual_encirclement :
    (findConnectedEnemyGroup 3 ringBoard 0 0 1 []).1.length = 8 ∧
    isGroupSurrounded 3 ringBoard (findConnectedEnemyGroup 3 ringBoard 0 0 1 []).1 2 = true ∧
    isGroupSurrounded 3 ringBoard [(1, 1)] 1 = true ∧
    checkAndInfectSurrounded 3 ringBoard = ringBoardAfter ∧
    ringBoardAfter.cell 1 1 = infectedCell 1 ∧
    (∀ p ∈ allPositions 3, p ≠ (1, 1) → ringBoardAfter.cell p.1 p.2 = infectedCell 2) ∧
    calculateScores ringBoard = [8, 1] ∧
    calculateScores (checkAndInfectSurrounded 3 ringBoard) = [1, 8] := by
  decide!

/-- C29: for `N ≥ 1`, on an `N × N` grid in which every cell is Active and
owned by player `E`, the encirclement pass converts every cell to
`{infected, owner A}` for the other player `A`, although `A` owns no cell of
the grid: the board is one component without outside neighbour, so enclosure
holds vacuously. -/
theorem full_board_converted (N : Nat) (g : Grid) (E A : Nat) (_hN : 1 ≤ N) (hg : WF N g)
    (hEA : (E = 1 ∧ A = 2) ∨ (E = 2 ∧ A = 1))
    (hall : ∀ p : Pos, onBoard N p → g.cell p.1 p.2 = ⟨CellType.active, some E⟩) :
    (∀ p : Pos, onBoard N p → (checkAndInfectSurrounded N g).cell p.1 p.2 = infectedCell A) ∧
    (∀ r c : Nat, (g.cell r c).owner ≠ some A) := by
  have hne : E ≠ A := by rcases hEA with ⟨rfl, rfl⟩ | ⟨rfl, rfl⟩ <;> decide
  have hact : ∀ p : Pos, onBoard N p → ActiveOf g E p := by
    intro p hp
    unfold ActiveOf
    rw [hall p hp]
    exact ⟨rfl, rfl⟩
  have hq : ∀ p : Pos, onBoard N p → Qualifies N g E A p := by
    intro p hp
    refine ⟨hp, hact p hp, ?_, Or.inr ?_⟩
    · intro q hq n hnb hn1 hnc
      exfalso
      exact hnc (hq.step ⟨hq.active ⟨hp, hact p hp⟩, ⟨hnb, hact n hnb⟩, hn1⟩)
    · rintro ⟨q, hq, he | ⟨n, hnb, _, he⟩⟩
      · have := (hq.active ⟨hp, hact p hp⟩).2.1
        rw [he] at this
        exact CellType.noConfusion this
      · have := (hact n hnb).1
        rw [he] at this
        exact CellType.noConfusion this
  constructor
  · intro p hp
    obtain ⟨c12, c21, _⟩ := cell_checkAndInfectSurrounded hg p
    rcases hEA with ⟨rfl, rfl⟩ | ⟨rfl, rfl⟩
    · exact c12 (hq p hp)
    · exact c21 (hq p hp)
  · intro r c ho
    by_cases hb : onBoard N (r, c)
    · have := hall (r, c) hb
      simp only at this
      rw [this] at ho
      exact hne (Option.some.inj ho)
    · rw [cell_offBoard hg hb] at ho
      exact Option.noConfusion ho

/-- Witness for C29: the full 2 × 2 board of player 1. -/
theorem full_board_converted_witness :
    WF 2 fullBoard ∧
    (∀ p : Pos, onBoard 2 p → (checkAndInfectSurrounded 2 fullBoard).cell p.1 p.2 =
      infectedCell 2) := by
  refine ⟨by decide, (full_board_converted 2 fullBoard 1 2 (by decide) (by decide)
    (Or.inl ⟨rfl, rfl⟩) ?_).1⟩
  rintro ⟨r, c⟩ ⟨hr, hc⟩
  simp only at hr hc
  have hr2 : r < 2 := hr
  have hc2 : c < 2 := hc
  interval_cases r <;> interval_cases c <;> rfl

/-! ### The pass gives no legal action -/

/-- A cell owned by `pid` after the pass was owned by `pid` before it, or
belongs to a component that qualified for the attacker `pid`. -/
theorem owner_after_pass {N : Nat} {g : Grid} (hg : WF N g) {pid : Nat} {q : Pos}
    (h : ((checkAndInfectSurrounded N g).cell q.1 q.2).owner = some pid) :
    (g.cell q.1 q.2).owner = some pid ∨ ∃ E, Qualifies N g E pid q := by
  rcases pass_cell_cases hg q with ⟨e, _, _⟩ | ⟨hq, e⟩ | ⟨hq, e⟩
  · rw [e] at h
    exact Or.inl h
  · rw [e] at h
    have hA : pid = 2 := (Option.some.inj h).symm
    subst hA
    exact Or.inr ⟨1, hq⟩
  · rw [e] at h
    have hA : pid = 1 := (Option.some.inj h).symm
    subst hA
    exact Or.inr ⟨2, hq⟩

/-- A cell that is not Infected after the pass was not changed by it. -/
theorem unchanged_of_not_infected {N : Nat} {g : Grid} (hg : WF N g) {p : Pos}
    (h : ((checkAndInfectSurrounded N g).cell p.1 p.2).type ≠ CellType.infected) :
    (checkAndInfectSurrounded N g).cell p.1 p.2 = g.cell p.1 p.2 ∧
      ¬ Qualifies N g 1 2 p ∧ ¬ Qualifies N g 2 1 p := by
  rcases pass_cell_cases hg p with ⟨e, h1, h2⟩ | ⟨_, e⟩ | ⟨_, e⟩
  · exact ⟨e, h1, h2⟩
  · rw [e] at h
    exact absurd rfl h
  · rw [e] at h
    exact absurd rfl h

/-- On a grid satisfying the cell invariant, a birth that is legal after the
pass was legal before it. -/
theorem birth_before_pass {N : Nat} {g : Grid} (hg : WF N g) (hinv : GridInv g) {pid r c : Nat}
    (h : (r, c) ∈ (calculateAvailableActions N (checkAndInfectSurrounded N g) pid).birth) :
    (r, c) ∈ (calculateAvailableActions N g pid).birth := by
  rw [mem_birth_iff] at h ⊢
  obtain ⟨hb, ht, q, hqb, hq1, hqo⟩ := h
  have hun := unchanged_of_not_infected hg (p := (r, c)) (by
    show ((checkAndInfectSurrounded N g).cell r c).type ≠ CellType.infected
    rw [ht]; decide)
  have hcell : (checkAndInfectSurrounded N g).cell r c = g.cell r c := hun.1
  have hte : (g.cell r c).type = CellType.empty := by rw [← hcell]; exact ht
  refine ⟨hb, hte, ?_⟩
  rcases owner_after_pass hg hqo with ho | ⟨E, hQ⟩
  · exact ⟨q, hqb, hq1, ho⟩
  · exfalso
    obtain ⟨hqB, hqa, henc, _⟩ := hQ
    have hnc : ¬ Connected N g E q (r, c) := by
      intro hc
      have := (hc.active ⟨hqB, hqa⟩).2.1
      rw [hte] at this
      exact CellType.noConfusion this
    have ho := henc q (Connected.refl N g E q) (r, c) hb (by rw [manhattan_comm]; exact hq1) hnc
    have hnone := (hinv.cell r c).2 hte
    rw [hnone] at ho
    exact Option.noConfusion ho

/-- An attack that is legal after the pass was legal before it. -/
theorem attack_before_pass {N : Nat} {g : Grid} (hg : WF N g) {pid r c : Nat}
    (h : (r, c) ∈ (calculateAvailableActions N (checkAndInfectSurrounded N g) pid).attack) :
    (r, c) ∈ (calculateAvailableActions N g pid).attack := by
  rw [mem_attack_iff] at h ⊢
  obtain ⟨hb, ht, hno, q, hqb, hq1, hqo⟩ := h
  have hun := unchanged_of_not_infected hg (p := (r, c)) (by
    show ((checkAndInfectSurrounded N g).cell r c).type ≠ CellType.infected
    rw [ht]; decide)
  have hcell : (checkAndInfectSurrounded N g).cell r c = g.cell r c := hun.1
  have hta : (g.cell r c).type = CellType.active := by rw [← hcell]; exact ht
  have hnog : (g.cell r c).owner ≠ some pid := by rw [← hcell]; exact hno
  refine ⟨hb, hta, hnog, ?_⟩
  rcases owner_after_pass hg hqo with ho | ⟨E, hQ⟩
  · exact ⟨q, hqb, hq1, ho⟩
  · exfalso
    have hQ2 := hQ
    obtain ⟨hqB, hqa, henc, _⟩ := hQ
    by_cases hc : Connected N g E q (r, c)
    · have hQn : Qualifies N g E pid (r, c) := (Qualifies.component_congr ⟨hqB, hqa⟩ hc).2 hQ2
      rcases pass_cell_cases hg q with ⟨e, _, _⟩ | ⟨hq, e⟩ | ⟨hq, e⟩
      · rw [e] at hqo
        rw [hqa.2] at hqo
        have hE : E = pid := Option.some.inj hqo
        subst hE
        exact hnog ((hc.active ⟨hqB, hqa⟩).2.2)
      · rw [e] at hqo
        have hA : pid = 2 := (Option.some.inj hqo).symm
        subst hA
        have hE : E = 1 := by
          have := hq.2.1.2
          rw [hqa.2] at this
          exact Option.some.inj this
        subst hE
        exact hun.2.1 hQn
      · rw [e] at hqo
        have hA : pid = 1 := (Option.some.inj hqo).symm
        subst hA
        have hE : E = 2 := by
          have := hq.2.1.2
          rw [hqa.2] at this
          exact Option.some.inj this
        subst hE
        exact hun.2.2 hQn
    · exact hnog (henc q (Connected.refl N g E q) (r, c) hb
        (by rw [manhattan_comm]; exact hq1) hc)

/-- On a grid satisfying the cell invariant the pass cannot give a player a
legal action. -/
theorem no_legalAction_after_pass {N : Nat} {g : Grid} (hg : WF N g) (hinv : GridInv g)
    {pid : Nat} (h : ¬ HasLegalAction N g pid) :
    ¬ HasLegalAction N (checkAndInfectSurrounded N g) pid := by
  rintro ⟨⟨r, c⟩, hb | ha⟩
  · exact h ⟨(r, c), Or.inl (birth_before_pass hg hinv hb)⟩
  · exact h ⟨(r, c), Or.inr (attack_before_pass hg ha)⟩

/-- The variant handler ends the game when one of the two players has no legal
action on the grid after the pass. -/
theorem endTurnEffectAfterPass_ends (s : GameState) (hp : s.gamePhase = GamePhase.playing)
    (hal : s.actionsLeft = 0)
    (h : ¬ HasLegalAction s.gridSize (checkAndInfectSurrounded s.gridSize s.grid) 1 ∨
      ¬ HasLegalAction s.gridSize (checkAndInfectSurrounded s.gridSize s.grid) 2) :
    endTurnEffectAfterPass s =
      endGame { s with
        grid := checkAndInfectSurrounded s.gridSize s.grid
        log := s.log ++ infectionLog s.gridSize s.grid } := by
  have e1 : playerIdOf 0 = 1 := rfl
  have e2 : playerIdOf 1 = 2 := rfl
  unfold endTurnEffectAfterPass
  rw [if_pos ⟨hp, hal⟩]
  simp only [e1, e2]
  rw [if_pos]
  rcases h with h | h
  · rw [← canPlayerMove_iff, Bool.not_eq_true] at h
    simp [h]
  · rw [← canPlayerMove_iff, Bool.not_eq_true] at h
    simp [h]

/-- C31: an auto-skipped turn always ends the game: in phase Playing with
`actionsLeft = 0`, if the current player has empty birth and attack sets, the
exhaustion handler sets the phase to Ended and does not switch `currentPlayer`
or reset `actionsLeft` to 3.  On an `N × N` grid satisfying the cell invariant
the same holds for the handler that evaluates the end conditions on the grid
after the encirclement pass, since the pass cannot give that player a legal
action. -/
theorem auto_skip_always_ends (s : GameState) (hp : s.gamePhase = GamePhase.playing)
    (hal : s.actionsLeft = 0) (hcur : s.currentPlayer < 2)
    (hb : (calculateAvailableActions s.gridSize s.grid (playerIdOf s.currentPlayer)).birth = [])
    (ha : (calculateAvailableActions s.gridSize s.grid
      (playerIdOf s.currentPlayer)).attack = []) :
    ((endTurnEffect s).gamePhase = GamePhase.ended ∧
      (endTurnEffect s).currentPlayer = s.currentPlayer ∧
      (endTurnEffect s).actionsLeft = 0 ∧
      (endTurnEffect s).grid = checkAndInfectSurrounded s.gridSize s.grid) ∧
    (WF s.gridSize s.grid → GridInv s.grid →
      ((calculateAvailableActions s.gridSize (checkAndInfectSurrounded s.gridSize s.grid)
          (playerIdOf s.currentPlayer)).birth = [] ∧
        (calculateAvailableActions s.gridSize (checkAndInfectSurrounded s.gridSize s.grid)
          (playerIdOf s.currentPlayer)).attack = []) ∧
      (endTurnEffectAfterPass s).gamePhase = GamePhase.ended ∧
      (endTurnEffectAfterPass s).currentPlayer = s.currentPlayer ∧
      (endTurnEffectAfterPass s).actionsLeft = 0) := by
  have hno : ¬ HasLegalAction s.gridSize s.grid (playerIdOf s.currentPlayer) :=
    (not_hasLegalAction_iff _ _ _).2 ⟨hb, ha⟩
  constructor
  · have hnot : ¬ ((HasPresence s.gridSize s.grid 1 ∧ HasLegalAction s.gridSize s.grid 1) ∧
        (HasPresence s.gridSize s.grid 2 ∧ HasLegalAction s.gridSize s.grid 2)) := by
      rintro ⟨⟨_, l1⟩, ⟨_, l2⟩⟩
      rcases playerIdOf_cases hcur with h | h
      · rw [h] at hno; exact hno l1
      · rw [h] at hno; exact hno l2
    rw [(endTurnEffect_eq s hp hal).2 hnot]
    exact ⟨rfl, rfl, hal, rfl⟩
  · intro hg hinv
    have hno2 := no_legalAction_after_pass hg hinv hno
    refine ⟨(not_hasLegalAction_iff _ _ _).1 hno2, ?_⟩
    have hor : ¬ HasLegalAction s.gridSize (checkAndInfectSurrounded s.gridSize s.grid) 1 ∨
        ¬ HasLegalAction s.gridSize (checkAndInfectSurrounded s.gridSize s.grid) 2 := by
      rcases playerIdOf_cases hcur with h | h
      · rw [h] at hno2; exact Or.inl hno2
      · rw [h] at hno2; exact Or.inr hno2
    rw [endTurnEffectAfterPass_ends s hp hal hor]
    exact ⟨rfl, rfl, hal⟩

/-- Witness for C31: the stuck position with the turn already exhausted. -/
theorem auto_skip_always_ends_witness :
    (endTurnEffect { stuckState with actionsLeft := 0 }).gamePhase = GamePhase.ended ∧
    (endTurnEffect { stuckState with actionsLeft := 0 }).currentPlayer = 0 ∧
    (endTurnEffectAfterPass { stuckState with actionsLeft := 0 }).gamePhase =
      GamePhase.ended := by
  have h := auto_skip_always_ends { stuckState with actionsLeft := 0 } rfl rfl (by decide)
    (by decide!) (by decide!)
  exact ⟨h.1.1, h.1.2.1, (h.2 (by decide) (by decide)).2.1⟩

end KlopyGame
